import Mathlib

/-!
Placement strategies and deployment-spec builder of cdap-operator: a shallow
embedding of `controllers/deployment.go`.

Conventions of the embedding.

* A Go `map[K]V` is an association list `List (K × V)` whose keys are pairwise
  distinct; `GoMap.set` is the assignment `m[k] = v` and `GoMap.get?` the lookup
  `v, ok := m[k]`.  A map literal lists its entries in the order in which the
  source writes them, and a `range` over a map visits the entry list in order.
* A Go `error` is a value of `BuildError`; `BuildError.message` is the text the
  source passes to `fmt.Errorf`.  A function returning `(T, error)` returns
  `Except BuildError T`.
* A run-time panic is a result of its own.  `deployment.go` dereferences the
  pointer `Resources` of a service without a nil test: a function that does so
  and returns no error returns an `Option`, `none` being the panic, and a
  function that can also return an error returns an `Outcome`, which is a
  value, an error or the panic.
* `int32` and `int64` values are integers; arithmetic that can leave the 64-bit
  range is reduced with `wrapInt64`, and `uint64` arithmetic modulo `2 ^ 64`.
  A `float64` is a value of `Float64`, with the rounding of IEEE 754 binary64.
* The configuration types are declared outside `deployment.go`.  The fields
  `reflect` reads from a service's configuration hold a string or a slice of
  strings, directly or behind a pointer; the `Resources` of a service are a
  pointer, nil when the configuration has no resources block.  Constants and
  helpers declared in other files of the package are the fields of `Package`,
  or definitions whose comment says so.
-/

namespace CDAP

/-! ## Names -/

abbrev ServiceName := String
abbrev ServiceGroupName := String
abbrev ServiceGroup := List ServiceName
abbrev NetworkServiceName := String

/-- Modelled from the spec: the constant `serviceLogs` of the service catalog,
declared outside `deployment.go`. -/
def serviceLogs : ServiceName := "Logs"
/-- Modelled from the spec: the constant `serviceMessaging` of the service catalog. -/
def serviceMessaging : ServiceName := "Messaging"
/-- Modelled from the spec: the constant `serviceMetrics` of the service catalog. -/
def serviceMetrics : ServiceName := "Metrics"
/-- Modelled from the spec: the constant `servicePreview` of the service catalog. -/
def servicePreview : ServiceName := "Preview"
/-- Modelled from the spec: the constant `serviceAppFabric` of the service catalog. -/
def serviceAppFabric : ServiceName := "AppFabric"
/-- Modelled from the spec: the constant `serviceMetadata` of the service catalog. -/
def serviceMetadata : ServiceName := "Metadata"
/-- Modelled from the spec: the constant `serviceRouter` of the service catalog. -/
def serviceRouter : ServiceName := "Router"
/-- Modelled from the spec: the constant `serviceUserInterface` of the service catalog. -/
def serviceUserInterface : ServiceName := "UserInterface"

/-- The eight services of the catalog. -/
def serviceCatalog : List ServiceName :=
  [serviceLogs, serviceMessaging, serviceMetrics, servicePreview,
   serviceAppFabric, serviceMetadata, serviceRouter, serviceUserInterface]

/-! ## Go maps -/

abbrev GoMap (κ : Type) (ν : Type) := List (κ × ν)

/-- The assignment `m[k] = v`: replaces the entry of `k` when there is one,
adds a new entry otherwise. -/
def GoMap.set {κ ν : Type} [DecidableEq κ] : GoMap κ ν → κ → ν → GoMap κ ν
  | [], k, v => [(k, v)]
  | (k', v') :: rest, k, v =>
    if k' = k then (k, v) :: rest else (k', v') :: GoMap.set rest k v

/-- The lookup `v, ok := m[k]`. -/
def GoMap.get? {κ ν : Type} [DecidableEq κ] : GoMap κ ν → κ → Option ν
  | [], _ => none
  | (k', v') :: rest, k => if k' = k then some v' else GoMap.get? rest k

/-! ## Errors -/

deriving instance DecidableEq for Except

/-- The errors `deployment.go` creates with `fmt.Errorf`. -/
inductive BuildError where
  /-- The error of `getStrategy`. -/
  | unsupportedNumPods (numPods : Int)
  /-- The error of `extractFieldValueIfUnique` for a name that is not a field. -/
  | fieldNotValid (name : String)
  /-- The error of `extractFieldValueIfUnique` for values that differ. -/
  | notTheSame (fieldName : String) (services : ServiceGroup)
  /-- The error of `extractFieldValueAndUpdate`. -/
  | unableToCast (fieldName : String)
  /-- The error of `buildStateful` for a storage size that does not parse. -/
  | unableToParseStorageSize
  /-- The error of `buildStateful` for storage classes that differ. -/
  | storageClassInconsistent
  deriving DecidableEq, Repr

/-- The text of an error, as written in the calls of `fmt.Errorf`. -/
def BuildError.message : BuildError → String
  | .unsupportedNumPods numPods =>
    "unsupported deployment strategy for NumPods " ++ toString numPods
  | .fieldNotValid name => "filed " ++ name ++ " not valid"
  | .notTheSame fieldName services =>
    "value of field " ++ fieldName ++ " not the same across (" ++ ",".intercalate services ++ ")"
  | .unableToCast fieldName => "unable to cast value of field " ++ fieldName ++ " to string "
  | .unableToParseStorageSize => "unable to parse stroage size"
  | .storageClassInconsistent => "StorageClassName inconsistent across services in a group"

/-- The result of a call that returns `(T, error)` and can panic: the value
returned without an error, the error returned, or the run-time panic of a nil
pointer dereference, after which nothing is returned. -/
inductive Outcome (α : Type) where
  | ok (value : α)
  | error (err : BuildError)
  | panic
  deriving DecidableEq, Repr

/-- The value of an outcome, when there is one. -/
def Outcome.toOption {α : Type} : Outcome α → Option α
  | .ok a => some a
  | .error _ => none
  | .panic => none

/-- An outcome with a function applied to its value. -/
def Outcome.map {α β : Type} (f : α → β) : Outcome α → Outcome β
  | .ok a => .ok (f a)
  | .error err => .error err
  | .panic => .panic

/-- Whether an outcome is a value. -/
def Outcome.toBool {α : Type} : Outcome α → Bool
  | .ok _ => true
  | .error _ => false
  | .panic => false

/-! ## Placement strategies -/

structure ServiceGroupMap where
  /-- Map from statefulset object name to the services in this statefulset. -/
  stateful : GoMap ServiceGroupName ServiceGroup
  /-- Map from deployment object name to the services in this deployment. -/
  deployment : GoMap ServiceGroupName ServiceGroup
  /-- Map from k8s service object name to the CDAP service to be exposed. -/
  networkService : GoMap NetworkServiceName ServiceName
  deriving DecidableEq, Repr

structure DeploymentStrategy where
  /-- Map from the number of pods to the groups of services. -/
  strategyMap : GoMap Int ServiceGroupMap
  deriving DecidableEq, Repr

/-- Default: each service runs in its own pod. -/
def strategy0 : ServiceGroupMap :=
  { stateful := [("logs", [serviceLogs]), ("messaging", [serviceMessaging]),
                 ("metrics", [serviceMetrics]), ("preview", [servicePreview])]
    deployment := [("appfabric", [serviceAppFabric]), ("metadata", [serviceMetadata]),
                   ("router", [serviceRouter]), ("userinterface", [serviceUserInterface])]
    networkService := [("router", serviceRouter), ("userinterface", serviceUserInterface)] }

/-- One pod: all services run in a single pod.  The literal gives no
`deployment` map, which leaves it nil (empty). -/
def strategy1 : ServiceGroupMap :=
  { stateful := [("standalone",
      [serviceLogs, serviceMessaging, serviceMetrics, servicePreview, serviceAppFabric,
       serviceMetadata, serviceRouter, serviceUserInterface])]
    deployment := []
    networkService := [("router", serviceRouter), ("userinterface", serviceUserInterface)] }

/-- Two pods: UserInterface in its own pod, all other services in the backend pod. -/
def strategy2 : ServiceGroupMap :=
  { stateful := [("backend",
      [serviceLogs, serviceMessaging, serviceMetrics, servicePreview, serviceAppFabric,
       serviceMetadata, serviceRouter])]
    deployment := [("userinterface", [serviceUserInterface])]
    networkService := [("router", serviceRouter), ("userinterface", serviceUserInterface)] }

/-- Three pods: UserInterface and Router in their own pods, the rest in the backend pod. -/
def strategy3 : ServiceGroupMap :=
  { stateful := [("backend",
      [serviceLogs, serviceMessaging, serviceMetrics, servicePreview, serviceAppFabric,
       serviceMetadata])]
    deployment := [("router", [serviceRouter]), ("userinterface", [serviceUserInterface])]
    networkService := [("router", serviceRouter), ("userinterface", serviceUserInterface)] }

/-- `DeploymentStrategy.Init`: a fresh map, then the four assignments. -/
def DeploymentStrategy.Init (_d : DeploymentStrategy) : DeploymentStrategy :=
  let m0 : GoMap Int ServiceGroupMap := []
  let m1 := m0.set 0 strategy0
  let m2 := m1.set 1 strategy1
  let m3 := m2.set 2 strategy2
  let m4 := m3.set 3 strategy3
  { strategyMap := m4 }

/-- `DeploymentStrategy.getStrategy`. -/
def DeploymentStrategy.getStrategy (d : DeploymentStrategy) (numPods : Int) :
    Except BuildError ServiceGroupMap :=
  match d.strategyMap.get? numPods with
  | none => .error (.unsupportedNumPods numPods)
  | some s => .ok s

/-- The package variable `strategyHandler` after the package `init` has run. -/
def strategyHandler : DeploymentStrategy :=
  DeploymentStrategy.Init { strategyMap := [] }

/-- The services of every stateful group followed by those of every deployment group. -/
def ServiceGroupMap.allServices (s : ServiceGroupMap) : List ServiceName :=
  (s.stateful.map Prod.snd).flatten ++ (s.deployment.map Prod.snd).flatten

/-! ## The application configuration -/

/-- A `corev1.EnvVar`: the name and the value of an environment variable. -/
structure EnvVar where
  Name : String
  Value : String
  deriving DecidableEq, Repr

/-- A `corev1.ResourceRequirements`, as far as `deployment.go` reads it:
`requestsMemory` is `Requests.Memory().Value()` and `limitsMemory` is
`Limits.Memory().Value()`, both `int64`, 0 when the quantity is not set. -/
structure ResourceRequirements where
  requestsMemory : Int
  limitsMemory : Int
  deriving DecidableEq, Repr

/-- A value of a kind that has a length: a string or a slice of strings.
`reflect.DeepEqual` on two such values is their equality. -/
inductive FieldData where
  | str (s : String)
  | strs (xs : List String)
  deriving DecidableEq, Repr

/-- `reflect.Value.Len`: the number of bytes of a string, the number of
elements of a slice. -/
def FieldData.Len : FieldData → Nat
  | .str s => s.utf8ByteSize
  | .strs xs => xs.length

/-- The value `reflect` finds in a field of a service's configuration: a value
with a length, held directly or behind a pointer, which may be nil. -/
inductive FieldValue where
  | direct (v : FieldData)
  | nilPtr
  | ptr (v : FieldData)
  deriving DecidableEq, Repr

/-- The part of a service's configuration that `getCDAPServiceSpec` returns.
`Resources` is a `*corev1.ResourceRequirements`: `none` is the nil pointer. -/
structure CDAPServiceSpec where
  Env : List EnvVar
  Resources : Option ResourceRequirements
  deriving DecidableEq, Repr

/-- The part of a service's configuration that `getCDAPStatefulServiceSpec` returns. -/
structure CDAPStatefulServiceSpec where
  StorageSize : String
  StorageClassName : Option String
  deriving DecidableEq, Repr

/-- The part of a service's configuration that `getCDAPExternalService` returns. -/
structure CDAPExternalServiceSpec where
  ServiceType : Option String
  ServicePort : Option Int
  deriving DecidableEq, Repr

/-- The `Spec` of a `CDAPMaster`.  `fieldByName service` is
`reflect.ValueOf(master.Spec).FieldByName(service)`: `none` when the value is
not valid, otherwise the struct found there, given by its own `FieldByName`.
The last three fields are the typed views of the per-service configuration. -/
structure CDAPMasterSpec where
  ServiceAccountName : String
  NumPods : Option Int
  fieldByName : String → Option (String → Option FieldValue)
  serviceSpec : ServiceName → CDAPServiceSpec
  statefulServiceSpec : ServiceName → Option CDAPStatefulServiceSpec
  externalService : ServiceName → CDAPExternalServiceSpec

structure CDAPMasterStatus where
  ImageToUse : String
  UserInterfaceImageToUse : String
  deriving DecidableEq, Repr

structure CDAPMaster where
  Name : String
  Spec : CDAPMasterSpec
  Status : CDAPMasterStatus

/-- Modelled from the spec: the helper `getCDAPServiceSpec`, declared outside
`deployment.go`; it returns the per-service configuration sub-object. -/
def getCDAPServiceSpec (service : ServiceName) (master : CDAPMaster) : CDAPServiceSpec :=
  master.Spec.serviceSpec service

/-- Modelled from the spec: the helper `getCDAPStatefulServiceSpec`, declared
outside `deployment.go`; it returns the storage part of the per-service
configuration, or nil when the service has none. -/
def getCDAPStatefulServiceSpec (service : ServiceName) (master : CDAPMaster) :
    Option CDAPStatefulServiceSpec :=
  master.Spec.statefulServiceSpec service

/-- Modelled from the spec: the helper `getCDAPExternalService`, declared outside
`deployment.go`; it returns the externally declared type and port of a service. -/
def getCDAPExternalService (service : ServiceName) (master : CDAPMaster) :
    CDAPExternalServiceSpec :=
  master.Spec.externalService service

/-! ## float64 and int64 arithmetic -/

/-- The two's complement reduction of an integer to `int64`. -/
def wrapInt64 (x : Int) : Int := (x + 2 ^ 63) % 2 ^ 64 - 2 ^ 63

def bitLenAux : Nat → Nat → Nat
  | 0, _ => 0
  | fuel + 1, n => if n = 0 then 0 else bitLenAux fuel (n / 2) + 1

/-- The number of binary digits of `n`. -/
def bitLen (n : Nat) : Nat := bitLenAux n n

/-- A `float64`: a finite value `(-1) ^ neg * mant * 2 ^ exp`, an infinity or a NaN. -/
inductive Float64 where
  | finite (neg : Bool) (mant : Nat) (exp : Int)
  | inf (neg : Bool)
  | nan
  deriving DecidableEq, Repr

/-- The `float64` nearest to `(-1) ^ neg * n * 2 ^ e`, ties to the even
significand: 53 significant bits, least exponent `-1074`, infinity from
`2 ^ 1024` on. -/
def roundToFloat64 (neg : Bool) (n : Nat) (e : Int) : Float64 :=
  let k : Int := max ((bitLen n : Int) - 53) (-1074 - e)
  let d : Nat := 2 ^ k.toNat
  let q : Nat := n / d
  let r : Nat := n % d
  let q' : Nat := if d < 2 * r ∨ (2 * r = d ∧ q % 2 = 1) then q + 1 else q
  let m : Nat := if k ≤ 0 then n else q'
  let x : Int := if k ≤ 0 then e else e + k
  if 1024 < (bitLen m : Int) + x then .inf neg else .finite neg m x

/-- The conversion `float64(n)` of an `int64`. -/
def Float64.ofInt64 (n : Int) : Float64 :=
  roundToFloat64 (decide (n < 0)) n.natAbs 0

/-- The product of two `float64` values. -/
def Float64.mul : Float64 → Float64 → Float64
  | .finite s m e, .finite s' m' e' => roundToFloat64 (xor s s') (m * m') (e + e')
  | .finite s m _, .inf s' => if m = 0 then .nan else .inf (xor s s')
  | .inf s, .finite s' m' _ => if m' = 0 then .nan else .inf (xor s s')
  | .inf s, .inf s' => .inf (xor s s')
  | .nan, _ => .nan
  | _, .nan => .nan

/-- The conversion `int64(x)` of a `float64`: the value truncated towards zero.
Where the truncated value is not an `int64` (also for an infinity or a NaN) Go
leaves the result to the implementation; this is the result on x86-64, the
least `int64`. -/
def Float64.toInt64 : Float64 → Int
  | .finite neg m e =>
    let t : Nat := if 0 ≤ e then m * 2 ^ e.toNat else m / 2 ^ (-e).toNat
    let v : Int := if neg then -(t : Int) else (t : Int)
    if -2 ^ 63 ≤ v ∧ v < 2 ^ 63 then v else -2 ^ 63
  | .inf _ => -2 ^ 63
  | .nan => -2 ^ 63

/-- Modelled from the spec: the helper `Max`, declared outside `deployment.go`;
the larger of two `int64`. -/
def Max (x y : Int) : Int := if x < y then y else x

/-! ## Declarations of the package outside `deployment.go` -/

/-- The constants and the size codec that `deployment.go` uses and that are
declared in other files of the package.  `FromHumanReadableBytes s` is `none`
when the call returns an error, otherwise the `uint64` it returns. -/
structure Package where
  javaMaxHeapSizeEnvVarName : String
  javaReservedNonHeap : Int
  javaMinHeapRatio : Float64
  labelContainerKeyPrefix : String
  configMapCConf : String
  configMapHConf : String
  confLocalDataDirVal : String
  containerStorageMain : String
  FromHumanReadableBytes : String → Option Nat
  ToHumanReadableBytes : Nat → String
  fromHumanReadableBytes_lt : ∀ s n, FromHumanReadableBytes s = some n → n < 2 ^ 64

/-- Modelled from the spec: the helper `getObjectName`, declared outside
`deployment.go`; the object name is `<applicationName>-<groupOrServiceName>`. -/
def getObjectName (masterName : String) (name : String) : String :=
  masterName ++ "-" ++ name

/-! ## The specs that are built -/

/-- Modelled from the spec: the type `ContainerSpec`, declared outside
`deployment.go`, with the fields that the constructor arguments and the setters
called in `deployment.go` fill.  `Image` is `none` until `setImage` is called:
what the constructor itself derives from the master is not represented. -/
structure ContainerSpec where
  Name : String
  DataDir : String
  Image : Option String
  WorkingDir : String
  Command : List String
  Args : List String
  Env : List EnvVar
  Resources : Option ResourceRequirements
  deriving DecidableEq, Repr

/-- Modelled from the spec: the constructor `newContainerSpec`; it records the
container name and the data directory. -/
def newContainerSpec (name : String) (dataDir : String) (_master : CDAPMaster) : ContainerSpec :=
  { Name := name, DataDir := dataDir, Image := none, WorkingDir := "",
    Command := [], Args := [], Env := [], Resources := none }

/-- Modelled from the spec: the setter `setImage`. -/
def ContainerSpec.setImage (c : ContainerSpec) (image : String) : ContainerSpec :=
  { c with Image := some image }
/-- Modelled from the spec: the setter `setWorkingDir`. -/
def ContainerSpec.setWorkingDir (c : ContainerSpec) (dir : String) : ContainerSpec :=
  { c with WorkingDir := dir }
/-- Modelled from the spec: the setter `setCommand`. -/
def ContainerSpec.setCommand (c : ContainerSpec) (cmd : List String) : ContainerSpec :=
  { c with Command := cmd }
/-- Modelled from the spec: the setter `setArgs`. -/
def ContainerSpec.setArgs (c : ContainerSpec) (args : List String) : ContainerSpec :=
  { c with Args := args }
/-- Modelled from the spec: the setter `setEnv`. -/
def ContainerSpec.setEnv (c : ContainerSpec) (env : List EnvVar) : ContainerSpec :=
  { c with Env := env }
/-- Modelled from the spec: the setter `addEnv`; it appends one variable. -/
def ContainerSpec.addEnv (c : ContainerSpec) (name value : String) : ContainerSpec :=
  { c with Env := c.Env ++ [{ Name := name, Value := value }] }
/-- Modelled from the spec: the setter `setResources`; it stores the pointer
it is given. -/
def ContainerSpec.setResources (c : ContainerSpec) (r : Option ResourceRequirements) :
    ContainerSpec :=
  { c with Resources := r }

/-- Modelled from the spec: the fields shared by the stateful and the stateless
workload spec (types declared outside `deployment.go`): object name, label set,
the two config-map names, the reconciled service account, runtime class and
priority class, the node selector and one container per service. -/
structure BaseSpec where
  Name : String
  Labels : GoMap String String
  CConf : String
  HConf : String
  ServiceAccountName : String
  NodeSelector : GoMap String String
  RuntimeClassName : String
  PriorityClassName : String
  Containers : List ContainerSpec
  deriving DecidableEq, Repr

/-- Modelled from the spec: the constructor shared by `newStatefulSpec` and
`newDeploymentSpec`; the label set starts as a copy of the labels passed in. -/
def newBaseSpec (name : String) (labels : GoMap String String) (cconf hconf : String)
    (_master : CDAPMaster) : BaseSpec :=
  { Name := name, Labels := labels, CConf := cconf, HConf := hconf, ServiceAccountName := "",
    NodeSelector := [], RuntimeClassName := "", PriorityClassName := "", Containers := [] }

/-- Modelled from the spec: the type `StatefulSpec`: a workload spec with an
init container list, an aggregate storage size and a storage class. -/
structure StatefulSpec where
  Base : BaseSpec
  InitContainers : List ContainerSpec
  StorageClassName : Option String
  StorageSize : String
  deriving DecidableEq, Repr

/-- Modelled from the spec: the type `DeploymentSpec`: a workload spec without
storage and without init containers. -/
structure DeploymentSpec where
  Base : BaseSpec
  deriving DecidableEq, Repr

/-- Modelled from the spec: the constructor `newStatefulSpec`. -/
def newStatefulSpec (name : String) (labels : GoMap String String) (cconf hconf : String)
    (master : CDAPMaster) : StatefulSpec :=
  { Base := newBaseSpec name labels cconf hconf master, InitContainers := [],
    StorageClassName := none, StorageSize := "" }

/-- Modelled from the spec: the constructor `newDeploymentSpec`. -/
def newDeploymentSpec (name : String) (labels : GoMap String String) (cconf hconf : String)
    (master : CDAPMaster) : DeploymentSpec :=
  { Base := newBaseSpec name labels cconf hconf master }

/-- Modelled from the spec: the setter `setServiceAccountName`. -/
def BaseSpec.setServiceAccountName (s : BaseSpec) (v : String) : BaseSpec :=
  { s with ServiceAccountName := v }
/-- Modelled from the spec: the setter `setNodeSelector`. -/
def BaseSpec.setNodeSelector (s : BaseSpec) (v : GoMap String String) : BaseSpec :=
  { s with NodeSelector := v }
/-- Modelled from the spec: the setter `setRuntimeClassName`. -/
def BaseSpec.setRuntimeClassName (s : BaseSpec) (v : String) : BaseSpec :=
  { s with RuntimeClassName := v }
/-- Modelled from the spec: the setter `setPriorityClassName`. -/
def BaseSpec.setPriorityClassName (s : BaseSpec) (v : String) : BaseSpec :=
  { s with PriorityClassName := v }
/-- Modelled from the spec: the method `withContainer`; it appends a container. -/
def BaseSpec.withContainer (s : BaseSpec) (c : ContainerSpec) : BaseSpec :=
  { s with Containers := s.Containers ++ [c] }
/-- Modelled from the spec: the method `addLabel`; it sets one label. -/
def BaseSpec.addLabel (s : BaseSpec) (key value : String) : BaseSpec :=
  { s with Labels := s.Labels.set key value }

/-- Modelled from the spec: the method `withInitContainer` of `StatefulSpec`. -/
def StatefulSpec.withInitContainer (s : StatefulSpec) (c : ContainerSpec) : StatefulSpec :=
  { s with InitContainers := s.InitContainers ++ [c] }
/-- Modelled from the spec: the method `withStorage` of `StatefulSpec`. -/
def StatefulSpec.withStorage (s : StatefulSpec) (storageClassName : Option String)
    (storageSize : String) : StatefulSpec :=
  { s with StorageClassName := storageClassName, StorageSize := storageSize }

/-- Modelled from the spec: the type `NetworkServiceSpec`: object name, label
set, selector, and the externally visible type and port. -/
structure NetworkServiceSpec where
  Name : String
  Labels : GoMap String String
  Selectors : GoMap String String
  ServiceType : Option String
  ServicePort : Option Int
  deriving DecidableEq, Repr

/-- Modelled from the spec: the constructor `newNetworkServiceSpec`. -/
def newNetworkServiceSpec (name : String) (labels : GoMap String String)
    (serviceType : Option String) (port : Option Int) (_master : CDAPMaster) :
    NetworkServiceSpec :=
  { Name := name, Labels := labels, Selectors := [], ServiceType := serviceType,
    ServicePort := port }

/-- Modelled from the spec: the method `addSelector`; it sets one selector. -/
def NetworkServiceSpec.addSelector (s : NetworkServiceSpec) (key value : String) :
    NetworkServiceSpec :=
  { s with Selectors := s.Selectors.set key value }

/-- Modelled from the spec: the type `CDAPDeploymentSpec`, the bundle of specs. -/
structure CDAPDeploymentSpec where
  Stateful : List StatefulSpec
  Deployment : List DeploymentSpec
  NetworkServices : List NetworkServiceSpec
  deriving DecidableEq, Repr

/-- Modelled from the spec: the constructor `newCDAPDeploymentSpec`. -/
def newCDAPDeploymentSpec : CDAPDeploymentSpec :=
  { Stateful := [], Deployment := [], NetworkServices := [] }
/-- Modelled from the spec: the method `withStateful`. -/
def CDAPDeploymentSpec.withStateful (s : CDAPDeploymentSpec) (x : StatefulSpec) :
    CDAPDeploymentSpec :=
  { s with Stateful := s.Stateful ++ [x] }
/-- Modelled from the spec: the method `withDeployment`. -/
def CDAPDeploymentSpec.withDeployment (s : CDAPDeploymentSpec) (x : DeploymentSpec) :
    CDAPDeploymentSpec :=
  { s with Deployment := s.Deployment ++ [x] }
/-- Modelled from the spec: the method `withNetworkService`. -/
def CDAPDeploymentSpec.withNetworkService (s : CDAPDeploymentSpec) (x : NetworkServiceSpec) :
    CDAPDeploymentSpec :=
  { s with NetworkServices := s.NetworkServices ++ [x] }

/-! ## The operations of `deployment.go` -/

/-- The loop of `addJavaMaxHeapEnvIfNotPresent` that looks for the heap-size
variable: `hasMaxHeap` after the entries of `env` have been visited. -/
def hasMaxHeapLoop (pkg : Package) : List EnvVar → Bool → Bool
  | [], hasMaxHeap => hasMaxHeap
  | e :: rest, hasMaxHeap =>
    if e.Name = pkg.javaMaxHeapSizeEnvVarName then hasMaxHeapLoop pkg rest true
    else hasMaxHeapLoop pkg rest hasMaxHeap

/-- `addJavaMaxHeapEnvIfNotPresent`.  `resources` is a pointer, `none` when
nil; the function reads `resources.Requests` without a nil test, so for a nil
pointer and an environment without the heap-size variable it panics: the result
is `none`. -/
def addJavaMaxHeapEnvIfNotPresent (pkg : Package) (env : List EnvVar)
    (resources : Option ResourceRequirements) : Option (List EnvVar) :=
  let hasMaxHeap := hasMaxHeapLoop pkg env false
  if !hasMaxHeap then
    match resources with
    | none => none
    | some resources =>
      let memory := Max resources.requestsMemory resources.limitsMemory
      if memory > 0 then
        let xmx := Max (wrapInt64 (memory - pkg.javaReservedNonHeap))
          (Float64.toInt64 (Float64.mul (Float64.ofInt64 memory) pkg.javaMinHeapRatio))
        some (env ++ [{ Name := pkg.javaMaxHeapSizeEnvVarName, Value := "-Xmx" ++ toString xmx }])
      else some env
  else some env

/-- The first loop of `extractFieldValueIfUnique`: the non-empty values of the
field `fieldName` of the services still to visit, appended to `values`. -/
def collectFieldValues (master : CDAPMaster) (fieldName : String) :
    ServiceGroup → List FieldData → Except BuildError (List FieldData)
  | [], values => .ok values
  | service :: rest, values =>
    match master.Spec.fieldByName service with
    | none => .error (.fieldNotValid service)
    | some specVal =>
      match specVal fieldName with
      | none => .error (.fieldNotValid fieldName)
      | some .nilPtr => collectFieldValues master fieldName rest values
      | some (.ptr v) =>
        if v.Len = 0 then collectFieldValues master fieldName rest values
        else collectFieldValues master fieldName rest (values ++ [v])
      | some (.direct v) =>
        if v.Len = 0 then collectFieldValues master fieldName rest values
        else collectFieldValues master fieldName rest (values ++ [v])

/-- The second loop of `extractFieldValueIfUnique`, from `returnVal` on. -/
def uniqueFieldValue (services : ServiceGroup) (fieldName : String) :
    List FieldData → Option FieldData → Except BuildError (Option FieldData)
  | [], returnVal => .ok returnVal
  | v :: rest, none => uniqueFieldValue services fieldName rest (some v)
  | v :: rest, some r =>
    if r ≠ v then .error (.notTheSame fieldName services)
    else uniqueFieldValue services fieldName rest (some r)

/-- `extractFieldValueIfUnique`: `.ok none` is the nil value. -/
def extractFieldValueIfUnique (master : CDAPMaster) (services : ServiceGroup)
    (fieldName : String) : Except BuildError (Option FieldData) :=
  match collectFieldValues master fieldName services [] with
  | .error err => .error err
  | .ok values => uniqueFieldValue services fieldName values none

/-- The closure `extractFieldValueAndUpdate` of `buildCDAPDeploymentSpec`: the
result is the content of `*value` after the call. -/
def extractFieldValueAndUpdate (master : CDAPMaster) (services : ServiceGroup)
    (fieldName : String) (value : String) : Except BuildError String :=
  match extractFieldValueIfUnique master services fieldName with
  | .error err => .error err
  | .ok none => .ok value
  | .ok (some (.str newVal)) => .ok newVal
  | .ok (some (.strs _)) => .error (.unableToCast fieldName)

/-- The closure `updateSpecForUserInterface` of `buildCDAPDeploymentSpec`. -/
def updateSpecForUserInterface (master : CDAPMaster) (c : ContainerSpec) : ContainerSpec :=
  ((((c.setImage master.Status.UserInterfaceImageToUse).setWorkingDir "/opt/cdap/ui").setCommand
    ["bin/node"]).setArgs ["index.js", "start"]).addEnv "NODE_ENV" "production"

/-- The container built for one service in the loops of `buildStateful` and
`buildDeployment`; `none` when `addJavaMaxHeapEnvIfNotPresent` panics. -/
def serviceContainer (pkg : Package) (m : CDAPMaster) (service : ServiceName) :
    Option ContainerSpec :=
  let serviceSpec := getCDAPServiceSpec service m
  match addJavaMaxHeapEnvIfNotPresent pkg serviceSpec.Env serviceSpec.Resources with
  | none => none
  | some env =>
    let c := ((newContainerSpec service pkg.confLocalDataDirVal m).setResources
      serviceSpec.Resources).setEnv env
    some (if service = serviceUserInterface then updateSpecForUserInterface m c else c)

/-- The loop over the services of a group in `buildStateful` and
`buildDeployment`: one container and one label per service; `none` when the
loop panics at one of the services. -/
def addServiceContainers (pkg : Package) (m : CDAPMaster) :
    ServiceGroup → BaseSpec → Option BaseSpec
  | [], spec => some spec
  | service :: rest, spec =>
    match serviceContainer pkg m service with
    | none => none
    | some c =>
      addServiceContainers pkg m rest
        ((spec.withContainer c).addLabel (pkg.labelContainerKeyPrefix ++ service) m.Name)

/-- The first half of the body of the storage loop of `buildStateful`: the total
after the storage size of one service has been parsed and added, in `uint64`. -/
def addStorageSize (pkg : Package) (serviceStatefulSpec : CDAPStatefulServiceSpec)
    (totalStorageSize : Nat) : Except BuildError Nat :=
  if serviceStatefulSpec.StorageSize ≠ "" then
    match pkg.FromHumanReadableBytes serviceStatefulSpec.StorageSize with
    | none => .error .unableToParseStorageSize
    | some size => .ok ((totalStorageSize + size) % 2 ^ 64)
  else .ok totalStorageSize

/-- The storage loop of `buildStateful`, from the state
`(storageClassName, totalStorageSize)` on. -/
def aggregateStorage (pkg : Package) (m : CDAPMaster) :
    ServiceGroup → Option String → Nat → Except BuildError (Option String × Nat)
  | [], storageClassName, totalStorageSize => .ok (storageClassName, totalStorageSize)
  | service :: rest, storageClassName, totalStorageSize =>
    match getCDAPStatefulServiceSpec service m with
    | none => aggregateStorage pkg m rest storageClassName totalStorageSize
    | some serviceStatefulSpec =>
      match addStorageSize pkg serviceStatefulSpec totalStorageSize with
      | .error err => .error err
      | .ok total =>
        match serviceStatefulSpec.StorageClassName, storageClassName with
        | none, _ => aggregateStorage pkg m rest storageClassName total
        | some c, none => aggregateStorage pkg m rest (some c) total
        | some c, some c' =>
          if c' ≠ c then .error .storageClassInconsistent
          else aggregateStorage pkg m rest storageClassName total

/-- The closure `buildStateful` of `buildCDAPDeploymentSpec`.  The container
loop runs after the three reconciliations and before the storage loop. -/
def buildStateful (pkg : Package) (m : CDAPMaster) (labels : GoMap String String)
    (name : String) (serviceGroup : ServiceGroup) : Outcome StatefulSpec :=
  let cconf := getObjectName m.Name pkg.configMapCConf
  let hconf := getObjectName m.Name pkg.configMapHConf
  let dataDir := pkg.confLocalDataDirVal
  let objectName := getObjectName m.Name name
  match extractFieldValueAndUpdate m serviceGroup "ServiceAccountName"
      m.Spec.ServiceAccountName with
  | .error err => .error err
  | .ok serviceAccount =>
  match extractFieldValueAndUpdate m serviceGroup "RuntimeClassName" "" with
  | .error err => .error err
  | .ok runtimeClass =>
  match extractFieldValueAndUpdate m serviceGroup "PriorityClassName" "" with
  | .error err => .error err
  | .ok priorityClass =>
  let spec := newStatefulSpec objectName labels cconf hconf m
  let spec := { spec with Base := (((spec.Base.setServiceAccountName serviceAccount).setNodeSelector
    []).setRuntimeClassName runtimeClass).setPriorityClassName priorityClass }
  let spec := spec.withInitContainer
    ((newContainerSpec "StorageInit" dataDir m).setArgs [pkg.containerStorageMain])
  match addServiceContainers pkg m serviceGroup spec.Base with
  | none => .panic
  | some base =>
  let spec := { spec with Base := base }
  match aggregateStorage pkg m serviceGroup none 0 with
  | .error err => .error err
  | .ok (storageClassName, totalStorageSize) =>
    let storageSize :=
      if totalStorageSize > 0 then pkg.ToHumanReadableBytes totalStorageSize else ""
    .ok (spec.withStorage storageClassName storageSize)

/-- The closure `buildDeployment` of `buildCDAPDeploymentSpec`. -/
def buildDeployment (pkg : Package) (m : CDAPMaster) (labels : GoMap String String)
    (name : String) (serviceGroup : ServiceGroup) : Outcome DeploymentSpec :=
  let cconf := getObjectName m.Name pkg.configMapCConf
  let hconf := getObjectName m.Name pkg.configMapHConf
  let objectName := getObjectName m.Name name
  match extractFieldValueAndUpdate m serviceGroup "ServiceAccountName"
      m.Spec.ServiceAccountName with
  | .error err => .error err
  | .ok serviceAccount =>
  match extractFieldValueAndUpdate m serviceGroup "RuntimeClassName" "" with
  | .error err => .error err
  | .ok runtimeClass =>
  match extractFieldValueAndUpdate m serviceGroup "PriorityClassName" "" with
  | .error err => .error err
  | .ok priorityClass =>
  let spec := newDeploymentSpec objectName labels cconf hconf m
  let spec : DeploymentSpec :=
    { Base := (((spec.Base.setServiceAccountName serviceAccount).setNodeSelector
      []).setRuntimeClassName runtimeClass).setPriorityClassName priorityClass }
  match addServiceContainers pkg m serviceGroup spec.Base with
  | none => .panic
  | some base => .ok { Base := base }

/-- The closure `buildNetworkService` of `buildCDAPDeploymentSpec`. -/
def buildNetworkService (pkg : Package) (m : CDAPMaster) (labels : GoMap String String)
    (name : NetworkServiceName) (target : ServiceName) (networkType : Option String)
    (networkPort : Option Int) : NetworkServiceSpec :=
  let objectName := getObjectName m.Name name
  let spec := newNetworkServiceSpec objectName labels networkType networkPort m
  spec.addSelector (pkg.labelContainerKeyPrefix ++ target) m.Name

/-- The loop of `buildCDAPDeploymentSpec` over the stateful groups, which are
visited in the order of the entry list. -/
def buildAllStateful (pkg : Package) (m : CDAPMaster) (labels : GoMap String String) :
    GoMap ServiceGroupName ServiceGroup → CDAPDeploymentSpec → Outcome CDAPDeploymentSpec
  | [], spec => .ok spec
  | (k, v) :: rest, spec =>
    match buildStateful pkg m labels k v with
    | .panic => .panic
    | .error err => .error err
    | .ok statefulsetSpec => buildAllStateful pkg m labels rest (spec.withStateful statefulsetSpec)

/-- The loop of `buildCDAPDeploymentSpec` over the deployment groups. -/
def buildAllDeployment (pkg : Package) (m : CDAPMaster) (labels : GoMap String String) :
    GoMap ServiceGroupName ServiceGroup → CDAPDeploymentSpec → Outcome CDAPDeploymentSpec
  | [], spec => .ok spec
  | (k, v) :: rest, spec =>
    match buildDeployment pkg m labels k v with
    | .panic => .panic
    | .error err => .error err
    | .ok deploymentSpec => buildAllDeployment pkg m labels rest (spec.withDeployment deploymentSpec)

/-- The loop of `buildCDAPDeploymentSpec` over the exposed services. -/
def buildAllNetworkServices (pkg : Package) (m : CDAPMaster) (labels : GoMap String String) :
    GoMap NetworkServiceName ServiceName → CDAPDeploymentSpec → CDAPDeploymentSpec
  | [], spec => spec
  | (name, targetService) :: rest, spec =>
    let s := getCDAPExternalService targetService m
    buildAllNetworkServices pkg m labels rest
      (spec.withNetworkService
        (buildNetworkService pkg m labels name targetService s.ServiceType s.ServicePort))

/-- The part of `buildCDAPDeploymentSpec` after the strategy has been found:
the three loops over the maps of `serviceGroupMap`.  Go visits the entries of
a map in an order it does not specify; here it is the order of the entry list. -/
def buildFromServiceGroupMap (pkg : Package) (m : CDAPMaster) (labels : GoMap String String)
    (serviceGroupMap : ServiceGroupMap) : Outcome CDAPDeploymentSpec :=
  match buildAllStateful pkg m labels serviceGroupMap.stateful newCDAPDeploymentSpec with
  | .panic => .panic
  | .error err => .error err
  | .ok spec =>
    match buildAllDeployment pkg m labels serviceGroupMap.deployment spec with
    | .panic => .panic
    | .error err => .error err
    | .ok spec => .ok (buildAllNetworkServices pkg m labels serviceGroupMap.networkService spec)

/-- `buildCDAPDeploymentSpec`.  The zero value `&CDAPDeploymentSpec{}` of the
first return is the bundle with three nil lists. -/
def buildCDAPDeploymentSpec (pkg : Package) (master : CDAPMaster)
    (labels : GoMap String String) : Outcome CDAPDeploymentSpec :=
  if master.Status.ImageToUse = "" ∨ master.Status.UserInterfaceImageToUse = "" then
    .ok { Stateful := [], Deployment := [], NetworkServices := [] }
  else
    let numPods : Int := match master.Spec.NumPods with
      | none => 0
      | some n => n
    match strategyHandler.getStrategy numPods with
    | .error err => .error err
    | .ok serviceGroupMap => buildFromServiceGroupMap pkg master labels serviceGroupMap

/-! ## Vocabulary of the statements -/

/-- The value `reflect` finds for the field `fieldName` of the configuration of
`service`; `none` when the service or the field does not exist. -/
def fieldValueOf (master : CDAPMaster) (service : ServiceName) (fieldName : String) :
    Option FieldValue :=
  match master.Spec.fieldByName service with
  | none => none
  | some specVal => specVal fieldName

/-- The non-empty value a field value carries; `none` for a nil pointer and for
a value of length zero. -/
def FieldValue.nonEmpty : FieldValue → Option FieldData
  | .nilPtr => none
  | .ptr v => if v.Len = 0 then none else some v
  | .direct v => if v.Len = 0 then none else some v

/-- The non-empty value a service reports for a field, if it reports one. -/
def reportedValue (master : CDAPMaster) (fieldName : String) (service : ServiceName) :
    Option FieldData :=
  (fieldValueOf master service fieldName).bind FieldValue.nonEmpty

/-- The field `fieldName` exists on the configuration of every service of the group. -/
def FieldExists (master : CDAPMaster) (services : ServiceGroup) (fieldName : String) : Prop :=
  ∀ s ∈ services, (fieldValueOf master s fieldName).isSome = true

instance (master : CDAPMaster) (services : ServiceGroup) (fieldName : String) :
    Decidable (FieldExists master services fieldName) := by
  unfold FieldExists; infer_instance

/-- The struct `reflect` finds for a service that has the three reconciled
fields, each held directly as a string. -/
def stringFields (serviceAccountName runtimeClassName priorityClassName : String) :
    String → Option FieldValue := fun fieldName =>
  if fieldName = "ServiceAccountName" then some (.direct (.str serviceAccountName))
  else if fieldName = "RuntimeClassName" then some (.direct (.str runtimeClassName))
  else if fieldName = "PriorityClassName" then some (.direct (.str priorityClassName))
  else none

/-- A configuration of the eight catalog services, given by the service account
name and the storage declaration of each; the `Resources` of every service are
set, with neither a memory request nor a memory limit, and everything else is
left unset. -/
def masterOf (numPods : Option Int) (imageToUse userInterfaceImageToUse : String)
    (serviceAccount : ServiceName → String)
    (storage : ServiceName → Option CDAPStatefulServiceSpec) : CDAPMaster :=
  { Name := "cdap"
    Spec :=
      { ServiceAccountName := ""
        NumPods := numPods
        fieldByName := fun service =>
          if service ∈ serviceCatalog then some (stringFields (serviceAccount service) "" "")
          else none
        serviceSpec := fun _ =>
          { Env := [], Resources := some { requestsMemory := 0, limitsMemory := 0 } }
        statefulServiceSpec := storage
        externalService := fun _ => { ServiceType := none, ServicePort := none } }
    Status := { ImageToUse := imageToUse, UserInterfaceImageToUse := userInterfaceImageToUse } }

/-- Logs and Messaging report the service account "sa1", Metrics reports the
empty string. -/
def masterAgreeing : CDAPMaster :=
  masterOf none "cdap:6.1" "cdap-ui:6.1"
    (fun s => if s = serviceLogs ∨ s = serviceMessaging then "sa1" else "") (fun _ => none)

/-- Logs reports the service account "sa1" and Messaging reports "sa2". -/
def masterDiverging : CDAPMaster :=
  masterOf (some 99) "" "cdap-ui:6.1"
    (fun s => if s = serviceLogs then "sa1" else if s = serviceMessaging then "sa2" else "")
    (fun _ => none)

/-- The three field reconciliations of `buildStateful` and `buildDeployment`
succeed on the group. -/
def ReconciliationSucceeds (m : CDAPMaster) (serviceGroup : ServiceGroup) : Prop :=
  (∃ v, extractFieldValueAndUpdate m serviceGroup "ServiceAccountName"
    m.Spec.ServiceAccountName = .ok v) ∧
  (∃ v, extractFieldValueAndUpdate m serviceGroup "RuntimeClassName" "" = .ok v) ∧
  (∃ v, extractFieldValueAndUpdate m serviceGroup "PriorityClassName" "" = .ok v)

/-- The storage size a service declares parses: the service has no storage
configuration, or its size is empty, or `FromHumanReadableBytes` accepts it. -/
def storageSizeParses (pkg : Package) (m : CDAPMaster) (service : ServiceName) : Bool :=
  match getCDAPStatefulServiceSpec service m with
  | none => true
  | some ss => ss.StorageSize = "" || (pkg.FromHumanReadableBytes ss.StorageSize).isSome

/-- The parsed storage size a service declares; 0 when it declares none. -/
def declaredStorageSize (pkg : Package) (m : CDAPMaster) (service : ServiceName) : Nat :=
  match getCDAPStatefulServiceSpec service m with
  | none => 0
  | some ss =>
    if ss.StorageSize = "" then 0 else (pkg.FromHumanReadableBytes ss.StorageSize).getD 0

/-- The sum of the parsed storage sizes the services of a group declare. -/
def totalDeclaredStorage (pkg : Package) (m : CDAPMaster) (serviceGroup : ServiceGroup) : Nat :=
  (serviceGroup.map (declaredStorageSize pkg m)).sum

/-- The storage class a service declares; `none` when it declares none. -/
def declaredStorageClass (m : CDAPMaster) (service : ServiceName) : Option String :=
  (getCDAPStatefulServiceSpec service m).bind (fun ss => ss.StorageClassName)

/-- The storage classes declared in a group, in the order of its services. -/
def storageClasses (m : CDAPMaster) (serviceGroup : ServiceGroup) : List String :=
  serviceGroup.filterMap (declaredStorageClass m)

/-- No two services of the group declare different storage classes. -/
def StorageClassesAgree (m : CDAPMaster) (serviceGroup : ServiceGroup) : Prop :=
  ∀ s₁ ∈ serviceGroup, ∀ s₂ ∈ serviceGroup,
    declaredStorageClass m s₁ = none ∨ declaredStorageClass m s₂ = none ∨
      declaredStorageClass m s₁ = declaredStorageClass m s₂

instance (m : CDAPMaster) (serviceGroup : ServiceGroup) :
    Decidable (StorageClassesAgree m serviceGroup) := by
  unfold StorageClassesAgree; infer_instance

/-- Two services of the group declare storage classes that differ. -/
def StorageClassesDiffer (m : CDAPMaster) (serviceGroup : ServiceGroup) : Prop :=
  ∃ s₁ ∈ serviceGroup, ∃ s₂ ∈ serviceGroup, ∃ c₁ c₂,
    declaredStorageClass m s₁ = some c₁ ∧ declaredStorageClass m s₂ = some c₂ ∧ c₁ ≠ c₂

/-- The binary unit suffixes of the example size codec, largest first. -/
def sizeUnits : List (String × Nat) :=
  [("Ei", 2 ^ 60), ("Pi", 2 ^ 50), ("Ti", 2 ^ 40), ("Gi", 2 ^ 30), ("Mi", 2 ^ 20), ("Ki", 2 ^ 10)]

/-- Modelled from the spec: a size codec `parse`, for sizes written as a decimal
number followed by nothing or by one binary unit suffix; malformed input and
sizes that do not fit 64 bits fail. -/
def parseSize (s : String) : Option Nat :=
  let (digits, suffix) := s.data.span Char.isDigit
  if digits = [] then none
  else
    let number := digits.foldl (fun n c => 10 * n + (c.toNat - 48)) 0
    let unit : Option Nat :=
      if suffix = [] then some 1 else (sizeUnits.lookup (String.mk suffix))
    match unit with
    | none => none
    | some u => if number * u < 2 ^ 64 then some (number * u) else none

/-- Modelled from the spec: a size codec `format`, which writes a size in the
largest binary unit that divides it. -/
def formatSize (n : Nat) : String :=
  if n = 0 then "0"
  else
    match sizeUnits.find? (fun u => n % u.2 = 0) with
    | none => toString n
    | some u => toString (n / u.2) ++ u.1

/-- One choice of the declarations outside `deployment.go`: reserved non-heap
memory 500_000_000 bytes, minimum heap ratio the `float64` nearest to 0.6, and
the example size codec. -/
def examplePackage : Package :=
  { javaMaxHeapSizeEnvVarName := "JAVA_HEAPMAX"
    javaReservedNonHeap := 500000000
    javaMinHeapRatio := .finite false 5404319552844595 (-53)
    labelContainerKeyPrefix := "cdap.container."
    configMapCConf := "cconf"
    configMapHConf := "hconf"
    confLocalDataDirVal := "/data"
    containerStorageMain := "io.cdap.cdap.master.environment.k8s.StorageMain"
    FromHumanReadableBytes := parseSize
    ToHumanReadableBytes := formatSize
    fromHumanReadableBytes_lt := by
      intro s n h
      unfold parseSize at h
      simp only at h
      split at h
      · cases h
      · split at h
        · cases h
        · split at h
          · cases h; assumption
          · cases h }

/-- All entries of a list are equal. -/
def AllSame (l : List String) : Prop := ∀ x ∈ l, ∀ y ∈ l, x = y

/-- Logs declares "10Gi" and Messaging "5Gi", both in the storage class "ssd";
the other services declare no storage. -/
def masterStorage : CDAPMaster :=
  masterOf (some 3) "cdap:6.1" "cdap-ui:6.1" (fun _ => "")
    (fun s =>
      if s = serviceLogs then some { StorageSize := "10Gi", StorageClassName := some "ssd" }
      else if s = serviceMessaging then
        some { StorageSize := "5Gi", StorageClassName := some "ssd" }
      else none)

/-- Logs declares the storage class "ssd", Messaging declares none and Metrics
declares "hdd". -/
def masterStorageClasses : CDAPMaster :=
  masterOf (some 3) "cdap:6.1" "cdap-ui:6.1" (fun _ => "")
    (fun s =>
      if s = serviceLogs then some { StorageSize := "10Gi", StorageClassName := some "ssd" }
      else if s = serviceMessaging then some { StorageSize := "5Gi", StorageClassName := none }
      else if s = serviceMetrics then
        some { StorageSize := "", StorageClassName := some "hdd" }
      else none)

/-- Logs, Messaging, Metrics and Preview declare "4Ei" each, without a storage
class; together that is 2 ^ 64 bytes. -/
def masterLargeStorage : CDAPMaster :=
  masterOf (some 3) "cdap:6.1" "cdap-ui:6.1" (fun _ => "")
    (fun s =>
      if s = serviceLogs ∨ s = serviceMessaging ∨ s = serviceMetrics ∨ s = servicePreview then
        some { StorageSize := "4Ei", StorageClassName := none }
      else none)

/-- The stateful group of the strategy for three pods. -/
def backendGroup : ServiceGroup :=
  [serviceLogs, serviceMessaging, serviceMetrics, servicePreview, serviceAppFabric,
   serviceMetadata]

/-- The label set of a workload spec: the labels passed in, then one label per
service of the group, set in the order of the services. -/
def serviceLabels (pkg : Package) (m : CDAPMaster) (serviceGroup : ServiceGroup)
    (labels : GoMap String String) : GoMap String String :=
  serviceGroup.foldl (fun l s => l.set (pkg.labelContainerKeyPrefix ++ s) m.Name) labels

/-- The part shared by the stateful and the stateless workload spec of a group,
for given values of the three reconciled fields; its containers are those of the
services for which the container loop builds one, which is every service of the
group when the loop does not panic. -/
def workloadBase (pkg : Package) (m : CDAPMaster) (labels : GoMap String String)
    (name : String) (serviceGroup : ServiceGroup)
    (serviceAccount runtimeClass priorityClass : String) : BaseSpec :=
  { Name := getObjectName m.Name name
    Labels := serviceLabels pkg m serviceGroup labels
    CConf := getObjectName m.Name pkg.configMapCConf
    HConf := getObjectName m.Name pkg.configMapHConf
    ServiceAccountName := serviceAccount
    NodeSelector := []
    RuntimeClassName := runtimeClass
    PriorityClassName := priorityClass
    Containers := serviceGroup.filterMap (serviceContainer pkg m) }

/-- The init container of every stateful spec. -/
def storageInitContainer (pkg : Package) (m : CDAPMaster) : ContainerSpec :=
  (newContainerSpec "StorageInit" pkg.confLocalDataDirVal m).setArgs [pkg.containerStorageMain]

/-- The value a reconciled field takes when the reconciliation succeeds: the
first non-empty value reported in the group, or the default when there is none. -/
def fieldChoice (values : List FieldData) (default : String) : String :=
  match values.head? with
  | some (.str s) => s
  | _ => default

/-- No service reports a service account, and the master itself names the
service account "cdap-sa". -/
def masterAccountDefault : CDAPMaster :=
  let m := masterOf none "cdap:6.1" "cdap-ui:6.1" (fun _ => "") (fun _ => none)
  { m with Spec := { m.Spec with ServiceAccountName := "cdap-sa" } }

/-- The stateful specs of the groups on which `buildStateful` succeeds, in the
order of the groups. -/
def statefulSpecsOf (pkg : Package) (m : CDAPMaster) (labels : GoMap String String)
    (groups : GoMap ServiceGroupName ServiceGroup) : List StatefulSpec :=
  groups.filterMap (fun g => (buildStateful pkg m labels g.1 g.2).toOption)

/-- The deployment specs of the groups on which `buildDeployment` succeeds, in
the order of the groups. -/
def deploymentSpecsOf (pkg : Package) (m : CDAPMaster) (labels : GoMap String String)
    (groups : GoMap ServiceGroupName ServiceGroup) : List DeploymentSpec :=
  groups.filterMap (fun g => (buildDeployment pkg m labels g.1 g.2).toOption)

/-- The network service specs of the exposed-service entries, in their order. -/
def networkSpecsOf (pkg : Package) (m : CDAPMaster) (labels : GoMap String String)
    (entries : GoMap NetworkServiceName ServiceName) : List NetworkServiceSpec :=
  entries.map (fun e => buildNetworkService pkg m labels e.1 e.2
    (getCDAPExternalService e.2 m).ServiceType (getCDAPExternalService e.2 m).ServicePort)

/-- The pod-count `buildCDAPDeploymentSpec` asks the strategy for: `Spec.NumPods`,
or 0 when it is not set. -/
def numPodsOf (m : CDAPMaster) : Int :=
  match m.Spec.NumPods with
  | none => 0
  | some n => n

/-- The configuration `m` with `Spec.NumPods` replaced. -/
def CDAPMaster.withNumPods (m : CDAPMaster) (numPods : Option Int) : CDAPMaster :=
  { m with Spec := { m.Spec with NumPods := numPods } }

/-- A stateful group cannot be built: a field reconciliation fails, a declared
storage size does not parse, or two declared storage classes differ. -/
def StatefulGroupFails (pkg : Package) (m : CDAPMaster) (serviceGroup : ServiceGroup) : Prop :=
  ¬ ReconciliationSucceeds m serviceGroup ∨
  (∃ s ∈ serviceGroup, storageSizeParses pkg m s = false) ∨
  StorageClassesDiffer m serviceGroup

/-- The shared part of the workload spec that is built for a group when the
build succeeds: the three reconciled fields are the choices of `fieldChoice`. -/
def workloadBaseOf (pkg : Package) (m : CDAPMaster) (labels : GoMap String String)
    (g : ServiceGroupName × ServiceGroup) : BaseSpec :=
  workloadBase pkg m labels g.1 g.2
    (fieldChoice (g.2.filterMap (reportedValue m "ServiceAccountName"))
      m.Spec.ServiceAccountName)
    (fieldChoice (g.2.filterMap (reportedValue m "RuntimeClassName")) "")
    (fieldChoice (g.2.filterMap (reportedValue m "PriorityClassName")) "")

/-- The shared parts of all workload specs of a bundle, stateful specs first. -/
def workloadBases (bundle : CDAPDeploymentSpec) : List BaseSpec :=
  bundle.Stateful.map (fun s => s.Base) ++ bundle.Deployment.map (fun d => d.Base)

/-- The significand `roundToFloat64` keeps when `k` low bits of `n` are dropped:
`n / 2 ^ k` rounded to nearest, ties to even. -/
def roundShift (n k : Nat) : Nat :=
  if 2 ^ k < 2 * (n % 2 ^ k) ∨ (2 * (n % 2 ^ k) = 2 ^ k ∧ n / 2 ^ k % 2 = 1) then
    n / 2 ^ k + 1
  else n / 2 ^ k

/-- A `float64` strictly between 0 and 1: positive, with a significand of at
most 53 bits and an exponent from -1074 on. -/
def Float64.IsProperRatio : Float64 → Prop
  | .finite neg mant exp =>
    neg = false ∧ 0 < mant ∧ mant < 2 ^ 53 ∧ -1074 ≤ exp ∧ exp < 0 ∧ mant < 2 ^ (-exp).toNat
  | .inf _ => False
  | .nan => False

instance (x : Float64) : Decidable x.IsProperRatio := by
  cases x <;> unfold Float64.IsProperRatio <;> infer_instance

/-- The ratio share of the memory that `addJavaMaxHeapEnvIfNotPresent` computes:
`int64(float64(memory) * javaMinHeapRatio)`. -/
def heapRatioShare (pkg : Package) (memory : Int) : Int :=
  Float64.toInt64 (Float64.mul (Float64.ofInt64 memory) pkg.javaMinHeapRatio)

/-- The service defines the heap-size variable itself in its environment. -/
def definesMaxHeap (pkg : Package) (m : CDAPMaster) (service : ServiceName) : Bool :=
  (getCDAPServiceSpec service m).Env.any (fun e => e.Name = pkg.javaMaxHeapSizeEnvVarName)

/-- The container loop can read what it needs of every service of the group:
the service defines the heap-size variable itself, or its `Resources` are set
(the pointer is not nil). -/
def ResourcesAvailable (pkg : Package) (m : CDAPMaster) (serviceGroup : ServiceGroup) : Prop :=
  ∀ s ∈ serviceGroup,
    definesMaxHeap pkg m s = true ∨ (getCDAPServiceSpec s m).Resources.isSome = true

instance (pkg : Package) (m : CDAPMaster) (serviceGroup : ServiceGroup) :
    Decidable (ResourcesAvailable pkg m serviceGroup) := by
  unfold ResourcesAvailable; infer_instance

/-- The configuration `m` with the `Resources` of every service left unset. -/
def CDAPMaster.withoutResources (m : CDAPMaster) : CDAPMaster :=
  { m with Spec := { m.Spec with
      serviceSpec := fun s => { m.Spec.serviceSpec s with Resources := none } } }

/-! ## Theorems -/

/-- C1: for every pod-count registered by `Init` (they are 0, 1, 2 and 3), the
service lists of all stateful groups followed by those of all deployment groups
contain each of the eight catalog services exactly once, and nothing else. -/
theorem partition_coverage :
    strategyHandler.strategyMap.map Prod.fst = [0, 1, 2, 3] ∧
    ∀ p ∈ strategyHandler.strategyMap,
      (∀ x ∈ serviceCatalog, p.2.allServices.count x = 1) ∧
      p.2.allServices.length = serviceCatalog.length ∧ p.2.allServices.Nodup := by
  decide

/-- C1, at the strategy registered for two pods. -/
theorem partition_coverage_witness :
    (2, strategy2) ∈ strategyHandler.strategyMap ∧
    ((∀ x ∈ serviceCatalog, strategy2.allServices.count x = 1) ∧
      strategy2.allServices.length = serviceCatalog.length ∧ strategy2.allServices.Nodup) :=
  ⟨by decide, partition_coverage.2 (2, strategy2) (by decide)⟩

/-- C2: after `Init`, `getStrategy numPods` succeeds exactly for the pod-counts
0, 1, 2 and 3, and then returns the registered partition; for every other
pod-count it returns the error whose message ends in the decimal of `numPods`. -/
theorem getStrategy_supported_iff (numPods : Int) :
    ((∃ s, strategyHandler.getStrategy numPods = .ok s) ↔
      (numPods = 0 ∨ numPods = 1 ∨ numPods = 2 ∨ numPods = 3)) ∧
    (∀ s, strategyHandler.getStrategy numPods = .ok s ↔
      strategyHandler.strategyMap.get? numPods = some s) ∧
    strategyHandler.getStrategy 0 = .ok strategy0 ∧
    strategyHandler.getStrategy 1 = .ok strategy1 ∧
    strategyHandler.getStrategy 2 = .ok strategy2 ∧
    strategyHandler.getStrategy 3 = .ok strategy3 ∧
    (¬ (numPods = 0 ∨ numPods = 1 ∨ numPods = 2 ∨ numPods = 3) →
      strategyHandler.getStrategy numPods = .error (.unsupportedNumPods numPods) ∧
      (BuildError.unsupportedNumPods numPods).message =
        "unsupported deployment strategy for NumPods " ++ toString numPods) ∧
    strategyHandler.getStrategy 99 = .error (.unsupportedNumPods 99) ∧
    (BuildError.unsupportedNumPods 99).message =
      "unsupported deployment strategy for NumPods 99" := by
  have hmap : strategyHandler.strategyMap =
      [(0, strategy0), (1, strategy1), (2, strategy2), (3, strategy3)] := by decide
  have hget : strategyHandler.getStrategy numPods =
      if numPods = 0 then .ok strategy0 else if numPods = 1 then .ok strategy1
      else if numPods = 2 then .ok strategy2 else if numPods = 3 then .ok strategy3
      else .error (.unsupportedNumPods numPods) := by
    unfold DeploymentStrategy.getStrategy
    rw [hmap]
    simp only [GoMap.get?]
    by_cases h0 : numPods = 0
    · subst h0; simp
    by_cases h1 : numPods = 1
    · subst h1; simp
    by_cases h2 : numPods = 2
    · subst h2; simp
    by_cases h3 : numPods = 3
    · subst h3; simp
    have h0' : ¬ (0 : Int) = numPods := fun h => h0 h.symm
    have h1' : ¬ (1 : Int) = numPods := fun h => h1 h.symm
    have h2' : ¬ (2 : Int) = numPods := fun h => h2 h.symm
    have h3' : ¬ (3 : Int) = numPods := fun h => h3 h.symm
    simp [h0, h1, h2, h3, h0', h1', h2', h3']
  refine ⟨?_, ?_, rfl, rfl, rfl, rfl, ?_, rfl, by decide⟩
  · rw [hget]
    constructor
    · rintro ⟨s, hs⟩
      by_contra hne
      push_neg at hne
      simp [hne.1, hne.2.1, hne.2.2.1, hne.2.2.2] at hs
    · rintro (h | h | h | h) <;> subst h <;> simp
  · intro s
    unfold DeploymentStrategy.getStrategy
    cases strategyHandler.strategyMap.get? numPods <;> simp
  · intro hne
    push_neg at hne
    refine ⟨?_, rfl⟩
    rw [hget]
    simp [hne.1, hne.2.1, hne.2.2.1, hne.2.2.2]


/-- C2, at the pod-counts 2 and 99: the first gives the partition registered for
two pods, the second the error whose message ends in "99". -/
theorem getStrategy_supported_iff_witness :
    strategyHandler.getStrategy 2 = .ok strategy2 ∧
    strategyHandler.getStrategy 99 = .error (.unsupportedNumPods 99) ∧
    (BuildError.unsupportedNumPods 99).message =
      "unsupported deployment strategy for NumPods " ++ toString (99 : Int) :=
  ⟨(getStrategy_supported_iff 2).2.2.2.2.1,
    ((getStrategy_supported_iff 99).2.2.2.2.2.2.1 (by decide)).1,
    ((getStrategy_supported_iff 99).2.2.2.2.2.2.1 (by decide)).2⟩

/-! ### The field reconciler -/

theorem collectFieldValues_eq (master : CDAPMaster) (fieldName : String) :
    ∀ (services : ServiceGroup) (values : List FieldData),
      FieldExists master services fieldName →
      collectFieldValues master fieldName services values =
        .ok (values ++ services.filterMap (reportedValue master fieldName)) := by
  intro services
  induction services with
  | nil => intro values _; simp [collectFieldValues]
  | cons s rest ih =>
    intro values h
    have hrest : FieldExists master rest fieldName :=
      fun x hx => h x (List.mem_cons_of_mem _ hx)
    obtain ⟨fv, hfv⟩ := Option.isSome_iff_exists.1 (h s (List.mem_cons_self _ _))
    unfold fieldValueOf at hfv
    cases hspec : master.Spec.fieldByName s with
    | none => rw [hspec] at hfv; cases hfv
    | some specVal =>
      rw [hspec] at hfv
      simp only at hfv
      have hrep : reportedValue master fieldName s = fv.nonEmpty := by
        simp [reportedValue, fieldValueOf, hspec, hfv]
      rw [collectFieldValues, hspec]
      simp only [hfv, List.filterMap_cons, hrep]
      cases fv with
      | nilPtr => simp [FieldValue.nonEmpty, ih values hrest]
      | ptr v =>
        by_cases hl : v.Len = 0
        · simp [FieldValue.nonEmpty, hl, ih values hrest]
        · simp [FieldValue.nonEmpty, hl, ih (values ++ [v]) hrest]
      | direct v =>
        by_cases hl : v.Len = 0
        · simp [FieldValue.nonEmpty, hl, ih values hrest]
        · simp [FieldValue.nonEmpty, hl, ih (values ++ [v]) hrest]

theorem uniqueFieldValue_some (services : ServiceGroup) (fieldName : String) :
    ∀ (values : List FieldData) (r : FieldData),
      uniqueFieldValue services fieldName values (some r) =
        if ∀ x ∈ values, x = r then .ok (some r) else .error (.notTheSame fieldName services) := by
  intro values
  induction values with
  | nil => intro r; simp [uniqueFieldValue]
  | cons v rest ih =>
    intro r
    by_cases hv : r = v
    · subst hv
      simp [uniqueFieldValue, ih]
    · have hv' : ¬ v = r := fun h => hv h.symm
      simp [uniqueFieldValue, hv, hv']

theorem extractFieldValueIfUnique_eq (master : CDAPMaster) (services : ServiceGroup)
    (fieldName : String) (h : FieldExists master services fieldName) :
    extractFieldValueIfUnique master services fieldName =
      uniqueFieldValue services fieldName
        (services.filterMap (reportedValue master fieldName)) none := by
  simp [extractFieldValueIfUnique, collectFieldValues_eq master fieldName services [] h]

/-- C3: when the field exists on the configuration of every service of the
group: if every non-empty value reported in the group is `v` and some service
reports `v`, `extractFieldValueIfUnique` returns `v` and no error; if no
service reports a non-empty value (as in the empty group), it returns nil and no
error; values "sa1", "sa1" and "" reconcile to "sa1". -/
theorem extractFieldValueIfUnique_agreement (master : CDAPMaster) (services : ServiceGroup)
    (fieldName : String) (hexists : FieldExists master services fieldName) :
    (∀ v : FieldData,
      (∀ s ∈ services, ∀ w, reportedValue master fieldName s = some w → w = v) →
      (∃ s ∈ services, reportedValue master fieldName s = some v) →
      extractFieldValueIfUnique master services fieldName = .ok (some v)) ∧
    ((∀ s ∈ services, reportedValue master fieldName s = none) →
      extractFieldValueIfUnique master services fieldName = .ok none) ∧
    extractFieldValueIfUnique master [] fieldName = .ok none ∧
    extractFieldValueIfUnique masterAgreeing [serviceLogs, serviceMessaging, serviceMetrics]
      "ServiceAccountName" = .ok (some (.str "sa1")) := by
  refine ⟨?_, ?_, rfl, by decide⟩
  · intro v hall hsome
    rw [extractFieldValueIfUnique_eq master services fieldName hexists]
    have hmem : ∀ x ∈ services.filterMap (reportedValue master fieldName), x = v := by
      intro x hx
      obtain ⟨s, hs, hsx⟩ := List.mem_filterMap.1 hx
      exact hall s hs x hsx
    obtain ⟨s, hs, hsv⟩ := hsome
    have hv : v ∈ services.filterMap (reportedValue master fieldName) :=
      List.mem_filterMap.2 ⟨s, hs, hsv⟩
    cases hl : services.filterMap (reportedValue master fieldName) with
    | nil => rw [hl] at hv; cases hv
    | cons x rest =>
      rw [hl] at hmem
      have hx : x = v := hmem x (List.mem_cons_self _ _)
      subst hx
      rw [uniqueFieldValue, uniqueFieldValue_some]
      simp only [ite_eq_left_iff]
      intro hne
      exact absurd (fun y hy => hmem y (List.mem_cons_of_mem _ hy)) hne
  · intro hnone
    rw [extractFieldValueIfUnique_eq master services fieldName hexists]
    have hl : services.filterMap (reportedValue master fieldName) = [] := by
      rw [List.filterMap_eq_nil_iff]
      exact hnone
    rw [hl, uniqueFieldValue]


theorem uniqueFieldValue_error (services : ServiceGroup) (fieldName : String) :
    ∀ (values : List FieldData) (r : Option FieldData) (err : BuildError),
      uniqueFieldValue services fieldName values r = .error err →
      err = .notTheSame fieldName services := by
  intro values
  induction values with
  | nil => intro r err h; simp [uniqueFieldValue] at h
  | cons v rest ih =>
    intro r err h
    cases r with
    | none => exact ih (some v) err (by simpa [uniqueFieldValue] using h)
    | some r =>
      rw [uniqueFieldValue_some] at h
      split at h
      · cases h
      · cases h; rfl

theorem uniqueFieldValue_none_error_iff (services : ServiceGroup) (fieldName : String)
    (values : List FieldData) :
    (∃ err, uniqueFieldValue services fieldName values none = .error err) ↔
      ∃ x ∈ values, ∃ y ∈ values, x ≠ y := by
  cases values with
  | nil => simp [uniqueFieldValue]
  | cons v rest =>
    rw [uniqueFieldValue, uniqueFieldValue_some]
    constructor
    · rintro ⟨err, herr⟩
      split at herr
      · cases herr
      · rename_i hne
        push_neg at hne
        obtain ⟨x, hx, hxv⟩ := hne
        exact ⟨x, List.mem_cons_of_mem _ hx, v, List.mem_cons_self _ _, hxv⟩
    · rintro ⟨x, hx, y, hy, hxy⟩
      have hne : ¬ ∀ z ∈ rest, z = v := by
        intro hall
        have hxv : x = v := by
          rcases List.mem_cons.1 hx with h | h
          · exact h
          · exact hall x h
        have hyv : y = v := by
          rcases List.mem_cons.1 hy with h | h
          · exact h
          · exact hall y h
        exact hxy (hxv.trans hyv.symm)
      exact ⟨_, by rw [if_neg hne]⟩

/-- C3, at the group Logs, Messaging, Metrics with service accounts "sa1", "sa1"
and "": the empty value is skipped and the result is "sa1". -/
theorem extractFieldValueIfUnique_agreement_witness :
    FieldExists masterAgreeing [serviceLogs, serviceMessaging, serviceMetrics]
      "ServiceAccountName" ∧
    reportedValue masterAgreeing "ServiceAccountName" serviceMetrics = none ∧
    extractFieldValueIfUnique masterAgreeing [serviceLogs, serviceMessaging, serviceMetrics]
      "ServiceAccountName" = .ok (some (.str "sa1")) := by
  have h1 : reportedValue masterAgreeing "ServiceAccountName" serviceLogs =
      some (.str "sa1") := by decide
  have h2 : reportedValue masterAgreeing "ServiceAccountName" serviceMessaging =
      some (.str "sa1") := by decide
  have h3 : reportedValue masterAgreeing "ServiceAccountName" serviceMetrics = none := by
    decide
  refine ⟨by decide, h3, ?_⟩
  refine (extractFieldValueIfUnique_agreement masterAgreeing
    [serviceLogs, serviceMessaging, serviceMetrics] "ServiceAccountName" (by decide)).1
    (.str "sa1") ?_ ⟨serviceLogs, List.mem_cons_self _ _, h1⟩
  intro s hs w hw
  simp only [List.mem_cons, List.mem_singleton, List.not_mem_nil, or_false] at hs
  rcases hs with rfl | rfl | rfl
  · rw [h1] at hw; cases hw; rfl
  · rw [h2] at hw; cases hw; rfl
  · rw [h3] at hw; cases hw

/-- C4: when the field exists on the configuration of every service of the
group, `extractFieldValueIfUnique` returns an error exactly when two services of
the group report non-empty values that differ; the error then carries the field
name and the whole service list, and its message names both. -/
theorem extractFieldValueIfUnique_fails_iff (master : CDAPMaster) (services : ServiceGroup)
    (fieldName : String) (hexists : FieldExists master services fieldName) :
    ((∃ err, extractFieldValueIfUnique master services fieldName = .error err) ↔
      ∃ s₁ ∈ services, ∃ s₂ ∈ services, ∃ v₁ v₂,
        reportedValue master fieldName s₁ = some v₁ ∧
        reportedValue master fieldName s₂ = some v₂ ∧ v₁ ≠ v₂) ∧
    (∀ err, extractFieldValueIfUnique master services fieldName = .error err →
      err = .notTheSame fieldName services ∧
      err.message = "value of field " ++ fieldName ++ " not the same across (" ++
        ",".intercalate services ++ ")") := by
  rw [extractFieldValueIfUnique_eq master services fieldName hexists]
  refine ⟨?_, ?_⟩
  · rw [uniqueFieldValue_none_error_iff]
    constructor
    · rintro ⟨x, hx, y, hy, hxy⟩
      obtain ⟨s₁, hs₁, h₁⟩ := List.mem_filterMap.1 hx
      obtain ⟨s₂, hs₂, h₂⟩ := List.mem_filterMap.1 hy
      exact ⟨s₁, hs₁, s₂, hs₂, x, y, h₁, h₂, hxy⟩
    · rintro ⟨s₁, hs₁, s₂, hs₂, v₁, v₂, h₁, h₂, hne⟩
      exact ⟨v₁, List.mem_filterMap.2 ⟨s₁, hs₁, h₁⟩, v₂, List.mem_filterMap.2 ⟨s₂, hs₂, h₂⟩, hne⟩
  · intro err herr
    have := uniqueFieldValue_error services fieldName _ _ err herr
    subst this
    exact ⟨rfl, rfl⟩

/-- C4, at the group Logs, Messaging with service accounts "sa1" and "sa2": the
call fails and the message names the field and the two services. -/
theorem extractFieldValueIfUnique_fails_iff_witness :
    FieldExists masterDiverging [serviceLogs, serviceMessaging] "ServiceAccountName" ∧
    extractFieldValueIfUnique masterDiverging [serviceLogs, serviceMessaging]
      "ServiceAccountName" =
      .error (.notTheSame "ServiceAccountName" [serviceLogs, serviceMessaging]) ∧
    (BuildError.notTheSame "ServiceAccountName" [serviceLogs, serviceMessaging]).message =
      "value of field ServiceAccountName not the same across (Logs,Messaging)" := by
  have hex : FieldExists masterDiverging [serviceLogs, serviceMessaging]
      "ServiceAccountName" := by decide
  have hfail : ∃ err, extractFieldValueIfUnique masterDiverging
      [serviceLogs, serviceMessaging] "ServiceAccountName" = .error err :=
    (extractFieldValueIfUnique_fails_iff masterDiverging [serviceLogs, serviceMessaging]
      "ServiceAccountName" hex).1.2
      ⟨serviceLogs, by decide, serviceMessaging, by decide, .str "sa1", .str "sa2",
        by decide, by decide, by decide⟩
  obtain ⟨err, herr⟩ := hfail
  have := ((extractFieldValueIfUnique_fails_iff masterDiverging
    [serviceLogs, serviceMessaging] "ServiceAccountName" hex).2 err herr).1
  subst this
  exact ⟨hex, herr, by decide⟩


/-! ### The heap sizing advisor -/

theorem hasMaxHeapLoop_true (pkg : Package) :
    ∀ env : List EnvVar, hasMaxHeapLoop pkg env true = true := by
  intro env
  induction env with
  | nil => rfl
  | cons e rest ih =>
    unfold hasMaxHeapLoop
    split <;> exact ih

theorem hasMaxHeapLoop_false_iff (pkg : Package) :
    ∀ env : List EnvVar, hasMaxHeapLoop pkg env false = false ↔
      ∀ e ∈ env, e.Name ≠ pkg.javaMaxHeapSizeEnvVarName := by
  intro env
  induction env with
  | nil => simp [hasMaxHeapLoop]
  | cons e rest ih =>
    unfold hasMaxHeapLoop
    by_cases he : e.Name = pkg.javaMaxHeapSizeEnvVarName
    · simp [he, hasMaxHeapLoop_true]
    · simp [he, ih]

/-- C5: when `env` has an entry named `javaMaxHeapSizeEnvVarName`,
`addJavaMaxHeapEnvIfNotPresent` returns `env` itself, whatever the resources,
a nil pointer included. -/
theorem addJavaMaxHeapEnvIfNotPresent_present (pkg : Package) (env : List EnvVar)
    (resources : Option ResourceRequirements)
    (h : ∃ e ∈ env, e.Name = pkg.javaMaxHeapSizeEnvVarName) :
    addJavaMaxHeapEnvIfNotPresent pkg env resources = some env := by
  have hloop : hasMaxHeapLoop pkg env false = true := by
    cases hl : hasMaxHeapLoop pkg env false with
    | true => rfl
    | false =>
      obtain ⟨e, he, hname⟩ := h
      exact absurd hname ((hasMaxHeapLoop_false_iff pkg env).1 hl e he)
  simp [addJavaMaxHeapEnvIfNotPresent, hloop]

/-- C5, at an environment whose second entry is the heap-size variable and a
container with 2_000_000_000 bytes of memory. -/
theorem addJavaMaxHeapEnvIfNotPresent_present_witness :
    (∃ e ∈ [EnvVar.mk "A" "1", EnvVar.mk "JAVA_HEAPMAX" "-Xmx1g", EnvVar.mk "B" "2"],
      e.Name = examplePackage.javaMaxHeapSizeEnvVarName) ∧
    addJavaMaxHeapEnvIfNotPresent examplePackage
      [EnvVar.mk "A" "1", EnvVar.mk "JAVA_HEAPMAX" "-Xmx1g", EnvVar.mk "B" "2"]
      (some { requestsMemory := 2000000000, limitsMemory := 2000000000 }) =
      some [EnvVar.mk "A" "1", EnvVar.mk "JAVA_HEAPMAX" "-Xmx1g", EnvVar.mk "B" "2"] :=
  ⟨⟨EnvVar.mk "JAVA_HEAPMAX" "-Xmx1g", by decide, by decide⟩,
    addJavaMaxHeapEnvIfNotPresent_present examplePackage _ _
      ⟨EnvVar.mk "JAVA_HEAPMAX" "-Xmx1g", by decide, by decide⟩⟩

theorem wrapInt64_eq (x : Int) (h₁ : -2 ^ 63 ≤ x) (h₂ : x < 2 ^ 63) : wrapInt64 x = x := by
  unfold wrapInt64
  rw [Int.emod_eq_of_lt (by omega) (by omega)]
  omega

theorem Max_eq_max (x y : Int) : Max x y = max x y := by
  unfold Max
  split <;> omega

/-- C6: when `env` has no entry named `javaMaxHeapSizeEnvVarName` and
`memory = max(request, limit) > 0`, `addJavaMaxHeapEnvIfNotPresent` returns `env`
followed by one entry named `javaMaxHeapSizeEnvVarName` whose value is "-Xmx"
and the decimal of the larger of the `int64` difference
`memory - javaReservedNonHeap` and `int64(float64(memory) * javaMinHeapRatio)`;
for `int64` memory values and a non-negative `int64` constant
`javaReservedNonHeap` the difference does not wrap and the value is the decimal
of `max(memory - javaReservedNonHeap, int64(float64(memory) * javaMinHeapRatio))`. -/
theorem addJavaMaxHeapEnvIfNotPresent_appends (pkg : Package) (env : List EnvVar)
    (resources : ResourceRequirements)
    (hno : ∀ e ∈ env, e.Name ≠ pkg.javaMaxHeapSizeEnvVarName)
    (hmem : 0 < max resources.requestsMemory resources.limitsMemory) :
    addJavaMaxHeapEnvIfNotPresent pkg env (some resources) =
      some (env ++ [{ Name := pkg.javaMaxHeapSizeEnvVarName,
                      Value := "-Xmx" ++ toString
                        (max (wrapInt64 (max resources.requestsMemory resources.limitsMemory -
                            pkg.javaReservedNonHeap))
                          (Float64.toInt64 (Float64.mul
                            (Float64.ofInt64 (max resources.requestsMemory resources.limitsMemory))
                            pkg.javaMinHeapRatio))) }]) ∧
    (resources.requestsMemory < 2 ^ 63 → resources.limitsMemory < 2 ^ 63 →
      0 ≤ pkg.javaReservedNonHeap → pkg.javaReservedNonHeap < 2 ^ 63 →
      addJavaMaxHeapEnvIfNotPresent pkg env (some resources) =
        some (env ++ [{ Name := pkg.javaMaxHeapSizeEnvVarName,
                        Value := "-Xmx" ++ toString
                          (max (max resources.requestsMemory resources.limitsMemory -
                              pkg.javaReservedNonHeap)
                            (Float64.toInt64 (Float64.mul
                              (Float64.ofInt64 (max resources.requestsMemory resources.limitsMemory))
                              pkg.javaMinHeapRatio))) }])) := by
  have hloop : hasMaxHeapLoop pkg env false = false := (hasMaxHeapLoop_false_iff pkg env).2 hno
  have hfirst : addJavaMaxHeapEnvIfNotPresent pkg env (some resources) =
      some (env ++ [{ Name := pkg.javaMaxHeapSizeEnvVarName,
                      Value := "-Xmx" ++ toString
                        (max (wrapInt64 (max resources.requestsMemory resources.limitsMemory -
                            pkg.javaReservedNonHeap))
                          (Float64.toInt64 (Float64.mul
                            (Float64.ofInt64 (max resources.requestsMemory resources.limitsMemory))
                            pkg.javaMinHeapRatio))) }]) := by
    simp only [addJavaMaxHeapEnvIfNotPresent, hloop, Max_eq_max]
    simp [hmem]
  refine ⟨hfirst, ?_⟩
  intro hreq hlim hres hres'
  have hwrap : wrapInt64 (max resources.requestsMemory resources.limitsMemory -
      pkg.javaReservedNonHeap) =
      max resources.requestsMemory resources.limitsMemory - pkg.javaReservedNonHeap :=
    wrapInt64_eq _ (by omega) (by omega)
  rw [hfirst, hwrap]

/-- C6, with request = limit = 2_000_000_000, reserved 500_000_000 and ratio
0.6: the ratio share is 1_200_000_000 and the entry added after the two original
entries is "-Xmx1500000000". -/
theorem addJavaMaxHeapEnvIfNotPresent_appends_witness :
    Float64.toInt64 (Float64.mul (Float64.ofInt64 2000000000)
      examplePackage.javaMinHeapRatio) = 1200000000 ∧
    addJavaMaxHeapEnvIfNotPresent examplePackage [EnvVar.mk "A" "1", EnvVar.mk "B" "2"]
      (some { requestsMemory := 2000000000, limitsMemory := 2000000000 }) =
      some
        [EnvVar.mk "A" "1", EnvVar.mk "B" "2", EnvVar.mk "JAVA_HEAPMAX" "-Xmx1500000000"] := by
  have h := (addJavaMaxHeapEnvIfNotPresent_appends examplePackage
    [EnvVar.mk "A" "1", EnvVar.mk "B" "2"]
    { requestsMemory := 2000000000, limitsMemory := 2000000000 }
    (by decide) (by decide)).2 (by decide) (by decide) (by decide) (by decide)
  refine ⟨?_, ?_⟩
  · set_option maxRecDepth 100000 in decide
  · rw [h]
    set_option maxRecDepth 100000 in decide

/-- C7, for resources that are set: when `env` has no entry named
`javaMaxHeapSizeEnvVarName`, the pointer `resources` is not nil and the memory
request and the memory limit it holds are both at most 0 (0 is the value of a
quantity that is not set), `addJavaMaxHeapEnvIfNotPresent` returns `env` itself,
which has no heap-size variable. -/
theorem addJavaMaxHeapEnvIfNotPresent_no_memory (pkg : Package) (env : List EnvVar)
    (resources : ResourceRequirements)
    (hno : ∀ e ∈ env, e.Name ≠ pkg.javaMaxHeapSizeEnvVarName)
    (hreq : resources.requestsMemory ≤ 0) (hlim : resources.limitsMemory ≤ 0) :
    addJavaMaxHeapEnvIfNotPresent pkg env (some resources) = some env ∧
    ∀ env', addJavaMaxHeapEnvIfNotPresent pkg env (some resources) = some env' →
      ∀ e ∈ env', e.Name ≠ pkg.javaMaxHeapSizeEnvVarName := by
  have hloop : hasMaxHeapLoop pkg env false = false := (hasMaxHeapLoop_false_iff pkg env).2 hno
  have hmax : ¬ 0 < Max resources.requestsMemory resources.limitsMemory := by
    rw [Max_eq_max]; omega
  have heq : addJavaMaxHeapEnvIfNotPresent pkg env (some resources) = some env := by
    simp only [addJavaMaxHeapEnvIfNotPresent, hloop]
    simp [hmax]
  refine ⟨heq, ?_⟩
  intro env' henv
  rw [heq] at henv
  cases henv
  exact hno

/-- C7, at an environment of two entries and a container whose resources are
set but hold neither a memory request nor a memory limit. -/
theorem addJavaMaxHeapEnvIfNotPresent_no_memory_witness :
    addJavaMaxHeapEnvIfNotPresent examplePackage [EnvVar.mk "A" "1", EnvVar.mk "B" "2"]
      (some { requestsMemory := 0, limitsMemory := 0 }) =
      some [EnvVar.mk "A" "1", EnvVar.mk "B" "2"] :=
  (addJavaMaxHeapEnvIfNotPresent_no_memory examplePackage
    [EnvVar.mk "A" "1", EnvVar.mk "B" "2"] { requestsMemory := 0, limitsMemory := 0 }
    (by decide) (by decide) (by decide)).1

/-- C7 as stated fails when the resources themselves are unset: for a nil
pointer and an environment without the heap-size variable the function
dereferences the pointer and panics, so it does not return the environment. -/
theorem addJavaMaxHeapEnvIfNotPresent_nil_counterexample :
    (∀ e ∈ [EnvVar.mk "A" "1", EnvVar.mk "B" "2"],
      e.Name ≠ examplePackage.javaMaxHeapSizeEnvVarName) ∧
    addJavaMaxHeapEnvIfNotPresent examplePackage [EnvVar.mk "A" "1", EnvVar.mk "B" "2"]
      none = none ∧
    addJavaMaxHeapEnvIfNotPresent examplePackage [EnvVar.mk "A" "1", EnvVar.mk "B" "2"]
      none ≠ some [EnvVar.mk "A" "1", EnvVar.mk "B" "2"] := by
  decide

/-! ### The spec builder -/

/-- C8: when `Status.ImageToUse` is empty or `Status.UserInterfaceImageToUse` is
empty, `buildCDAPDeploymentSpec` returns no error and the bundle without
stateful, deployment and network service specs. -/
theorem buildCDAPDeploymentSpec_noop (pkg : Package) (master : CDAPMaster)
    (labels : GoMap String String)
    (h : master.Status.ImageToUse = "" ∨ master.Status.UserInterfaceImageToUse = "") :
    buildCDAPDeploymentSpec pkg master labels =
      .ok { Stateful := [], Deployment := [], NetworkServices := [] } := by
  simp [buildCDAPDeploymentSpec, h]

/-- C8, at a configuration with only the first image empty, the unsupported
pod-count 99 and service accounts that differ within a group. -/
theorem buildCDAPDeploymentSpec_noop_witness :
    masterDiverging.Status.UserInterfaceImageToUse ≠ "" ∧
    masterDiverging.Spec.NumPods = some 99 ∧
    strategyHandler.getStrategy 99 = .error (.unsupportedNumPods 99) ∧
    (∃ err, extractFieldValueIfUnique masterDiverging [serviceLogs, serviceMessaging]
      "ServiceAccountName" = .error err) ∧
    buildCDAPDeploymentSpec examplePackage masterDiverging [("app", "cdap")] =
      .ok { Stateful := [], Deployment := [], NetworkServices := [] } :=
  ⟨by decide, rfl, rfl,
    ⟨.notTheSame "ServiceAccountName" [serviceLogs, serviceMessaging], by decide⟩,
    buildCDAPDeploymentSpec_noop examplePackage masterDiverging [("app", "cdap")]
      (Or.inl (by decide))⟩


/-! ### Storage aggregation -/

theorem allSame_of_subset {l₁ l₂ : List String} (h : ∀ x ∈ l₁, x ∈ l₂) (h₂ : AllSame l₂) :
    AllSame l₁ :=
  fun x hx y hy => h₂ x (h x hx) y (h y hy)

theorem storageClasses_cons (m : CDAPMaster) (s : ServiceName) (rest : ServiceGroup) :
    storageClasses m (s :: rest) =
      (declaredStorageClass m s).toList ++ storageClasses m rest := by
  unfold storageClasses
  cases h : declaredStorageClass m s <;> simp [List.filterMap_cons, h]

theorem addStorageSize_ok (pkg : Package) (m : CDAPMaster) (s : ServiceName)
    (ss : CDAPStatefulServiceSpec) (total : Nat)
    (hspec : getCDAPStatefulServiceSpec s m = some ss)
    (hparse : storageSizeParses pkg m s = true) :
    addStorageSize pkg ss total =
      .ok (if ss.StorageSize = "" then total
        else (total + declaredStorageSize pkg m s) % 2 ^ 64) := by
  unfold storageSizeParses at hparse
  rw [hspec] at hparse
  unfold addStorageSize declaredStorageSize
  rw [hspec]
  by_cases hsz : ss.StorageSize = ""
  · simp [hsz]
  · simp only [hsz, decide_False, Bool.false_or] at hparse
    obtain ⟨n, hn⟩ := Option.isSome_iff_exists.1 hparse
    simp [hsz, hn]

theorem addStorageSize_error (pkg : Package) (ss : CDAPStatefulServiceSpec) (total : Nat)
    (err : BuildError) (h : addStorageSize pkg ss total = .error err) :
    err = .unableToParseStorageSize := by
  unfold addStorageSize at h
  split at h
  · split at h
    · cases h; rfl
    · cases h
  · cases h

theorem aggregateStorage_ok (pkg : Package) (m : CDAPMaster) :
    ∀ (group : ServiceGroup) (cls : Option String) (total : Nat), total < 2 ^ 64 →
      (∀ s ∈ group, storageSizeParses pkg m s = true) →
      AllSame (cls.toList ++ storageClasses m group) →
      aggregateStorage pkg m group cls total =
        .ok ((cls.toList ++ storageClasses m group).head?,
          (total + totalDeclaredStorage pkg m group) % 2 ^ 64) := by
  intro group
  induction group with
  | nil =>
    intro cls total ht _ _
    cases cls <;> simp [aggregateStorage, storageClasses, totalDeclaredStorage] <;> omega
  | cons s rest ih =>
    intro cls total ht hparse hagree
    have hparse' : ∀ x ∈ rest, storageSizeParses pkg m x = true :=
      fun x hx => hparse x (List.mem_cons_of_mem _ hx)
    have hs := hparse s (List.mem_cons_self _ _)
    have htot : totalDeclaredStorage pkg m (s :: rest) =
        declaredStorageSize pkg m s + totalDeclaredStorage pkg m rest := by
      simp [totalDeclaredStorage]
    rw [storageClasses_cons] at hagree ⊢
    rw [htot]
    unfold aggregateStorage
    cases hspec : getCDAPStatefulServiceSpec s m with
    | none =>
      have hc : declaredStorageClass m s = none := by simp [declaredStorageClass, hspec]
      have hz : declaredStorageSize pkg m s = 0 := by simp [declaredStorageSize, hspec]
      rw [hc] at hagree ⊢
      rw [hz]
      simp only [Option.toList_none, List.nil_append, Nat.zero_add] at hagree ⊢
      exact ih cls total ht hparse' hagree
    | some ss =>
      have hc : declaredStorageClass m s = ss.StorageClassName := by
        simp [declaredStorageClass, hspec]
      rw [hc] at hagree ⊢
      simp only [addStorageSize_ok pkg m s ss total hspec hs]
      have hz : (if ss.StorageSize = "" then total
          else (total + declaredStorageSize pkg m s) % 2 ^ 64) =
          (total + declaredStorageSize pkg m s) % 2 ^ 64 := by
        by_cases hsz : ss.StorageSize = ""
        · have : declaredStorageSize pkg m s = 0 := by
            simp [declaredStorageSize, hspec, hsz]
          simp only [hsz, this, if_true, Nat.add_zero]
          exact (Nat.mod_eq_of_lt ht).symm
        · simp only [hsz, if_false]
      rw [hz]
      have hlt : (total + declaredStorageSize pkg m s) % 2 ^ 64 < 2 ^ 64 :=
        Nat.mod_lt _ (by positivity)
      have hsum : ((total + declaredStorageSize pkg m s) % 2 ^ 64 +
          totalDeclaredStorage pkg m rest) % 2 ^ 64 =
          (total + (declaredStorageSize pkg m s + totalDeclaredStorage pkg m rest)) %
            2 ^ 64 := by
        rw [Nat.mod_add_mod, Nat.add_assoc]
      cases hcn : ss.StorageClassName with
      | none =>
        rw [hcn] at hagree
        simp only [Option.toList_none, List.nil_append] at hagree ⊢
        rw [ih cls _ hlt hparse' hagree, hsum]
      | some c =>
        rw [hcn] at hagree
        cases cls with
        | none =>
          simp only [Option.toList_none, List.nil_append] at hagree ⊢
          rw [ih (some c) _ hlt hparse' hagree, hsum]
        | some c' =>
          have hcc : c' = c := hagree c' (by simp) c (by simp)
          subst hcc
          have hagree' : AllSame ((some c').toList ++ storageClasses m rest) :=
            allSame_of_subset (by intro x hx; simp at hx ⊢; tauto) hagree
          simp only [ne_eq, not_true_eq_false, if_false]
          rw [ih (some c') _ hlt hparse' hagree', hsum]
          simp

theorem aggregateStorage_differ (pkg : Package) (m : CDAPMaster) :
    ∀ (group : ServiceGroup) (cls : Option String) (total : Nat),
      ¬ AllSame (cls.toList ++ storageClasses m group) →
      ∃ err, aggregateStorage pkg m group cls total = .error err := by
  intro group
  induction group with
  | nil =>
    intro cls total h
    exfalso
    apply h
    cases cls with
    | none => intro x hx; simp [storageClasses] at hx
    | some c =>
      intro x hx y hy
      simp [storageClasses] at hx hy
      rw [hx, hy]
  | cons s rest ih =>
    intro cls total h
    rw [storageClasses_cons] at h
    unfold aggregateStorage
    cases hspec : getCDAPStatefulServiceSpec s m with
    | none =>
      have hc : declaredStorageClass m s = none := by simp [declaredStorageClass, hspec]
      rw [hc] at h
      simp only [Option.toList_none, List.nil_append] at h
      exact ih cls total h
    | some ss =>
      have hc : declaredStorageClass m s = ss.StorageClassName := by
        simp [declaredStorageClass, hspec]
      rw [hc] at h
      simp only
      cases hadd : addStorageSize pkg ss total with
      | error err => exact ⟨err, rfl⟩
      | ok total' =>
        simp only
        cases hcn : ss.StorageClassName with
        | none =>
          rw [hcn] at h
          simp only [Option.toList_none, List.nil_append] at h
          exact ih cls total' h
        | some c =>
          rw [hcn] at h
          cases cls with
          | none =>
            simp only [Option.toList_none, List.nil_append] at h
            exact ih (some c) total' h
          | some c' =>
            by_cases hcc : c' = c
            · subst hcc
              simp only [ne_eq, not_true_eq_false, if_false]
              apply ih (some c') total'
              intro hsame
              apply h
              exact allSame_of_subset (by intro x hx; simp at hx ⊢; tauto) hsame
            · exact ⟨.storageClassInconsistent, by simp [hcc]⟩

theorem aggregateStorage_inconsistent (pkg : Package) (m : CDAPMaster) :
    ∀ (group : ServiceGroup) (cls : Option String) (total : Nat),
      aggregateStorage pkg m group cls total = .error .storageClassInconsistent →
      ¬ AllSame (cls.toList ++ storageClasses m group) := by
  intro group
  induction group with
  | nil => intro cls total h; simp [aggregateStorage] at h
  | cons s rest ih =>
    intro cls total h
    rw [storageClasses_cons]
    unfold aggregateStorage at h
    cases hspec : getCDAPStatefulServiceSpec s m with
    | none =>
      have hc : declaredStorageClass m s = none := by simp [declaredStorageClass, hspec]
      rw [hspec] at h
      rw [hc]
      simp only [Option.toList_none, List.nil_append]
      exact ih cls total h
    | some ss =>
      have hc : declaredStorageClass m s = ss.StorageClassName := by
        simp [declaredStorageClass, hspec]
      rw [hspec] at h
      rw [hc]
      simp only at h
      cases hadd : addStorageSize pkg ss total with
      | error err =>
        rw [hadd] at h
        have := addStorageSize_error pkg ss total err hadd
        subst this
        cases h
      | ok total' =>
        rw [hadd] at h
        simp only at h
        cases hcn : ss.StorageClassName with
        | none =>
          rw [hcn] at h
          simp only [Option.toList_none, List.nil_append]
          exact ih cls total' h
        | some c =>
          rw [hcn] at h
          cases cls with
          | none =>
            simp only [Option.toList_none, List.nil_append]
            exact ih (some c) total' h
          | some c' =>
            by_cases hcc : c' = c
            · subst hcc
              simp only [ne_eq, not_true_eq_false, if_false] at h
              intro hsame
              exact ih (some c') total' h
                (allSame_of_subset (by intro x hx; simp at hx ⊢; tauto) hsame)
            · intro hsame
              exact hcc (hsame c' (by simp) c (by simp))

theorem storageClassesAgree_iff (m : CDAPMaster) (group : ServiceGroup) :
    StorageClassesAgree m group ↔ AllSame (storageClasses m group) := by
  unfold StorageClassesAgree AllSame storageClasses
  constructor
  · intro h x hx y hy
    obtain ⟨s₁, hs₁, h₁⟩ := List.mem_filterMap.1 hx
    obtain ⟨s₂, hs₂, h₂⟩ := List.mem_filterMap.1 hy
    rcases h s₁ hs₁ s₂ hs₂ with h' | h' | h'
    · rw [h₁] at h'; cases h'
    · rw [h₂] at h'; cases h'
    · rw [h₁, h₂] at h'; exact Option.some.inj h'
  · intro h s₁ hs₁ s₂ hs₂
    cases h₁ : declaredStorageClass m s₁ with
    | none => exact Or.inl rfl
    | some c₁ =>
      cases h₂ : declaredStorageClass m s₂ with
      | none => exact Or.inr (Or.inl rfl)
      | some c₂ =>
        refine Or.inr (Or.inr ?_)
        rw [h c₁ (List.mem_filterMap.2 ⟨s₁, hs₁, h₁⟩) c₂ (List.mem_filterMap.2 ⟨s₂, hs₂, h₂⟩)]

theorem storageClassesDiffer_iff (m : CDAPMaster) (group : ServiceGroup) :
    StorageClassesDiffer m group ↔ ¬ AllSame (storageClasses m group) := by
  unfold StorageClassesDiffer AllSame storageClasses
  constructor
  · rintro ⟨s₁, hs₁, s₂, hs₂, c₁, c₂, h₁, h₂, hne⟩ h
    exact hne (h c₁ (List.mem_filterMap.2 ⟨s₁, hs₁, h₁⟩) c₂ (List.mem_filterMap.2 ⟨s₂, hs₂, h₂⟩))
  · intro h
    push_neg at h
    obtain ⟨x, hx, y, hy, hxy⟩ := h
    obtain ⟨s₁, hs₁, h₁⟩ := List.mem_filterMap.1 hx
    obtain ⟨s₂, hs₂, h₂⟩ := List.mem_filterMap.1 hy
    exact ⟨s₁, hs₁, s₂, hs₂, x, y, h₁, h₂, hxy⟩


theorem collectFieldValues_error (master : CDAPMaster) (fieldName : String) :
    ∀ (services : ServiceGroup) (values : List FieldData) (err : BuildError),
      collectFieldValues master fieldName services values = .error err →
      ∃ name, err = .fieldNotValid name := by
  intro services
  induction services with
  | nil => intro values err h; simp [collectFieldValues] at h
  | cons s rest ih =>
    intro values err h
    unfold collectFieldValues at h
    split at h
    · cases h; exact ⟨_, rfl⟩
    · split at h
      · cases h; exact ⟨_, rfl⟩
      · exact ih _ _ h
      · split at h <;> exact ih _ _ h
      · split at h <;> exact ih _ _ h

theorem extractFieldValueAndUpdate_error (master : CDAPMaster) (services : ServiceGroup)
    (fieldName : String) (value : String) (err : BuildError)
    (h : extractFieldValueAndUpdate master services fieldName value = .error err) :
    err ≠ .storageClassInconsistent := by
  unfold extractFieldValueAndUpdate at h
  split at h
  · rename_i err' hex
    cases h
    unfold extractFieldValueIfUnique at hex
    split at hex
    · rename_i err'' hcol
      cases hex
      obtain ⟨name, hname⟩ := collectFieldValues_error master fieldName services [] _ hcol
      rw [hname]
      exact fun h => BuildError.noConfusion h
    · rw [uniqueFieldValue_error services fieldName _ _ _ hex]
      exact fun h => BuildError.noConfusion h
  · cases h
  · cases h
  · cases h
    exact fun h => BuildError.noConfusion h

/-! ### The container loop -/

theorem definesMaxHeap_eq (pkg : Package) (m : CDAPMaster) (service : ServiceName) :
    definesMaxHeap pkg m service =
      hasMaxHeapLoop pkg (getCDAPServiceSpec service m).Env false := by
  unfold definesMaxHeap
  cases hl : hasMaxHeapLoop pkg (getCDAPServiceSpec service m).Env false with
  | false =>
    have h := (hasMaxHeapLoop_false_iff pkg _).1 hl
    rw [List.any_eq_false]
    intro e he
    simpa using h e he
  | true =>
    rw [List.any_eq_true]
    by_contra hne
    push_neg at hne
    have h : hasMaxHeapLoop pkg (getCDAPServiceSpec service m).Env false = false :=
      (hasMaxHeapLoop_false_iff pkg _).2 (fun e he => by simpa using hne e he)
    rw [hl] at h
    cases h

theorem addJavaMaxHeapEnvIfNotPresent_isSome (pkg : Package) (env : List EnvVar)
    (resources : Option ResourceRequirements) :
    (addJavaMaxHeapEnvIfNotPresent pkg env resources).isSome =
      (hasMaxHeapLoop pkg env false || resources.isSome) := by
  unfold addJavaMaxHeapEnvIfNotPresent
  cases hasMaxHeapLoop pkg env false with
  | true => rfl
  | false =>
    cases resources with
    | none => rfl
    | some r =>
      simp only [Bool.not_false, if_true, Option.isSome_some, Bool.or_true]
      split <;> rfl

theorem serviceContainer_isSome (pkg : Package) (m : CDAPMaster) (service : ServiceName) :
    (serviceContainer pkg m service).isSome =
      (definesMaxHeap pkg m service || (getCDAPServiceSpec service m).Resources.isSome) := by
  rw [definesMaxHeap_eq, ← addJavaMaxHeapEnvIfNotPresent_isSome]
  unfold serviceContainer
  simp only
  cases addJavaMaxHeapEnvIfNotPresent pkg (getCDAPServiceSpec service m).Env
      (getCDAPServiceSpec service m).Resources with
  | none => rfl
  | some env => rfl

theorem resourcesAvailable_cons (pkg : Package) (m : CDAPMaster) (s : ServiceName)
    (rest : ServiceGroup) :
    ResourcesAvailable pkg m (s :: rest) ↔
      (serviceContainer pkg m s).isSome = true ∧ ResourcesAvailable pkg m rest := by
  unfold ResourcesAvailable
  rw [serviceContainer_isSome]
  simp

theorem addServiceContainers_eq (pkg : Package) (m : CDAPMaster) :
    ∀ (serviceGroup : ServiceGroup) (spec : BaseSpec),
      addServiceContainers pkg m serviceGroup spec =
        if ResourcesAvailable pkg m serviceGroup then
          some { spec with
            Labels := serviceLabels pkg m serviceGroup spec.Labels
            Containers := spec.Containers ++ serviceGroup.filterMap (serviceContainer pkg m) }
        else none := by
  intro serviceGroup
  induction serviceGroup with
  | nil =>
    intro spec
    have h : ResourcesAvailable pkg m [] := by intro s hs; cases hs
    simp [addServiceContainers, serviceLabels, h]
  | cons s rest ih =>
    intro spec
    rw [addServiceContainers]
    cases hc : serviceContainer pkg m s with
    | none =>
      have h : ¬ ResourcesAvailable pkg m (s :: rest) := by
        rw [resourcesAvailable_cons, hc]
        simp
      simp [h]
    | some c =>
      simp only
      rw [ih]
      by_cases hrest : ResourcesAvailable pkg m rest
      · have h : ResourcesAvailable pkg m (s :: rest) := by
          rw [resourcesAvailable_cons, hc]
          exact ⟨rfl, hrest⟩
        simp [h, hrest, hc, BaseSpec.withContainer, BaseSpec.addLabel, serviceLabels]
      · have h : ¬ ResourcesAvailable pkg m (s :: rest) := by
          rw [resourcesAvailable_cons]
          exact fun h => hrest h.2
        simp [h, hrest]

theorem serviceContainers_eq_map (pkg : Package) (m : CDAPMaster) :
    ∀ (serviceGroup : ServiceGroup), ResourcesAvailable pkg m serviceGroup →
      serviceGroup.map (serviceContainer pkg m) =
        (serviceGroup.filterMap (serviceContainer pkg m)).map some := by
  intro serviceGroup
  induction serviceGroup with
  | nil => intro _; rfl
  | cons s rest ih =>
    intro h
    rw [resourcesAvailable_cons] at h
    obtain ⟨hs, hrest⟩ := h
    obtain ⟨c, hc⟩ := Option.isSome_iff_exists.1 hs
    simp [List.filterMap_cons, hc, ih hrest]

theorem buildDeployment_eq (pkg : Package) (m : CDAPMaster) (labels : GoMap String String)
    (name : String) (serviceGroup : ServiceGroup) (sa rt pc : String)
    (hsa : extractFieldValueAndUpdate m serviceGroup "ServiceAccountName"
      m.Spec.ServiceAccountName = .ok sa)
    (hrt : extractFieldValueAndUpdate m serviceGroup "RuntimeClassName" "" = .ok rt)
    (hpc : extractFieldValueAndUpdate m serviceGroup "PriorityClassName" "" = .ok pc) :
    buildDeployment pkg m labels name serviceGroup =
      if ResourcesAvailable pkg m serviceGroup then
        .ok { Base := workloadBase pkg m labels name serviceGroup sa rt pc }
      else .panic := by
  simp only [buildDeployment, hsa, hrt, hpc, addServiceContainers_eq]
  by_cases h : ResourcesAvailable pkg m serviceGroup
  · simp [h, workloadBase, newDeploymentSpec, newBaseSpec, BaseSpec.setServiceAccountName,
      BaseSpec.setNodeSelector, BaseSpec.setRuntimeClassName, BaseSpec.setPriorityClassName]
  · simp [h]

theorem buildStateful_eq (pkg : Package) (m : CDAPMaster) (labels : GoMap String String)
    (name : String) (serviceGroup : ServiceGroup) (sa rt pc : String)
    (hsa : extractFieldValueAndUpdate m serviceGroup "ServiceAccountName"
      m.Spec.ServiceAccountName = .ok sa)
    (hrt : extractFieldValueAndUpdate m serviceGroup "RuntimeClassName" "" = .ok rt)
    (hpc : extractFieldValueAndUpdate m serviceGroup "PriorityClassName" "" = .ok pc) :
    buildStateful pkg m labels name serviceGroup =
      if ResourcesAvailable pkg m serviceGroup then
        match aggregateStorage pkg m serviceGroup none 0 with
        | .error err => .error err
        | .ok (storageClassName, totalStorageSize) =>
          .ok { Base := workloadBase pkg m labels name serviceGroup sa rt pc
                InitContainers := [storageInitContainer pkg m]
                StorageClassName := storageClassName
                StorageSize :=
                  if totalStorageSize > 0 then pkg.ToHumanReadableBytes totalStorageSize
                  else "" }
      else .panic := by
  simp only [buildStateful, hsa, hrt, hpc, addServiceContainers_eq]
  by_cases h : ResourcesAvailable pkg m serviceGroup
  · simp only [h, if_true]
    cases aggregateStorage pkg m serviceGroup none 0 with
    | error err => rfl
    | ok p =>
      obtain ⟨cls, total⟩ := p
      simp [workloadBase, newStatefulSpec, newBaseSpec, BaseSpec.setServiceAccountName,
        BaseSpec.setNodeSelector, BaseSpec.setRuntimeClassName, BaseSpec.setPriorityClassName,
        StatefulSpec.withInitContainer, StatefulSpec.withStorage, storageInitContainer]
  · simp [h]

/-- The outcome of `buildStateful` when a reconciliation fails: the error of
the first reconciliation that fails, before any container is built. -/
theorem buildStateful_reconciliation_error (pkg : Package) (m : CDAPMaster)
    (labels : GoMap String String) (name : String) (serviceGroup : ServiceGroup)
    (h : ¬ ReconciliationSucceeds m serviceGroup) :
    ∃ err, buildStateful pkg m labels name serviceGroup = .error err ∧
      err ≠ .storageClassInconsistent := by
  unfold buildStateful
  simp only
  cases hsa : extractFieldValueAndUpdate m serviceGroup "ServiceAccountName"
      m.Spec.ServiceAccountName with
  | error err => exact ⟨err, rfl, extractFieldValueAndUpdate_error _ _ _ _ _ hsa⟩
  | ok sa =>
    cases hrt : extractFieldValueAndUpdate m serviceGroup "RuntimeClassName" "" with
    | error err => exact ⟨err, rfl, extractFieldValueAndUpdate_error _ _ _ _ _ hrt⟩
    | ok rt =>
      cases hpc : extractFieldValueAndUpdate m serviceGroup "PriorityClassName" "" with
      | error err => exact ⟨err, rfl, extractFieldValueAndUpdate_error _ _ _ _ _ hpc⟩
      | ok pc => exact absurd ⟨⟨sa, hsa⟩, ⟨rt, hrt⟩, ⟨pc, hpc⟩⟩ h

/-- C9: for a stateful group on which the three field reconciliations succeed,
every service defines the heap-size variable or has its `Resources` set, every
declared storage size parses and no two services declare different storage
classes, `buildStateful` succeeds; the storage size of the spec is
`ToHumanReadableBytes` of the sum, reduced modulo 2 ^ 64, of the parsed sizes the
services declare, and the empty string when that is 0 (so for sizes that total
less than 2 ^ 64 bytes it is the formatted sum itself); the storage class of the
spec is the class every declaring service declares, and nil when none declares
one. -/
theorem buildStateful_storage (pkg : Package) (m : CDAPMaster) (labels : GoMap String String)
    (name : String) (serviceGroup : ServiceGroup)
    (hrec : ReconciliationSucceeds m serviceGroup)
    (havail : ResourcesAvailable pkg m serviceGroup)
    (hparse : ∀ s ∈ serviceGroup, storageSizeParses pkg m s = true)
    (hagree : StorageClassesAgree m serviceGroup) :
    ∃ spec, buildStateful pkg m labels name serviceGroup = .ok spec ∧
      spec.StorageSize =
        (if totalDeclaredStorage pkg m serviceGroup % 2 ^ 64 = 0 then ""
         else pkg.ToHumanReadableBytes (totalDeclaredStorage pkg m serviceGroup % 2 ^ 64)) ∧
      (totalDeclaredStorage pkg m serviceGroup < 2 ^ 64 →
        spec.StorageSize =
          (if totalDeclaredStorage pkg m serviceGroup = 0 then ""
           else pkg.ToHumanReadableBytes (totalDeclaredStorage pkg m serviceGroup))) ∧
      (∀ s ∈ serviceGroup, ∀ c, declaredStorageClass m s = some c →
        spec.StorageClassName = some c) ∧
      ((∀ s ∈ serviceGroup, declaredStorageClass m s = none) →
        spec.StorageClassName = none) := by
  obtain ⟨⟨sa, hsa⟩, ⟨rt, hrt⟩, ⟨pc, hpc⟩⟩ := hrec
  have hsame := (storageClassesAgree_iff m serviceGroup).1 hagree
  have hagg := aggregateStorage_ok pkg m serviceGroup none 0 (by norm_num) hparse
    (by simpa using hsame)
  simp only [Option.toList_none, List.nil_append, Nat.zero_add] at hagg
  have hsize : (if totalDeclaredStorage pkg m serviceGroup % 2 ^ 64 > 0 then
      pkg.ToHumanReadableBytes (totalDeclaredStorage pkg m serviceGroup % 2 ^ 64) else "") =
      (if totalDeclaredStorage pkg m serviceGroup % 2 ^ 64 = 0 then ""
       else pkg.ToHumanReadableBytes (totalDeclaredStorage pkg m serviceGroup % 2 ^ 64)) := by
    by_cases h0 : totalDeclaredStorage pkg m serviceGroup % 2 ^ 64 = 0
    · rw [if_pos h0, if_neg (by omega)]
    · rw [if_neg h0, if_pos (by omega)]
  rw [buildStateful_eq pkg m labels name serviceGroup sa rt pc hsa hrt hpc, if_pos havail, hagg]
  refine ⟨_, rfl, ?_, ?_, ?_, ?_⟩
  · exact hsize
  · intro hlt
    simp only
    rw [hsize, Nat.mod_eq_of_lt hlt]
  · intro s hs c hc
    have hmem : c ∈ storageClasses m serviceGroup := List.mem_filterMap.2 ⟨s, hs, hc⟩
    simp only
    cases hl : storageClasses m serviceGroup with
    | nil => rw [hl] at hmem; cases hmem
    | cons x rest =>
      rw [hl] at hmem hsame
      simp only [List.head?_cons]
      rw [hsame x (List.mem_cons_self _ _) c hmem]
  · intro hnone
    have hl : storageClasses m serviceGroup = [] := by
      unfold storageClasses
      rw [List.filterMap_eq_nil_iff]
      exact hnone
    simp [hl]

/-- C9, at the stateful group of three pods with Logs declaring "10Gi" and
Messaging "5Gi", both in the class "ssd": the total is "15Gi" in the class
"ssd". -/
theorem buildStateful_storage_witness :
    ReconciliationSucceeds masterStorage backendGroup ∧
    ResourcesAvailable examplePackage masterStorage backendGroup ∧
    (∀ s ∈ backendGroup, storageSizeParses examplePackage masterStorage s = true) ∧
    StorageClassesAgree masterStorage backendGroup ∧
    ∃ spec, buildStateful examplePackage masterStorage [] "backend" backendGroup = .ok spec ∧
      spec.StorageSize = "15Gi" ∧ spec.StorageClassName = some "ssd" := by
  have hrec : ReconciliationSucceeds masterStorage backendGroup :=
    ⟨⟨"", by decide⟩, ⟨"", by decide⟩, ⟨"", by decide⟩⟩
  have havail : ResourcesAvailable examplePackage masterStorage backendGroup := by decide
  have hparse : ∀ s ∈ backendGroup, storageSizeParses examplePackage masterStorage s = true := by
    decide
  have hagree : StorageClassesAgree masterStorage backendGroup := by decide
  obtain ⟨spec, hok, hsize, -, hcls, -⟩ :=
    buildStateful_storage examplePackage masterStorage [] "backend" backendGroup hrec havail
      hparse hagree
  refine ⟨hrec, havail, hparse, hagree, spec, hok, ?_,
    hcls serviceLogs (by decide) "ssd" (by decide)⟩
  rw [hsize]
  decide

/-- C9 as stated fails in two ways.  When the sizes total 2 ^ 64 bytes or more:
with four services declaring "4Ei" each the hypotheses hold and the sum is
2 ^ 64, not 0, but the `uint64` total wraps to 0 and the storage size of the spec
is empty, not the formatted sum "16Ei".  And when the `Resources` of a service
are not set: with Logs declaring "10Gi" and Messaging "5Gi" in one class the
hypotheses hold, but the container loop, which runs before the storage loop,
dereferences the nil pointer and no spec is returned. -/
theorem buildStateful_storage_sum_counterexample :
    (ReconciliationSucceeds masterLargeStorage backendGroup ∧
      (∀ s ∈ backendGroup, storageSizeParses examplePackage masterLargeStorage s = true) ∧
      StorageClassesAgree masterLargeStorage backendGroup ∧
      totalDeclaredStorage examplePackage masterLargeStorage backendGroup = 2 ^ 64 ∧
      examplePackage.ToHumanReadableBytes
        (totalDeclaredStorage examplePackage masterLargeStorage backendGroup) = "16Ei" ∧
      ∃ spec, buildStateful examplePackage masterLargeStorage [] "backend" backendGroup =
          .ok spec ∧ spec.StorageSize = "" ∧
        ¬ spec.StorageSize =
          (if totalDeclaredStorage examplePackage masterLargeStorage backendGroup = 0 then ""
           else examplePackage.ToHumanReadableBytes
            (totalDeclaredStorage examplePackage masterLargeStorage backendGroup))) ∧
    (ReconciliationSucceeds masterStorage.withoutResources backendGroup ∧
      (∀ s ∈ backendGroup,
        storageSizeParses examplePackage masterStorage.withoutResources s = true) ∧
      StorageClassesAgree masterStorage.withoutResources backendGroup ∧
      buildStateful examplePackage masterStorage.withoutResources [] "backend" backendGroup =
        .panic ∧
      ¬ ∃ spec, buildStateful examplePackage masterStorage.withoutResources [] "backend"
        backendGroup = .ok spec) := by
  have htotal : totalDeclaredStorage examplePackage masterLargeStorage backendGroup = 2 ^ 64 := by
    decide
  have hformat : examplePackage.ToHumanReadableBytes
      (totalDeclaredStorage examplePackage masterLargeStorage backendGroup) = "16Ei" := by
    decide
  have hpanic : buildStateful examplePackage masterStorage.withoutResources [] "backend"
      backendGroup = .panic := by decide
  refine ⟨⟨⟨⟨"", by decide⟩, ⟨"", by decide⟩, ⟨"", by decide⟩⟩, by decide, by decide, htotal,
    hformat, ?_⟩, ⟨⟨"", by decide⟩, ⟨"", by decide⟩, ⟨"", by decide⟩⟩, by decide, by decide,
    hpanic, ?_⟩
  · have h : (buildStateful examplePackage masterLargeStorage [] "backend" backendGroup).map
        (fun spec => spec.StorageSize) = .ok "" := by decide
    cases hb : buildStateful examplePackage masterLargeStorage [] "backend" backendGroup with
    | error err => rw [hb] at h; cases h
    | panic => rw [hb] at h; cases h
    | ok spec =>
      rw [hb] at h
      have hsize : spec.StorageSize = "" := by simpa [Outcome.map] using h
      refine ⟨spec, rfl, hsize, ?_⟩
      rw [hsize, hformat, htotal]
      decide
  · rintro ⟨spec, hspec⟩
    rw [hpanic] at hspec
    cases hspec

/-- C10: when two services of a stateful group declare storage classes that
differ and every service of the group defines the heap-size variable or has its
`Resources` set, `buildStateful` returns an error, wherever the two stand in the
group; and `buildStateful` returns the storage class error only when two
services declare classes that differ, so a service without a storage class and
services declaring one common class never cause it. -/
theorem buildStateful_storageClass_error (pkg : Package) (m : CDAPMaster)
    (labels : GoMap String String) (name : String) (serviceGroup : ServiceGroup) :
    (StorageClassesDiffer m serviceGroup → ResourcesAvailable pkg m serviceGroup →
      ∃ err, buildStateful pkg m labels name serviceGroup = .error err) ∧
    (buildStateful pkg m labels name serviceGroup = .error .storageClassInconsistent →
      StorageClassesDiffer m serviceGroup) ∧
    (StorageClassesAgree m serviceGroup →
      buildStateful pkg m labels name serviceGroup ≠ .error .storageClassInconsistent) := by
  have hsecond : buildStateful pkg m labels name serviceGroup =
      .error .storageClassInconsistent → StorageClassesDiffer m serviceGroup := by
    intro h
    rw [storageClassesDiffer_iff]
    by_cases hrec : ReconciliationSucceeds m serviceGroup
    · obtain ⟨⟨sa, hsa⟩, ⟨rt, hrt⟩, ⟨pc, hpc⟩⟩ := hrec
      rw [buildStateful_eq pkg m labels name serviceGroup sa rt pc hsa hrt hpc] at h
      split at h
      · cases hagg : aggregateStorage pkg m serviceGroup none 0 with
        | error err =>
          rw [hagg] at h
          cases h
          simpa using aggregateStorage_inconsistent pkg m serviceGroup none 0 hagg
        | ok p =>
          rw [hagg] at h
          cases h
      · cases h
    · obtain ⟨err, herr, hne⟩ :=
        buildStateful_reconciliation_error pkg m labels name serviceGroup hrec
      rw [herr] at h
      cases h
      exact absurd rfl hne
  refine ⟨?_, hsecond, ?_⟩
  · intro hdiff havail
    rw [storageClassesDiffer_iff] at hdiff
    obtain ⟨err, herr⟩ := aggregateStorage_differ pkg m serviceGroup none 0
      (by simpa using hdiff)
    by_cases hrec : ReconciliationSucceeds m serviceGroup
    · obtain ⟨⟨sa, hsa⟩, ⟨rt, hrt⟩, ⟨pc, hpc⟩⟩ := hrec
      rw [buildStateful_eq pkg m labels name serviceGroup sa rt pc hsa hrt hpc,
        if_pos havail, herr]
      exact ⟨_, rfl⟩
    · obtain ⟨e, he, -⟩ :=
        buildStateful_reconciliation_error pkg m labels name serviceGroup hrec
      exact ⟨e, he⟩
  · intro hagree h
    have hdiff := hsecond h
    rw [storageClassesDiffer_iff] at hdiff
    exact hdiff ((storageClassesAgree_iff m serviceGroup).1 hagree)

/-- C10, at the stateful group of three pods with Logs declaring the class
"ssd", Messaging none and Metrics "hdd": the build fails with the storage class
error. -/
theorem buildStateful_storageClass_error_witness :
    StorageClassesDiffer masterStorageClasses backendGroup ∧
    ResourcesAvailable examplePackage masterStorageClasses backendGroup ∧
    declaredStorageClass masterStorageClasses serviceMessaging = none ∧
    buildStateful examplePackage masterStorageClasses [] "backend" backendGroup =
      .error .storageClassInconsistent ∧
    StorageClassesAgree masterStorage backendGroup ∧
    buildStateful examplePackage masterStorage [] "backend" backendGroup ≠
      .error .storageClassInconsistent := by
  have hdiff : StorageClassesDiffer masterStorageClasses backendGroup :=
    ⟨serviceLogs, by decide, serviceMetrics, by decide, "ssd", "hdd", by decide, by decide,
      by decide⟩
  have havail : ResourcesAvailable examplePackage masterStorageClasses backendGroup := by
    decide
  have hthm := buildStateful_storageClass_error examplePackage masterStorageClasses []
    "backend" backendGroup
  obtain ⟨err, herr⟩ := hthm.1 hdiff havail
  have herr' : buildStateful examplePackage masterStorageClasses [] "backend" backendGroup =
      .error .storageClassInconsistent := by decide
  exact ⟨hthm.2.1 herr', havail, by decide, herr', by decide,
    (buildStateful_storageClass_error examplePackage masterStorage [] "backend"
      backendGroup).2.2 (by decide)⟩

/-- C10 as stated fails when the `Resources` of a service are not set: with
Logs declaring the class "ssd" and Metrics "hdd" and no service holding
resources or the heap-size variable, the container loop dereferences the nil
pointer before the storage classes are compared, and no error is returned. -/
theorem buildStateful_storageClass_nil_counterexample :
    StorageClassesDiffer masterStorageClasses.withoutResources backendGroup ∧
    buildStateful examplePackage masterStorageClasses.withoutResources [] "backend"
      backendGroup = .panic ∧
    ¬ ∃ err, buildStateful examplePackage masterStorageClasses.withoutResources [] "backend"
      backendGroup = .error err := by
  have hpanic : buildStateful examplePackage masterStorageClasses.withoutResources []
      "backend" backendGroup = .panic := by decide
  refine ⟨⟨serviceLogs, by decide, serviceMetrics, by decide, "ssd", "hdd", by decide,
    by decide, by decide⟩, hpanic, ?_⟩
  rintro ⟨err, herr⟩
  rw [hpanic] at herr
  cases herr

/-! ### Strategy shapes and order independence of the reconciler -/

/-- C15: the registered strategies have the documented shapes: for pod-count 0
every group holds one service; for pod-count 1 there is one group, with all eight
services; for pod-count 2 two groups, the seven other services and UserInterface;
for pod-count 3 three groups, the six other services, Router and UserInterface;
and every strategy exposes exactly router -> Router and
userinterface -> UserInterface. -/
theorem strategy_shapes :
    strategyHandler.strategyMap =
      [(0, strategy0), (1, strategy1), (2, strategy2), (3, strategy3)] ∧
    (∀ g ∈ strategy0.stateful ++ strategy0.deployment, g.2.length = 1) ∧
    (strategy1.stateful ++ strategy1.deployment).map Prod.snd =
      [[serviceLogs, serviceMessaging, serviceMetrics, servicePreview, serviceAppFabric,
        serviceMetadata, serviceRouter, serviceUserInterface]] ∧
    (strategy2.stateful ++ strategy2.deployment).map Prod.snd =
      [[serviceLogs, serviceMessaging, serviceMetrics, servicePreview, serviceAppFabric,
        serviceMetadata, serviceRouter], [serviceUserInterface]] ∧
    (strategy3.stateful ++ strategy3.deployment).map Prod.snd =
      [[serviceLogs, serviceMessaging, serviceMetrics, servicePreview, serviceAppFabric,
        serviceMetadata], [serviceRouter], [serviceUserInterface]] ∧
    (∀ p ∈ strategyHandler.strategyMap,
      p.2.networkService =
        [("router", serviceRouter), ("userinterface", serviceUserInterface)]) := by
  decide

theorem fieldExists_perm (master : CDAPMaster) (fieldName : String) {l₁ l₂ : ServiceGroup}
    (h : l₁.Perm l₂) : FieldExists master l₁ fieldName ↔ FieldExists master l₂ fieldName := by
  unfold FieldExists
  constructor
  · intro h₁ s hs; exact h₁ s (h.mem_iff.2 hs)
  · intro h₂ s hs; exact h₂ s (h.mem_iff.1 hs)

theorem collectFieldValues_not_exists (master : CDAPMaster) (fieldName : String) :
    ∀ (services : ServiceGroup) (values : List FieldData),
      ¬ FieldExists master services fieldName →
      ∃ err, collectFieldValues master fieldName services values = .error err := by
  intro services
  induction services with
  | nil => intro values h; exact absurd (fun s hs => by cases hs) h
  | cons s rest ih =>
    intro values h
    cases hspec : master.Spec.fieldByName s with
    | none => rw [collectFieldValues, hspec]; exact ⟨_, rfl⟩
    | some specVal =>
      cases hfv : specVal fieldName with
      | none => rw [collectFieldValues, hspec]; simp only [hfv]; exact ⟨_, rfl⟩
      | some fv =>
        have hrest : ¬ FieldExists master rest fieldName := by
          intro hr
          apply h
          intro x hx
          rcases List.mem_cons.1 hx with rfl | hx
          · simp [fieldValueOf, hspec, hfv]
          · exact hr x hx
        rw [collectFieldValues, hspec]
        simp only [hfv]
        cases fv with
        | nilPtr => exact ih values hrest
        | ptr v =>
          simp only
          split
          · exact ih values hrest
          · exact ih _ hrest
        | direct v =>
          simp only
          split
          · exact ih values hrest
          · exact ih _ hrest

theorem uniqueFieldValue_none_ok (services : ServiceGroup) (fieldName : String)
    (values : List FieldData) (r : Option FieldData)
    (h : uniqueFieldValue services fieldName values none = .ok r) :
    r = values.head? ∧ ∀ x ∈ values, some x = r := by
  cases values with
  | nil =>
    simp [uniqueFieldValue] at h
    subst h
    simp
  | cons v rest =>
    rw [uniqueFieldValue, uniqueFieldValue_some] at h
    split at h
    · rename_i hall
      cases h
      refine ⟨rfl, ?_⟩
      intro x hx
      rcases List.mem_cons.1 hx with rfl | hx
      · rfl
      · rw [hall x hx]
    · cases h

theorem uniqueFieldValue_none_of_all (services : ServiceGroup) (fieldName : String)
    (values : List FieldData) (v : FieldData) (hne : values ≠ [])
    (hall : ∀ x ∈ values, x = v) :
    uniqueFieldValue services fieldName values none = .ok (some v) := by
  cases values with
  | nil => exact absurd rfl hne
  | cons x rest =>
    have hx : x = v := hall x (List.mem_cons_self _ _)
    subst hx
    rw [uniqueFieldValue, uniqueFieldValue_some]
    rw [if_pos (fun y hy => hall y (List.mem_cons_of_mem _ hy))]

/-- C19: for two service lists that are permutations of each other,
`extractFieldValueIfUnique` either fails on both or succeeds on both with the same
value (nil or the common non-empty value). -/
theorem extractFieldValueIfUnique_perm (master : CDAPMaster) (fieldName : String)
    (l₁ l₂ : ServiceGroup) (h : l₁.Perm l₂) :
    ((∃ e₁, extractFieldValueIfUnique master l₁ fieldName = .error e₁) ∧
      (∃ e₂, extractFieldValueIfUnique master l₂ fieldName = .error e₂)) ∨
    (∃ v, extractFieldValueIfUnique master l₁ fieldName = .ok v ∧
      extractFieldValueIfUnique master l₂ fieldName = .ok v) := by
  by_cases hex : FieldExists master l₁ fieldName
  · have hex₂ := (fieldExists_perm master fieldName h).1 hex
    rw [extractFieldValueIfUnique_eq master l₁ fieldName hex,
      extractFieldValueIfUnique_eq master l₂ fieldName hex₂]
    have hperm : (l₁.filterMap (reportedValue master fieldName)).Perm
        (l₂.filterMap (reportedValue master fieldName)) := h.filterMap _
    cases h₁ : uniqueFieldValue l₁ fieldName (l₁.filterMap (reportedValue master fieldName))
        none with
    | error e₁ =>
      left
      refine ⟨⟨e₁, rfl⟩, ?_⟩
      rw [uniqueFieldValue_none_error_iff]
      obtain ⟨x, hx, y, hy, hxy⟩ := (uniqueFieldValue_none_error_iff l₁ fieldName _).1 ⟨e₁, h₁⟩
      exact ⟨x, hperm.mem_iff.1 hx, y, hperm.mem_iff.1 hy, hxy⟩
    | ok r =>
      right
      refine ⟨r, rfl, ?_⟩
      obtain ⟨hhead, hall⟩ := uniqueFieldValue_none_ok l₁ fieldName _ r h₁
      cases r with
      | none =>
        have hnil : l₁.filterMap (reportedValue master fieldName) = [] := by
          cases hl : l₁.filterMap (reportedValue master fieldName) with
          | nil => rfl
          | cons x rest => rw [hl] at hhead; cases hhead
        rw [hnil] at hperm
        rw [← List.Perm.nil_eq hperm]
        rfl
      | some v =>
        apply uniqueFieldValue_none_of_all
        · intro hnil
          rw [hnil] at hperm
          rw [List.Perm.eq_nil hperm] at hhead
          cases hhead
        · intro x hx
          exact Option.some.inj (hall x (hperm.mem_iff.2 hx))
  · have hex₂ : ¬ FieldExists master l₂ fieldName :=
      fun h₂ => hex ((fieldExists_perm master fieldName h).2 h₂)
    left
    obtain ⟨e₁, he₁⟩ := collectFieldValues_not_exists master fieldName l₁ [] hex
    obtain ⟨e₂, he₂⟩ := collectFieldValues_not_exists master fieldName l₂ [] hex₂
    exact ⟨⟨e₁, by simp [extractFieldValueIfUnique, he₁]⟩,
      ⟨e₂, by simp [extractFieldValueIfUnique, he₂]⟩⟩

/-- C19, at Logs, Messaging, Metrics and the same services with Metrics first:
both calls give "sa1". -/
theorem extractFieldValueIfUnique_perm_witness :
    [serviceLogs, serviceMessaging, serviceMetrics].Perm
      [serviceMetrics, serviceLogs, serviceMessaging] ∧
    extractFieldValueIfUnique masterAgreeing [serviceLogs, serviceMessaging, serviceMetrics]
      "ServiceAccountName" = .ok (some (.str "sa1")) ∧
    ∃ v, extractFieldValueIfUnique masterAgreeing
        [serviceLogs, serviceMessaging, serviceMetrics] "ServiceAccountName" = .ok v ∧
      extractFieldValueIfUnique masterAgreeing
        [serviceMetrics, serviceLogs, serviceMessaging] "ServiceAccountName" = .ok v := by
  have hperm : [serviceLogs, serviceMessaging, serviceMetrics].Perm
      [serviceMetrics, serviceLogs, serviceMessaging] := by decide
  have hok : extractFieldValueIfUnique masterAgreeing
      [serviceLogs, serviceMessaging, serviceMetrics] "ServiceAccountName" =
      .ok (some (.str "sa1")) := by decide
  refine ⟨hperm, hok, ?_⟩
  rcases extractFieldValueIfUnique_perm masterAgreeing "ServiceAccountName" _ _ hperm with
    ⟨⟨e₁, he₁⟩, -⟩ | h
  · rw [hok] at he₁; cases he₁
  · exact h

/-! ### Assembly of the workload specs -/

theorem GoMap.get?_set {κ ν : Type} [DecidableEq κ] (m : GoMap κ ν) (k k' : κ) (v : ν) :
    (GoMap.set m k v).get? k' = if k = k' then some v else m.get? k' := by
  induction m with
  | nil =>
    by_cases h : k = k' <;> simp [GoMap.set, GoMap.get?, h]
  | cons p rest ih =>
    obtain ⟨a, b⟩ := p
    by_cases hak : a = k
    · subst hak
      by_cases h : a = k' <;> simp [GoMap.set, GoMap.get?, h]
    · by_cases h : k = k'
      · subst h
        simp [GoMap.set, GoMap.get?, hak, ih]
      · by_cases hak' : a = k'
        · subst hak'
          simp [GoMap.set, GoMap.get?, hak, h]
        · simp [GoMap.set, GoMap.get?, hak, hak', h, ih]

theorem GoMap.keys_set {κ ν : Type} [DecidableEq κ] (m : GoMap κ ν) (k : κ) (v : ν) :
    (GoMap.set m k v).map Prod.fst =
      if k ∈ m.map Prod.fst then m.map Prod.fst else m.map Prod.fst ++ [k] := by
  induction m with
  | nil => simp [GoMap.set]
  | cons p rest ih =>
    obtain ⟨a, b⟩ := p
    by_cases hak : a = k
    · subst hak
      simp [GoMap.set]
    · have hka : ¬ k = a := fun h => hak h.symm
      simp only [GoMap.set, hak, if_false, List.map_cons, ih, List.mem_cons, hka, false_or]
      split <;> simp

theorem GoMap.nodup_keys_set {κ ν : Type} [DecidableEq κ] (m : GoMap κ ν) (k : κ) (v : ν)
    (h : (m.map Prod.fst).Nodup) : ((GoMap.set m k v).map Prod.fst).Nodup := by
  rw [GoMap.keys_set]
  split
  · exact h
  · rename_i hk
    exact List.nodup_append.2 ⟨h, List.nodup_singleton _, by
      intro x hx hx'
      rw [List.mem_singleton] at hx'
      subst hx'
      exact hk hx⟩

theorem serviceLabels_get? (pkg : Package) (m : CDAPMaster) :
    ∀ (serviceGroup : ServiceGroup) (labels : GoMap String String) (key : String),
      (serviceLabels pkg m serviceGroup labels).get? key =
        if key ∈ serviceGroup.map (fun s => pkg.labelContainerKeyPrefix ++ s) then some m.Name
        else labels.get? key := by
  intro serviceGroup
  induction serviceGroup with
  | nil => intro labels key; simp [serviceLabels]
  | cons s rest ih =>
    intro labels key
    have hstep : serviceLabels pkg m (s :: rest) labels =
        serviceLabels pkg m rest (labels.set (pkg.labelContainerKeyPrefix ++ s) m.Name) := rfl
    rw [hstep, ih, GoMap.get?_set]
    by_cases h₁ : key ∈ rest.map (fun s => pkg.labelContainerKeyPrefix ++ s)
    · simp [h₁]
    · by_cases h₂ : pkg.labelContainerKeyPrefix ++ s = key
      · simp [h₂]
      · have h₂' : ¬ key = pkg.labelContainerKeyPrefix ++ s := fun h => h₂ h.symm
        simp [h₁, h₂, h₂']

theorem serviceLabels_nodup (pkg : Package) (m : CDAPMaster) :
    ∀ (serviceGroup : ServiceGroup) (labels : GoMap String String),
      (labels.map Prod.fst).Nodup →
      ((serviceLabels pkg m serviceGroup labels).map Prod.fst).Nodup := by
  intro serviceGroup
  induction serviceGroup with
  | nil => intro labels h; exact h
  | cons s rest ih =>
    intro labels h
    exact ih _ (GoMap.nodup_keys_set labels _ _ h)

theorem extractFieldValueAndUpdate_ok (master : CDAPMaster) (services : ServiceGroup)
    (fieldName : String) (value v : String)
    (h : extractFieldValueAndUpdate master services fieldName value = .ok v) :
    FieldExists master services fieldName ∧
    v = fieldChoice (services.filterMap (reportedValue master fieldName)) value := by
  have hex : FieldExists master services fieldName := by
    by_contra hne
    obtain ⟨err, herr⟩ := collectFieldValues_not_exists master fieldName services [] hne
    simp [extractFieldValueAndUpdate, extractFieldValueIfUnique, herr] at h
  refine ⟨hex, ?_⟩
  unfold extractFieldValueAndUpdate at h
  rw [extractFieldValueIfUnique_eq master services fieldName hex] at h
  cases hu : uniqueFieldValue services fieldName
      (services.filterMap (reportedValue master fieldName)) none with
  | error err => rw [hu] at h; cases h
  | ok r =>
    rw [hu] at h
    obtain ⟨hhead, -⟩ := uniqueFieldValue_none_ok services fieldName _ r hu
    unfold fieldChoice
    rw [← hhead]
    cases r with
    | none => simp only at h; cases h; rfl
    | some d =>
      cases d with
      | str s => simp only at h; cases h; rfl
      | strs xs => simp only at h; cases h

theorem buildDeployment_error_iff (pkg : Package) (m : CDAPMaster)
    (labels : GoMap String String) (name : String) (serviceGroup : ServiceGroup) :
    (∃ err, buildDeployment pkg m labels name serviceGroup = .error err) ↔
      ¬ ReconciliationSucceeds m serviceGroup := by
  constructor
  · rintro ⟨err, herr⟩ ⟨⟨sa, hsa⟩, ⟨rt, hrt⟩, ⟨pc, hpc⟩⟩
    rw [buildDeployment_eq pkg m labels name serviceGroup sa rt pc hsa hrt hpc] at herr
    split at herr <;> cases herr
  · intro hne
    unfold buildDeployment
    simp only
    cases hsa : extractFieldValueAndUpdate m serviceGroup "ServiceAccountName"
        m.Spec.ServiceAccountName with
    | error err => exact ⟨err, rfl⟩
    | ok sa =>
      cases hrt : extractFieldValueAndUpdate m serviceGroup "RuntimeClassName" "" with
      | error err => exact ⟨err, rfl⟩
      | ok rt =>
        cases hpc : extractFieldValueAndUpdate m serviceGroup "PriorityClassName" "" with
        | error err => exact ⟨err, rfl⟩
        | ok pc => exact absurd ⟨⟨sa, hsa⟩, ⟨rt, hrt⟩, ⟨pc, hpc⟩⟩ hne

theorem buildStateful_ok (pkg : Package) (m : CDAPMaster) (labels : GoMap String String)
    (name : String) (serviceGroup : ServiceGroup) (spec : StatefulSpec)
    (h : buildStateful pkg m labels name serviceGroup = .ok spec) :
    ∃ sa rt pc cls total,
      extractFieldValueAndUpdate m serviceGroup "ServiceAccountName"
        m.Spec.ServiceAccountName = .ok sa ∧
      extractFieldValueAndUpdate m serviceGroup "RuntimeClassName" "" = .ok rt ∧
      extractFieldValueAndUpdate m serviceGroup "PriorityClassName" "" = .ok pc ∧
      aggregateStorage pkg m serviceGroup none 0 = .ok (cls, total) ∧
      spec = { Base := workloadBase pkg m labels name serviceGroup sa rt pc
               InitContainers := [storageInitContainer pkg m]
               StorageClassName := cls
               StorageSize := if total > 0 then pkg.ToHumanReadableBytes total else "" } := by
  cases hsa : extractFieldValueAndUpdate m serviceGroup "ServiceAccountName"
      m.Spec.ServiceAccountName with
  | error err => simp [buildStateful, hsa] at h
  | ok sa =>
    cases hrt : extractFieldValueAndUpdate m serviceGroup "RuntimeClassName" "" with
    | error err => simp [buildStateful, hsa, hrt] at h
    | ok rt =>
      cases hpc : extractFieldValueAndUpdate m serviceGroup "PriorityClassName" "" with
      | error err => simp [buildStateful, hsa, hrt, hpc] at h
      | ok pc =>
        rw [buildStateful_eq pkg m labels name serviceGroup sa rt pc hsa hrt hpc] at h
        by_cases havail : ResourcesAvailable pkg m serviceGroup
        · rw [if_pos havail] at h
          cases hagg : aggregateStorage pkg m serviceGroup none 0 with
          | error err => rw [hagg] at h; cases h
          | ok p =>
            obtain ⟨cls, total⟩ := p
            rw [hagg] at h
            simp only [Outcome.ok.injEq] at h
            exact ⟨sa, rt, pc, cls, total, rfl, rfl, rfl, rfl, h.symm⟩
        · rw [if_neg havail] at h
          cases h

theorem buildStateful_ok_available (pkg : Package) (m : CDAPMaster)
    (labels : GoMap String String) (name : String) (serviceGroup : ServiceGroup)
    (spec : StatefulSpec) (h : buildStateful pkg m labels name serviceGroup = .ok spec) :
    ResourcesAvailable pkg m serviceGroup := by
  obtain ⟨sa, rt, pc, cls, total, hsa, hrt, hpc, -, -⟩ :=
    buildStateful_ok pkg m labels name serviceGroup spec h
  rw [buildStateful_eq pkg m labels name serviceGroup sa rt pc hsa hrt hpc] at h
  by_contra havail
  rw [if_neg havail] at h
  cases h

theorem buildDeployment_ok (pkg : Package) (m : CDAPMaster) (labels : GoMap String String)
    (name : String) (serviceGroup : ServiceGroup) (spec : DeploymentSpec)
    (h : buildDeployment pkg m labels name serviceGroup = .ok spec) :
    ∃ sa rt pc,
      extractFieldValueAndUpdate m serviceGroup "ServiceAccountName"
        m.Spec.ServiceAccountName = .ok sa ∧
      extractFieldValueAndUpdate m serviceGroup "RuntimeClassName" "" = .ok rt ∧
      extractFieldValueAndUpdate m serviceGroup "PriorityClassName" "" = .ok pc ∧
      spec = { Base := workloadBase pkg m labels name serviceGroup sa rt pc } := by
  by_cases hrec : ReconciliationSucceeds m serviceGroup
  · obtain ⟨⟨sa, hsa⟩, ⟨rt, hrt⟩, ⟨pc, hpc⟩⟩ := hrec
    rw [buildDeployment_eq pkg m labels name serviceGroup sa rt pc hsa hrt hpc] at h
    split at h
    · simp only [Outcome.ok.injEq] at h
      exact ⟨sa, rt, pc, hsa, hrt, hpc, h.symm⟩
    · cases h
  · obtain ⟨err, herr⟩ := (buildDeployment_error_iff pkg m labels name serviceGroup).2 hrec
    rw [herr] at h
    cases h

theorem buildDeployment_ok_available (pkg : Package) (m : CDAPMaster)
    (labels : GoMap String String) (name : String) (serviceGroup : ServiceGroup)
    (spec : DeploymentSpec) (h : buildDeployment pkg m labels name serviceGroup = .ok spec) :
    ResourcesAvailable pkg m serviceGroup := by
  obtain ⟨sa, rt, pc, hsa, hrt, hpc, -⟩ :=
    buildDeployment_ok pkg m labels name serviceGroup spec h
  rw [buildDeployment_eq pkg m labels name serviceGroup sa rt pc hsa hrt hpc] at h
  by_contra havail
  rw [if_neg havail] at h
  cases h

theorem serviceContainer_name (pkg : Package) (m : CDAPMaster) (service : ServiceName)
    (c : ContainerSpec) (h : serviceContainer pkg m service = some c) : c.Name = service := by
  unfold serviceContainer at h
  simp only at h
  split at h
  · cases h
  · simp only [Option.some.injEq] at h
    subst h
    split <;> rfl

theorem serviceContainers_names (pkg : Package) (m : CDAPMaster) :
    ∀ (serviceGroup : ServiceGroup), ResourcesAvailable pkg m serviceGroup →
      (serviceGroup.filterMap (serviceContainer pkg m)).map (fun c => c.Name) =
        serviceGroup := by
  intro serviceGroup
  induction serviceGroup with
  | nil => intro _; rfl
  | cons s rest ih =>
    intro h
    rw [resourcesAvailable_cons] at h
    obtain ⟨hs, hrest⟩ := h
    obtain ⟨c, hc⟩ := Option.isSome_iff_exists.1 hs
    simp [List.filterMap_cons, hc, ih hrest, serviceContainer_name pkg m s c hc]

theorem fieldChoice_nil (values : List FieldData) (default : String) (h : values = []) :
    fieldChoice values default = default := by
  subst h
  rfl

/-- C16: `buildDeployment` returns an error exactly when
`extractFieldValueAndUpdate` fails for the service account, the runtime class or
the priority class of the group;
when `buildDeployment` and `buildStateful` both succeed on a group, the two specs
have the same object name, service account, runtime class, priority class,
containers (one per service, in the order of the group, each the container the
loop builds for that service) and label set, and the deployment spec consists of
that shared part only. -/
theorem buildDeployment_matches_buildStateful (pkg : Package) (m : CDAPMaster)
    (labels : GoMap String String) (name : String) (serviceGroup : ServiceGroup) :
    ((∃ err, buildDeployment pkg m labels name serviceGroup = .error err) ↔
      ¬ ReconciliationSucceeds m serviceGroup) ∧
    (∀ d s, buildDeployment pkg m labels name serviceGroup = .ok d →
      buildStateful pkg m labels name serviceGroup = .ok s →
      d.Base.Name = s.Base.Name ∧ d.Base.Name = getObjectName m.Name name ∧
      d.Base.ServiceAccountName = s.Base.ServiceAccountName ∧
      d.Base.RuntimeClassName = s.Base.RuntimeClassName ∧
      d.Base.PriorityClassName = s.Base.PriorityClassName ∧
      d.Base.Containers = s.Base.Containers ∧
      serviceGroup.map (serviceContainer pkg m) = d.Base.Containers.map some ∧
      d.Base.Labels = s.Base.Labels ∧
      d.Base = s.Base ∧ d = { Base := s.Base }) := by
  refine ⟨buildDeployment_error_iff pkg m labels name serviceGroup, ?_⟩
  intro d s hd hs
  have havail := buildDeployment_ok_available pkg m labels name serviceGroup d hd
  obtain ⟨sa, rt, pc, hsa, hrt, hpc, hd'⟩ := buildDeployment_ok pkg m labels name serviceGroup d hd
  obtain ⟨sa', rt', pc', cls, total, hsa', hrt', hpc', -, hs'⟩ :=
    buildStateful_ok pkg m labels name serviceGroup s hs
  rw [hsa] at hsa'
  rw [hrt] at hrt'
  rw [hpc] at hpc'
  cases hsa'
  cases hrt'
  cases hpc'
  subst hd' hs'
  exact ⟨rfl, rfl, rfl, rfl, rfl, rfl, serviceContainers_eq_map pkg m serviceGroup havail, rfl,
    rfl, rfl⟩

/-- C16, at the group with Logs and Messaging, which agree on the service
account "sa1": both builders succeed and the deployment spec is the shared part
of the stateful spec. -/
theorem buildDeployment_matches_buildStateful_witness :
    ∃ d s, buildDeployment examplePackage masterAgreeing [("app", "cdap")] "logs"
        [serviceLogs, serviceMessaging] = .ok d ∧
      buildStateful examplePackage masterAgreeing [("app", "cdap")] "logs"
        [serviceLogs, serviceMessaging] = .ok s ∧
      d.Base.ServiceAccountName = "sa1" ∧ d.Base = s.Base ∧ d = { Base := s.Base } := by
  have hd : (buildDeployment examplePackage masterAgreeing [("app", "cdap")] "logs"
      [serviceLogs, serviceMessaging]).map (fun d => d.Base.ServiceAccountName) =
      .ok "sa1" := by decide
  have hs : (buildStateful examplePackage masterAgreeing [("app", "cdap")] "logs"
      [serviceLogs, serviceMessaging]).toBool = true := by decide
  cases hd' : buildDeployment examplePackage masterAgreeing [("app", "cdap")] "logs"
      [serviceLogs, serviceMessaging] with
  | error err => rw [hd'] at hd; cases hd
  | panic => rw [hd'] at hd; cases hd
  | ok d =>
    cases hs' : buildStateful examplePackage masterAgreeing [("app", "cdap")] "logs"
        [serviceLogs, serviceMessaging] with
    | error err => rw [hs'] at hs; cases hs
    | panic => rw [hs'] at hs; cases hs
    | ok s =>
      rw [hd'] at hd
      have hall := (buildDeployment_matches_buildStateful examplePackage masterAgreeing
        [("app", "cdap")] "logs" [serviceLogs, serviceMessaging]).2 d s hd' hs'
      exact ⟨d, s, rfl, rfl, by simpa [Outcome.map] using hd, hall.2.2.2.2.2.2.2.2.1,
        hall.2.2.2.2.2.2.2.2.2⟩

/-- C17: a stateful spec that `buildStateful` returns has exactly one init
container, the StorageInit container; its main containers are the containers the
loop builds for the services of the group, one per service in the order of the
group; and its
label set maps the key of every service of the group to the application name
and every other key to what the labels passed in map it to, each key occurring
once when the keys passed in are distinct. -/
theorem buildStateful_containers_labels (pkg : Package) (m : CDAPMaster)
    (labels : GoMap String String) (name : String) (serviceGroup : ServiceGroup)
    (spec : StatefulSpec) (h : buildStateful pkg m labels name serviceGroup = .ok spec) :
    spec.InitContainers = [storageInitContainer pkg m] ∧
    (storageInitContainer pkg m).Name = "StorageInit" ∧
    (storageInitContainer pkg m).Args = [pkg.containerStorageMain] ∧
    serviceGroup.map (serviceContainer pkg m) = spec.Base.Containers.map some ∧
    spec.Base.Containers.map (fun c => c.Name) = serviceGroup ∧
    spec.Base.Containers.length = serviceGroup.length ∧
    (∀ key, spec.Base.Labels.get? key =
      if key ∈ serviceGroup.map (fun s => pkg.labelContainerKeyPrefix ++ s) then some m.Name
      else labels.get? key) ∧
    (∀ s ∈ serviceGroup,
      spec.Base.Labels.get? (pkg.labelContainerKeyPrefix ++ s) = some m.Name) ∧
    ((labels.map Prod.fst).Nodup → (spec.Base.Labels.map Prod.fst).Nodup) := by
  have havail := buildStateful_ok_available pkg m labels name serviceGroup spec h
  obtain ⟨sa, rt, pc, cls, total, -, -, -, -, hspec⟩ :=
    buildStateful_ok pkg m labels name serviceGroup spec h
  subst hspec
  have hnames := serviceContainers_names pkg m serviceGroup havail
  refine ⟨rfl, rfl, rfl, serviceContainers_eq_map pkg m serviceGroup havail, hnames, ?_, ?_,
    ?_, ?_⟩
  · have hlen := congrArg List.length hnames
    simpa [workloadBase] using hlen
  · intro key
    exact serviceLabels_get? pkg m serviceGroup labels key
  · intro s hs
    simp only [workloadBase]
    rw [serviceLabels_get?, if_pos (List.mem_map.2 ⟨s, hs, rfl⟩)]
  · intro hnodup
    exact serviceLabels_nodup pkg m serviceGroup labels hnodup

/-- C17, at the stateful group of three pods: one init container, six main
containers named after the six services, and the label of Logs. -/
theorem buildStateful_containers_labels_witness :
    ∃ spec, buildStateful examplePackage masterStorage [("app", "cdap")] "backend"
        backendGroup = .ok spec ∧
      spec.InitContainers.length = 1 ∧
      spec.Base.Containers.map (fun c => c.Name) = backendGroup ∧
      spec.Base.Containers.length = 6 ∧
      spec.Base.Labels.get? "cdap.container.Logs" = some "cdap" ∧
      spec.Base.Labels.get? "app" = some "cdap" := by
  have hs : (buildStateful examplePackage masterStorage [("app", "cdap")] "backend"
      backendGroup).toBool = true := by decide
  cases hs' : buildStateful examplePackage masterStorage [("app", "cdap")] "backend"
      backendGroup with
  | error err => rw [hs'] at hs; cases hs
  | panic => rw [hs'] at hs; cases hs
  | ok spec =>
    have hall := buildStateful_containers_labels examplePackage masterStorage
      [("app", "cdap")] "backend" backendGroup spec hs'
    refine ⟨spec, rfl, ?_, hall.2.2.2.2.1, ?_, ?_, ?_⟩
    · rw [hall.1]; rfl
    · rw [hall.2.2.2.2.2.1]; rfl
    · exact hall.2.2.2.2.2.2.2.1 serviceLogs (by decide)
    · rw [hall.2.2.2.2.2.2.1 "app"]; decide

/-- C14: in a workload spec built for a group, stateful or stateless, each of
the three reconciled fields is the first non-empty value reported for that field
in the group, or its own default when no service reports one, whatever the other
two fields hold; the default is the empty string for the runtime class and the
priority class, and `Spec.ServiceAccountName` of the master for the service
account. -/
theorem reconciled_field_defaults (pkg : Package) (m : CDAPMaster)
    (labels : GoMap String String) (name : String) (serviceGroup : ServiceGroup)
    (b : BaseSpec)
    (hb : (∃ s, buildStateful pkg m labels name serviceGroup = .ok s ∧ s.Base = b) ∨
      (∃ d, buildDeployment pkg m labels name serviceGroup = .ok d ∧ d.Base = b)) :
    b.ServiceAccountName =
      fieldChoice (serviceGroup.filterMap (reportedValue m "ServiceAccountName"))
        m.Spec.ServiceAccountName ∧
    b.RuntimeClassName =
      fieldChoice (serviceGroup.filterMap (reportedValue m "RuntimeClassName")) "" ∧
    b.PriorityClassName =
      fieldChoice (serviceGroup.filterMap (reportedValue m "PriorityClassName")) "" ∧
    ((∀ s ∈ serviceGroup, reportedValue m "ServiceAccountName" s = none) →
      b.ServiceAccountName = m.Spec.ServiceAccountName) ∧
    ((∀ s ∈ serviceGroup, reportedValue m "RuntimeClassName" s = none) →
      b.RuntimeClassName = "") ∧
    ((∀ s ∈ serviceGroup, reportedValue m "PriorityClassName" s = none) →
      b.PriorityClassName = "") := by
  have key : ∃ sa rt pc,
      extractFieldValueAndUpdate m serviceGroup "ServiceAccountName"
        m.Spec.ServiceAccountName = .ok sa ∧
      extractFieldValueAndUpdate m serviceGroup "RuntimeClassName" "" = .ok rt ∧
      extractFieldValueAndUpdate m serviceGroup "PriorityClassName" "" = .ok pc ∧
      b = workloadBase pkg m labels name serviceGroup sa rt pc := by
    rcases hb with ⟨s, hs, hsb⟩ | ⟨d, hd, hdb⟩
    · obtain ⟨sa, rt, pc, cls, total, hsa, hrt, hpc, -, hspec⟩ :=
        buildStateful_ok pkg m labels name serviceGroup s hs
      subst hspec
      exact ⟨sa, rt, pc, hsa, hrt, hpc, hsb.symm⟩
    · obtain ⟨sa, rt, pc, hsa, hrt, hpc, hspec⟩ :=
        buildDeployment_ok pkg m labels name serviceGroup d hd
      subst hspec
      exact ⟨sa, rt, pc, hsa, hrt, hpc, hdb.symm⟩
  obtain ⟨sa, rt, pc, hsa, hrt, hpc, hbase⟩ := key
  subst hbase
  have h₁ := (extractFieldValueAndUpdate_ok m serviceGroup _ _ _ hsa).2
  have h₂ := (extractFieldValueAndUpdate_ok m serviceGroup _ _ _ hrt).2
  have h₃ := (extractFieldValueAndUpdate_ok m serviceGroup _ _ _ hpc).2
  refine ⟨h₁, h₂, h₃, ?_, ?_, ?_⟩
  · intro hnone
    show sa = _
    rw [h₁]
    exact fieldChoice_nil _ _ (List.filterMap_eq_nil_iff.2 hnone)
  · intro hnone
    show rt = _
    rw [h₂]
    exact fieldChoice_nil _ _ (List.filterMap_eq_nil_iff.2 hnone)
  · intro hnone
    show pc = _
    rw [h₃]
    exact fieldChoice_nil _ _ (List.filterMap_eq_nil_iff.2 hnone)

/-- C14, at the deployment group of Router in a configuration whose services
report no service account while the master names "cdap-sa". -/
theorem reconciled_field_defaults_witness :
    ∃ d, buildDeployment examplePackage masterAccountDefault [] "router" [serviceRouter] =
        .ok d ∧
      d.Base.ServiceAccountName = "cdap-sa" ∧ d.Base.RuntimeClassName = "" ∧
      d.Base.PriorityClassName = "" := by
  have hd : (buildDeployment examplePackage masterAccountDefault [] "router"
      [serviceRouter]).toBool = true := by decide
  cases hd' : buildDeployment examplePackage masterAccountDefault [] "router"
      [serviceRouter] with
  | error err => rw [hd'] at hd; cases hd
  | panic => rw [hd'] at hd; cases hd
  | ok d =>
    have hall := reconciled_field_defaults examplePackage masterAccountDefault [] "router"
      [serviceRouter] d.Base (Or.inr ⟨d, hd', rfl⟩)
    refine ⟨d, rfl, ?_, ?_, ?_⟩
    · rw [hall.2.2.2.1 (by decide)]; rfl
    · exact hall.2.2.2.2.1 (by decide)
    · exact hall.2.2.2.2.2 (by decide)

/-- C14 as stated fails for the service account: in the deployment group of
Router no service reports a service account, and the spec carries "cdap-sa", the
service account of the master, not the empty string. -/
theorem service_account_default_counterexample :
    (∀ s ∈ [serviceRouter],
      reportedValue masterAccountDefault "ServiceAccountName" s = none) ∧
    (buildDeployment examplePackage masterAccountDefault [] "router" [serviceRouter]).map
      (fun d => d.Base.ServiceAccountName) = .ok "cdap-sa" ∧
    (buildStateful examplePackage masterAccountDefault [] "router" [serviceRouter]).map
      (fun s => s.Base.ServiceAccountName) = .ok "cdap-sa" ∧
    ¬ ∀ d, buildDeployment examplePackage masterAccountDefault [] "router" [serviceRouter] =
        .ok d → d.Base.ServiceAccountName = "" := by
  have hd : (buildDeployment examplePackage masterAccountDefault [] "router"
      [serviceRouter]).map (fun d => d.Base.ServiceAccountName) = .ok "cdap-sa" := by decide
  refine ⟨by decide, hd, by decide, ?_⟩
  intro hall
  cases hd' : buildDeployment examplePackage masterAccountDefault [] "router"
      [serviceRouter] with
  | error err => rw [hd'] at hd; cases hd
  | panic => rw [hd'] at hd; cases hd
  | ok d =>
    have h₁ := hall d hd'
    rw [hd'] at hd
    simp only [Outcome.map, Outcome.ok.injEq] at hd
    rw [h₁] at hd
    exact absurd hd (by decide)

/-! ### The bundle -/

theorem outcome_cases {α : Type} (x : Outcome α) :
    (∃ a, x = .ok a) ∨ (∃ e, x = .error e) ∨ x = .panic := by
  cases x with
  | ok a => exact Or.inl ⟨a, rfl⟩
  | error e => exact Or.inr (Or.inl ⟨e, rfl⟩)
  | panic => exact Or.inr (Or.inr rfl)

theorem buildAllStateful_ok (pkg : Package) (m : CDAPMaster) (labels : GoMap String String) :
    ∀ (groups : GoMap ServiceGroupName ServiceGroup) (spec : CDAPDeploymentSpec),
      (∀ g ∈ groups, ∃ s, buildStateful pkg m labels g.1 g.2 = .ok s) →
      buildAllStateful pkg m labels groups spec =
        .ok { spec with Stateful := spec.Stateful ++ statefulSpecsOf pkg m labels groups } := by
  intro groups
  induction groups with
  | nil => intro spec _; simp [buildAllStateful, statefulSpecsOf]
  | cons g rest ih =>
    intro spec h
    obtain ⟨k, v⟩ := g
    obtain ⟨s, hs⟩ := h (k, v) (List.mem_cons_self _ _)
    simp only at hs
    rw [buildAllStateful, hs]
    simp only
    rw [ih _ (fun g hg => h g (List.mem_cons_of_mem _ hg))]
    simp [statefulSpecsOf, List.filterMap_cons, hs, Outcome.toOption,
      CDAPDeploymentSpec.withStateful]

theorem buildAllStateful_inv (pkg : Package) (m : CDAPMaster) (labels : GoMap String String) :
    ∀ (groups : GoMap ServiceGroupName ServiceGroup) (spec spec' : CDAPDeploymentSpec),
      buildAllStateful pkg m labels groups spec = .ok spec' →
      ∀ g ∈ groups, ∃ s, buildStateful pkg m labels g.1 g.2 = .ok s := by
  intro groups
  induction groups with
  | nil => intro spec spec' _ g hg; cases hg
  | cons g rest ih =>
    intro spec spec' h g' hg'
    obtain ⟨k, v⟩ := g
    rw [buildAllStateful] at h
    cases hs : buildStateful pkg m labels k v with
    | panic => rw [hs] at h; cases h
    | error e => rw [hs] at h; cases h
    | ok s =>
      rw [hs] at h
      rcases List.mem_cons.1 hg' with rfl | hrest
      · exact ⟨s, hs⟩
      · exact ih _ _ h g' hrest

theorem buildAllStateful_panic (pkg : Package) (m : CDAPMaster)
    (labels : GoMap String String) :
    ∀ (groups : GoMap ServiceGroupName ServiceGroup) (spec : CDAPDeploymentSpec),
      buildAllStateful pkg m labels groups spec = .panic →
      ∃ g ∈ groups, buildStateful pkg m labels g.1 g.2 = .panic := by
  intro groups
  induction groups with
  | nil => intro spec h; simp [buildAllStateful] at h
  | cons g rest ih =>
    intro spec h
    obtain ⟨k, v⟩ := g
    rw [buildAllStateful] at h
    cases hs : buildStateful pkg m labels k v with
    | panic => exact ⟨(k, v), List.mem_cons_self _ _, hs⟩
    | error e => rw [hs] at h; cases h
    | ok s =>
      rw [hs] at h
      obtain ⟨g', hg', hp⟩ := ih _ h
      exact ⟨g', List.mem_cons_of_mem _ hg', hp⟩

theorem buildAllDeployment_ok (pkg : Package) (m : CDAPMaster)
    (labels : GoMap String String) :
    ∀ (groups : GoMap ServiceGroupName ServiceGroup) (spec : CDAPDeploymentSpec),
      (∀ g ∈ groups, ∃ s, buildDeployment pkg m labels g.1 g.2 = .ok s) →
      buildAllDeployment pkg m labels groups spec =
        .ok { spec with
              Deployment := spec.Deployment ++ deploymentSpecsOf pkg m labels groups } := by
  intro groups
  induction groups with
  | nil => intro spec _; simp [buildAllDeployment, deploymentSpecsOf]
  | cons g rest ih =>
    intro spec h
    obtain ⟨k, v⟩ := g
    obtain ⟨s, hs⟩ := h (k, v) (List.mem_cons_self _ _)
    simp only at hs
    rw [buildAllDeployment, hs]
    simp only
    rw [ih _ (fun g hg => h g (List.mem_cons_of_mem _ hg))]
    simp [deploymentSpecsOf, List.filterMap_cons, hs, Outcome.toOption,
      CDAPDeploymentSpec.withDeployment]

theorem buildAllDeployment_inv (pkg : Package) (m : CDAPMaster)
    (labels : GoMap String String) :
    ∀ (groups : GoMap ServiceGroupName ServiceGroup) (spec spec' : CDAPDeploymentSpec),
      buildAllDeployment pkg m labels groups spec = .ok spec' →
      ∀ g ∈ groups, ∃ s, buildDeployment pkg m labels g.1 g.2 = .ok s := by
  intro groups
  induction groups with
  | nil => intro spec spec' _ g hg; cases hg
  | cons g rest ih =>
    intro spec spec' h g' hg'
    obtain ⟨k, v⟩ := g
    rw [buildAllDeployment] at h
    cases hs : buildDeployment pkg m labels k v with
    | panic => rw [hs] at h; cases h
    | error e => rw [hs] at h; cases h
    | ok s =>
      rw [hs] at h
      rcases List.mem_cons.1 hg' with rfl | hrest
      · exact ⟨s, hs⟩
      · exact ih _ _ h g' hrest

theorem buildAllDeployment_panic (pkg : Package) (m : CDAPMaster)
    (labels : GoMap String String) :
    ∀ (groups : GoMap ServiceGroupName ServiceGroup) (spec : CDAPDeploymentSpec),
      buildAllDeployment pkg m labels groups spec = .panic →
      ∃ g ∈ groups, buildDeployment pkg m labels g.1 g.2 = .panic := by
  intro groups
  induction groups with
  | nil => intro spec h; simp [buildAllDeployment] at h
  | cons g rest ih =>
    intro spec h
    obtain ⟨k, v⟩ := g
    rw [buildAllDeployment] at h
    cases hs : buildDeployment pkg m labels k v with
    | panic => exact ⟨(k, v), List.mem_cons_self _ _, hs⟩
    | error e => rw [hs] at h; cases h
    | ok s =>
      rw [hs] at h
      obtain ⟨g', hg', hp⟩ := ih _ h
      exact ⟨g', List.mem_cons_of_mem _ hg', hp⟩

theorem buildAllNetworkServices_eq (pkg : Package) (m : CDAPMaster)
    (labels : GoMap String String) :
    ∀ (entries : GoMap NetworkServiceName ServiceName) (spec : CDAPDeploymentSpec),
      buildAllNetworkServices pkg m labels entries spec =
        { spec with
          NetworkServices := spec.NetworkServices ++ networkSpecsOf pkg m labels entries } := by
  intro entries
  induction entries with
  | nil => intro spec; simp [buildAllNetworkServices, networkSpecsOf]
  | cons e rest ih =>
    intro spec
    obtain ⟨name, target⟩ := e
    rw [buildAllNetworkServices, ih]
    simp [networkSpecsOf, CDAPDeploymentSpec.withNetworkService]

theorem buildFromServiceGroupMap_ok (pkg : Package) (m : CDAPMaster)
    (labels : GoMap String String) (sgm : ServiceGroupMap)
    (hs : ∀ g ∈ sgm.stateful, ∃ s, buildStateful pkg m labels g.1 g.2 = .ok s)
    (hd : ∀ g ∈ sgm.deployment, ∃ s, buildDeployment pkg m labels g.1 g.2 = .ok s) :
    buildFromServiceGroupMap pkg m labels sgm =
      .ok { Stateful := statefulSpecsOf pkg m labels sgm.stateful
            Deployment := deploymentSpecsOf pkg m labels sgm.deployment
            NetworkServices := networkSpecsOf pkg m labels sgm.networkService } := by
  unfold buildFromServiceGroupMap
  rw [buildAllStateful_ok pkg m labels sgm.stateful _ hs]
  simp only
  rw [buildAllDeployment_ok pkg m labels sgm.deployment _ hd]
  simp only
  rw [buildAllNetworkServices_eq]
  simp [newCDAPDeploymentSpec]

theorem buildFromServiceGroupMap_inv (pkg : Package) (m : CDAPMaster)
    (labels : GoMap String String) (sgm : ServiceGroupMap) (bundle : CDAPDeploymentSpec)
    (h : buildFromServiceGroupMap pkg m labels sgm = .ok bundle) :
    (∀ g ∈ sgm.stateful, ∃ s, buildStateful pkg m labels g.1 g.2 = .ok s) ∧
    (∀ g ∈ sgm.deployment, ∃ s, buildDeployment pkg m labels g.1 g.2 = .ok s) ∧
    bundle = { Stateful := statefulSpecsOf pkg m labels sgm.stateful
               Deployment := deploymentSpecsOf pkg m labels sgm.deployment
               NetworkServices := networkSpecsOf pkg m labels sgm.networkService } := by
  have hboth : (∀ g ∈ sgm.stateful, ∃ s, buildStateful pkg m labels g.1 g.2 = .ok s) ∧
      (∀ g ∈ sgm.deployment, ∃ s, buildDeployment pkg m labels g.1 g.2 = .ok s) := by
    have h' := h
    unfold buildFromServiceGroupMap at h'
    cases hst : buildAllStateful pkg m labels sgm.stateful newCDAPDeploymentSpec with
    | panic => rw [hst] at h'; cases h'
    | error e => rw [hst] at h'; cases h'
    | ok spec =>
      rw [hst] at h'
      simp only at h'
      cases hdp : buildAllDeployment pkg m labels sgm.deployment spec with
      | panic => rw [hdp] at h'; cases h'
      | error e => rw [hdp] at h'; cases h'
      | ok spec' =>
        exact ⟨buildAllStateful_inv pkg m labels _ _ _ hst,
          buildAllDeployment_inv pkg m labels _ _ _ hdp⟩
  obtain ⟨hs, hd⟩ := hboth
  refine ⟨hs, hd, ?_⟩
  rw [buildFromServiceGroupMap_ok pkg m labels sgm hs hd] at h
  exact (Outcome.ok.inj h).symm

theorem buildFromServiceGroupMap_panic (pkg : Package) (m : CDAPMaster)
    (labels : GoMap String String) (sgm : ServiceGroupMap)
    (h : buildFromServiceGroupMap pkg m labels sgm = .panic) :
    (∃ g ∈ sgm.stateful, buildStateful pkg m labels g.1 g.2 = .panic) ∨
    (∃ g ∈ sgm.deployment, buildDeployment pkg m labels g.1 g.2 = .panic) := by
  unfold buildFromServiceGroupMap at h
  cases hst : buildAllStateful pkg m labels sgm.stateful newCDAPDeploymentSpec with
  | panic => exact Or.inl (buildAllStateful_panic pkg m labels _ _ hst)
  | error e => rw [hst] at h; cases h
  | ok spec =>
    rw [hst] at h
    simp only at h
    cases hdp : buildAllDeployment pkg m labels sgm.deployment spec with
    | panic => exact Or.inr (buildAllDeployment_panic pkg m labels _ _ hdp)
    | error e => rw [hdp] at h; cases h
    | ok spec' => rw [hdp] at h; cases h

theorem buildFromServiceGroupMap_not_ok (pkg : Package) (m : CDAPMaster)
    (labels : GoMap String String) (sgm : ServiceGroupMap)
    (h : (∃ g ∈ sgm.stateful, ∀ s, buildStateful pkg m labels g.1 g.2 ≠ .ok s) ∨
      (∃ g ∈ sgm.deployment, ∀ s, buildDeployment pkg m labels g.1 g.2 ≠ .ok s))
    (bundle : CDAPDeploymentSpec) :
    buildFromServiceGroupMap pkg m labels sgm ≠ .ok bundle := by
  intro hb
  obtain ⟨hs, hd, -⟩ := buildFromServiceGroupMap_inv pkg m labels sgm bundle hb
  rcases h with ⟨g, hg, hne⟩ | ⟨g, hg, hne⟩
  · obtain ⟨s, hok⟩ := hs g hg
    exact hne s hok
  · obtain ⟨s, hok⟩ := hd g hg
    exact hne s hok

theorem buildCDAPDeploymentSpec_eq (pkg : Package) (m : CDAPMaster)
    (labels : GoMap String String) (himg₁ : m.Status.ImageToUse ≠ "")
    (himg₂ : m.Status.UserInterfaceImageToUse ≠ "") :
    buildCDAPDeploymentSpec pkg m labels =
      match strategyHandler.getStrategy (numPodsOf m) with
      | .error err => .error err
      | .ok serviceGroupMap => buildFromServiceGroupMap pkg m labels serviceGroupMap := by
  simp only [buildCDAPDeploymentSpec, himg₁, himg₂, or_self, if_false, numPodsOf]

theorem storageSizeParses_of_addStorageSize (pkg : Package) (m : CDAPMaster)
    (s : ServiceName) (ss : CDAPStatefulServiceSpec) (total total' : Nat)
    (hspec : getCDAPStatefulServiceSpec s m = some ss)
    (h : addStorageSize pkg ss total = .ok total') : storageSizeParses pkg m s = true := by
  unfold storageSizeParses
  rw [hspec]
  unfold addStorageSize at h
  by_cases hsz : ss.StorageSize = ""
  · simp [hsz]
  · rw [if_pos hsz] at h
    cases hp : pkg.FromHumanReadableBytes ss.StorageSize with
    | none => rw [hp] at h; cases h
    | some n => simp [hp]

theorem aggregateStorage_parse_fail (pkg : Package) (m : CDAPMaster) :
    ∀ (group : ServiceGroup) (cls : Option String) (total : Nat),
      (∃ s ∈ group, storageSizeParses pkg m s = false) →
      ∃ err, aggregateStorage pkg m group cls total = .error err := by
  intro group
  induction group with
  | nil => rintro cls total ⟨s, hs, -⟩; cases hs
  | cons s rest ih =>
    rintro cls total ⟨x, hx, hxp⟩
    unfold aggregateStorage
    cases hspec : getCDAPStatefulServiceSpec s m with
    | none =>
      have hsp : storageSizeParses pkg m s = true := by simp [storageSizeParses, hspec]
      simp only
      apply ih
      rcases List.mem_cons.1 hx with rfl | hrest
      · rw [hsp] at hxp; cases hxp
      · exact ⟨x, hrest, hxp⟩
    | some ss =>
      simp only
      cases hadd : addStorageSize pkg ss total with
      | error err => exact ⟨err, rfl⟩
      | ok total' =>
        have hsp := storageSizeParses_of_addStorageSize pkg m s ss total total' hspec hadd
        have hrest : ∃ y ∈ rest, storageSizeParses pkg m y = false := by
          rcases List.mem_cons.1 hx with rfl | hrest
          · rw [hsp] at hxp; cases hxp
          · exact ⟨x, hrest, hxp⟩
        simp only
        cases hcn : ss.StorageClassName with
        | none => exact ih cls total' hrest
        | some c =>
          cases cls with
          | none => exact ih (some c) total' hrest
          | some c' =>
            simp only
            split
            · exact ⟨_, rfl⟩
            · exact ih (some c') total' hrest

theorem buildStateful_panic_iff (pkg : Package) (m : CDAPMaster)
    (labels : GoMap String String) (name : String) (serviceGroup : ServiceGroup) :
    buildStateful pkg m labels name serviceGroup = .panic ↔
      ReconciliationSucceeds m serviceGroup ∧ ¬ ResourcesAvailable pkg m serviceGroup := by
  by_cases hrec : ReconciliationSucceeds m serviceGroup
  · obtain ⟨⟨sa, hsa⟩, ⟨rt, hrt⟩, ⟨pc, hpc⟩⟩ := hrec
    have hrec' : ReconciliationSucceeds m serviceGroup := ⟨⟨sa, hsa⟩, ⟨rt, hrt⟩, ⟨pc, hpc⟩⟩
    rw [buildStateful_eq pkg m labels name serviceGroup sa rt pc hsa hrt hpc]
    by_cases havail : ResourcesAvailable pkg m serviceGroup
    · rw [if_pos havail]
      constructor
      · intro h
        cases hagg : aggregateStorage pkg m serviceGroup none 0 with
        | error err => rw [hagg] at h; cases h
        | ok p => rw [hagg] at h; cases h
      · rintro ⟨-, hne⟩
        exact absurd havail hne
    · rw [if_neg havail]
      exact ⟨fun _ => ⟨hrec', havail⟩, fun _ => rfl⟩
  · obtain ⟨err, herr, -⟩ :=
      buildStateful_reconciliation_error pkg m labels name serviceGroup hrec
    rw [herr]
    constructor
    · intro h; cases h
    · rintro ⟨h, -⟩
      exact absurd h hrec

theorem buildDeployment_panic_iff (pkg : Package) (m : CDAPMaster)
    (labels : GoMap String String) (name : String) (serviceGroup : ServiceGroup) :
    buildDeployment pkg m labels name serviceGroup = .panic ↔
      ReconciliationSucceeds m serviceGroup ∧ ¬ ResourcesAvailable pkg m serviceGroup := by
  by_cases hrec : ReconciliationSucceeds m serviceGroup
  · obtain ⟨⟨sa, hsa⟩, ⟨rt, hrt⟩, ⟨pc, hpc⟩⟩ := hrec
    have hrec' : ReconciliationSucceeds m serviceGroup := ⟨⟨sa, hsa⟩, ⟨rt, hrt⟩, ⟨pc, hpc⟩⟩
    rw [buildDeployment_eq pkg m labels name serviceGroup sa rt pc hsa hrt hpc]
    by_cases havail : ResourcesAvailable pkg m serviceGroup
    · rw [if_pos havail]
      constructor
      · intro h; cases h
      · rintro ⟨-, hne⟩
        exact absurd havail hne
    · rw [if_neg havail]
      exact ⟨fun _ => ⟨hrec', havail⟩, fun _ => rfl⟩
  · obtain ⟨err, herr⟩ := (buildDeployment_error_iff pkg m labels name serviceGroup).2 hrec
    rw [herr]
    constructor
    · intro h; cases h
    · rintro ⟨h, -⟩
      exact absurd h hrec

theorem buildStateful_not_ok_of_fails (pkg : Package) (m : CDAPMaster)
    (labels : GoMap String String) (name : String) (serviceGroup : ServiceGroup)
    (h : StatefulGroupFails pkg m serviceGroup) (spec : StatefulSpec) :
    buildStateful pkg m labels name serviceGroup ≠ .ok spec := by
  intro hok
  obtain ⟨sa, rt, pc, cls, total, hsa, hrt, hpc, hagg, -⟩ :=
    buildStateful_ok pkg m labels name serviceGroup spec hok
  rcases h with h | h | h
  · exact h ⟨⟨sa, hsa⟩, ⟨rt, hrt⟩, ⟨pc, hpc⟩⟩
  · obtain ⟨e, he⟩ := aggregateStorage_parse_fail pkg m serviceGroup none 0 h
    rw [hagg] at he
    cases he
  · rw [storageClassesDiffer_iff] at h
    obtain ⟨e, he⟩ := aggregateStorage_differ pkg m serviceGroup none 0 (by simpa using h)
    rw [hagg] at he
    cases he

theorem buildDeployment_not_ok_of_fails (pkg : Package) (m : CDAPMaster)
    (labels : GoMap String String) (name : String) (serviceGroup : ServiceGroup)
    (h : ¬ ReconciliationSucceeds m serviceGroup) (spec : DeploymentSpec) :
    buildDeployment pkg m labels name serviceGroup ≠ .ok spec := by
  intro hok
  obtain ⟨err, herr⟩ := (buildDeployment_error_iff pkg m labels name serviceGroup).2 h
  rw [herr] at hok
  cases hok

/-- C11: with both images resolved, when in the strategy selected by the
pod-count a stateful group cannot be built (a field reconciliation fails, a
storage size does not parse or storage classes differ) or a field reconciliation
fails for a deployment group, `buildCDAPDeploymentSpec` returns no bundle,
whatever groups were built before the failing one; and when every service of
the groups of the strategy defines the heap-size variable or has its `Resources`
set, it returns an error. -/
theorem buildCDAPDeploymentSpec_error (pkg : Package) (m : CDAPMaster)
    (labels : GoMap String String) (sgm : ServiceGroupMap)
    (himg₁ : m.Status.ImageToUse ≠ "") (himg₂ : m.Status.UserInterfaceImageToUse ≠ "")
    (hsgm : strategyHandler.getStrategy (numPodsOf m) = .ok sgm)
    (hfail : (∃ g ∈ sgm.stateful, StatefulGroupFails pkg m g.2) ∨
      (∃ g ∈ sgm.deployment, ¬ ReconciliationSucceeds m g.2)) :
    (∀ bundle, buildCDAPDeploymentSpec pkg m labels ≠ .ok bundle) ∧
    ((∀ g ∈ sgm.stateful ++ sgm.deployment, ResourcesAvailable pkg m g.2) →
      ∃ err, buildCDAPDeploymentSpec pkg m labels = .error err) := by
  have heq : buildCDAPDeploymentSpec pkg m labels = buildFromServiceGroupMap pkg m labels sgm := by
    rw [buildCDAPDeploymentSpec_eq pkg m labels himg₁ himg₂, hsgm]
  have hnot : ∀ bundle, buildCDAPDeploymentSpec pkg m labels ≠ .ok bundle := by
    intro bundle
    rw [heq]
    apply buildFromServiceGroupMap_not_ok
    rcases hfail with ⟨g, hg, hf⟩ | ⟨g, hg, hf⟩
    · exact Or.inl ⟨g, hg, buildStateful_not_ok_of_fails pkg m labels g.1 g.2 hf⟩
    · exact Or.inr ⟨g, hg, buildDeployment_not_ok_of_fails pkg m labels g.1 g.2 hf⟩
  refine ⟨hnot, ?_⟩
  intro havail
  rcases outcome_cases (buildCDAPDeploymentSpec pkg m labels) with ⟨b, hb⟩ | herr | hpanic
  · exact absurd hb (hnot b)
  · exact herr
  · exfalso
    rw [heq] at hpanic
    rcases buildFromServiceGroupMap_panic pkg m labels sgm hpanic with ⟨g, hg, hp⟩ | ⟨g, hg, hp⟩
    · exact ((buildStateful_panic_iff pkg m labels g.1 g.2).1 hp).2
        (havail g (List.mem_append_left _ hg))
    · exact ((buildDeployment_panic_iff pkg m labels g.1 g.2).1 hp).2
        (havail g (List.mem_append_right _ hg))

/-- C11, at three pods with storage classes "ssd" and "hdd" in the backend
group: the build returns the storage class error. -/
theorem buildCDAPDeploymentSpec_error_witness :
    strategyHandler.getStrategy (numPodsOf masterStorageClasses) = .ok strategy3 ∧
    StorageClassesDiffer masterStorageClasses backendGroup ∧
    (∀ g ∈ strategy3.stateful ++ strategy3.deployment,
      ResourcesAvailable examplePackage masterStorageClasses g.2) ∧
    (∃ err, buildCDAPDeploymentSpec examplePackage masterStorageClasses [] = .error err) ∧
    buildCDAPDeploymentSpec examplePackage masterStorageClasses [] =
      .error .storageClassInconsistent := by
  have hsgm : strategyHandler.getStrategy (numPodsOf masterStorageClasses) = .ok strategy3 :=
    rfl
  have hdiff : StorageClassesDiffer masterStorageClasses backendGroup :=
    ⟨serviceLogs, by decide, serviceMetrics, by decide, "ssd", "hdd", by decide, by decide,
      by decide⟩
  have havail : ∀ g ∈ strategy3.stateful ++ strategy3.deployment,
      ResourcesAvailable examplePackage masterStorageClasses g.2 := by decide
  exact ⟨hsgm, hdiff, havail,
    (buildCDAPDeploymentSpec_error examplePackage masterStorageClasses []
      strategy3 (by decide) (by decide) hsgm
      (Or.inl ⟨("backend", backendGroup), by decide, Or.inr (Or.inr hdiff)⟩)).2 havail,
    by decide⟩

/-- C11 as stated fails when the `Resources` of a service are not set: at three
pods with storage classes "ssd" and "hdd" in the backend group and no service
holding resources or the heap-size variable, the container loop of the backend
group dereferences the nil pointer before the storage classes are compared; the
build panics and returns no error. -/
theorem buildCDAPDeploymentSpec_nil_counterexample :
    masterStorageClasses.withoutResources.Status.ImageToUse ≠ "" ∧
    masterStorageClasses.withoutResources.Status.UserInterfaceImageToUse ≠ "" ∧
    strategyHandler.getStrategy (numPodsOf masterStorageClasses.withoutResources) =
      .ok strategy3 ∧
    (∃ g ∈ strategy3.stateful,
      StatefulGroupFails examplePackage masterStorageClasses.withoutResources g.2) ∧
    buildCDAPDeploymentSpec examplePackage masterStorageClasses.withoutResources [] = .panic ∧
    ¬ ∃ err, buildCDAPDeploymentSpec examplePackage masterStorageClasses.withoutResources [] =
      .error err := by
  have hpanic : buildCDAPDeploymentSpec examplePackage masterStorageClasses.withoutResources
      [] = .panic := by decide
  have hdiff : StorageClassesDiffer masterStorageClasses.withoutResources backendGroup :=
    ⟨serviceLogs, by decide, serviceMetrics, by decide, "ssd", "hdd", by decide, by decide,
      by decide⟩
  refine ⟨by decide, by decide, rfl,
    ⟨("backend", backendGroup), by decide, Or.inr (Or.inr hdiff)⟩, hpanic, ?_⟩
  rintro ⟨err, herr⟩
  rw [hpanic] at herr
  cases herr

/-! ### The pod-count -/

theorem collectFieldValues_withNumPods (m : CDAPMaster) (n : Option Int) (fieldName : String) :
    ∀ (services : ServiceGroup) (values : List FieldData),
      collectFieldValues (m.withNumPods n) fieldName services values =
        collectFieldValues m fieldName services values := by
  intro services
  induction services with
  | nil => intro values; rfl
  | cons s rest ih =>
    intro values
    have hf : (m.withNumPods n).Spec.fieldByName = m.Spec.fieldByName := rfl
    rw [collectFieldValues, collectFieldValues, hf]
    simp only [ih]

theorem extractFieldValueAndUpdate_withNumPods (m : CDAPMaster) (n : Option Int)
    (services : ServiceGroup) (fieldName value : String) :
    extractFieldValueAndUpdate (m.withNumPods n) services fieldName value =
      extractFieldValueAndUpdate m services fieldName value := by
  simp only [extractFieldValueAndUpdate, extractFieldValueIfUnique,
    collectFieldValues_withNumPods]

theorem addServiceContainers_withNumPods (pkg : Package) (m : CDAPMaster) (n : Option Int) :
    ∀ (services : ServiceGroup) (spec : BaseSpec),
      addServiceContainers pkg (m.withNumPods n) services spec =
        addServiceContainers pkg m services spec := by
  intro services
  induction services with
  | nil => intro spec; rfl
  | cons s rest ih =>
    intro spec
    have hc : serviceContainer pkg (m.withNumPods n) s = serviceContainer pkg m s := rfl
    rw [addServiceContainers, addServiceContainers, hc]
    cases serviceContainer pkg m s with
    | none => rfl
    | some c =>
      simp only
      rw [ih]
      rfl

theorem aggregateStorage_withNumPods (pkg : Package) (m : CDAPMaster) (n : Option Int) :
    ∀ (services : ServiceGroup) (cls : Option String) (total : Nat),
      aggregateStorage pkg (m.withNumPods n) services cls total =
        aggregateStorage pkg m services cls total := by
  intro services
  induction services with
  | nil => intro cls total; rfl
  | cons s rest ih =>
    intro cls total
    have hf : getCDAPStatefulServiceSpec s (m.withNumPods n) =
        getCDAPStatefulServiceSpec s m := rfl
    rw [aggregateStorage, aggregateStorage, hf]
    simp only [ih]

theorem buildStateful_withNumPods (pkg : Package) (m : CDAPMaster) (n : Option Int)
    (labels : GoMap String String) (name : String) (services : ServiceGroup) :
    buildStateful pkg (m.withNumPods n) labels name services =
      buildStateful pkg m labels name services := by
  simp only [buildStateful, extractFieldValueAndUpdate_withNumPods,
    addServiceContainers_withNumPods, aggregateStorage_withNumPods]
  rfl

theorem buildDeployment_withNumPods (pkg : Package) (m : CDAPMaster) (n : Option Int)
    (labels : GoMap String String) (name : String) (services : ServiceGroup) :
    buildDeployment pkg (m.withNumPods n) labels name services =
      buildDeployment pkg m labels name services := by
  simp only [buildDeployment, extractFieldValueAndUpdate_withNumPods,
    addServiceContainers_withNumPods]
  rfl

theorem buildAllStateful_withNumPods (pkg : Package) (m : CDAPMaster) (n : Option Int)
    (labels : GoMap String String) :
    ∀ (groups : GoMap ServiceGroupName ServiceGroup) (spec : CDAPDeploymentSpec),
      buildAllStateful pkg (m.withNumPods n) labels groups spec =
        buildAllStateful pkg m labels groups spec := by
  intro groups
  induction groups with
  | nil => intro spec; rfl
  | cons g rest ih =>
    intro spec
    obtain ⟨k, v⟩ := g
    rw [buildAllStateful, buildAllStateful, buildStateful_withNumPods]
    simp only [ih]

theorem buildAllDeployment_withNumPods (pkg : Package) (m : CDAPMaster) (n : Option Int)
    (labels : GoMap String String) :
    ∀ (groups : GoMap ServiceGroupName ServiceGroup) (spec : CDAPDeploymentSpec),
      buildAllDeployment pkg (m.withNumPods n) labels groups spec =
        buildAllDeployment pkg m labels groups spec := by
  intro groups
  induction groups with
  | nil => intro spec; rfl
  | cons g rest ih =>
    intro spec
    obtain ⟨k, v⟩ := g
    rw [buildAllDeployment, buildAllDeployment, buildDeployment_withNumPods]
    simp only [ih]

theorem buildAllNetworkServices_withNumPods (pkg : Package) (m : CDAPMaster)
    (n : Option Int) (labels : GoMap String String) :
    ∀ (entries : GoMap NetworkServiceName ServiceName) (spec : CDAPDeploymentSpec),
      buildAllNetworkServices pkg (m.withNumPods n) labels entries spec =
        buildAllNetworkServices pkg m labels entries spec := by
  intro entries
  induction entries with
  | nil => intro spec; rfl
  | cons e rest ih =>
    intro spec
    obtain ⟨name, target⟩ := e
    rw [buildAllNetworkServices, buildAllNetworkServices, ih]
    rfl

theorem buildFromServiceGroupMap_withNumPods (pkg : Package) (m : CDAPMaster)
    (n : Option Int) (labels : GoMap String String) (sgm : ServiceGroupMap) :
    buildFromServiceGroupMap pkg (m.withNumPods n) labels sgm =
      buildFromServiceGroupMap pkg m labels sgm := by
  simp only [buildFromServiceGroupMap, buildAllStateful_withNumPods,
    buildAllDeployment_withNumPods, buildAllNetworkServices_withNumPods]

theorem getStrategy_unsupported (numPods : Int)
    (h : ¬ (numPods = 0 ∨ numPods = 1 ∨ numPods = 2 ∨ numPods = 3)) :
    strategyHandler.getStrategy numPods = .error (.unsupportedNumPods numPods) := by
  have hmap : strategyHandler.strategyMap =
      [(0, strategy0), (1, strategy1), (2, strategy2), (3, strategy3)] := by decide
  push_neg at h
  obtain ⟨h0, h1, h2, h3⟩ := h
  have h0' : ¬ (0 : Int) = numPods := fun h => h0 h.symm
  have h1' : ¬ (1 : Int) = numPods := fun h => h1 h.symm
  have h2' : ¬ (2 : Int) = numPods := fun h => h2 h.symm
  have h3' : ¬ (3 : Int) = numPods := fun h => h3 h.symm
  unfold DeploymentStrategy.getStrategy
  rw [hmap]
  simp [GoMap.get?, h0', h1', h2', h3']

/-- C12: with both images resolved, when `Spec.NumPods` is not set
`buildCDAPDeploymentSpec` builds from the partition registered for pod-count 0
and returns what it returns for the same configuration with `NumPods` set to 0;
when `NumPods` is set to a value other than 0, 1, 2 and 3 it returns the error
that `getStrategy` returns for that value. -/
theorem buildCDAPDeploymentSpec_numPods (pkg : Package) (m : CDAPMaster)
    (labels : GoMap String String) (himg₁ : m.Status.ImageToUse ≠ "")
    (himg₂ : m.Status.UserInterfaceImageToUse ≠ "") :
    (m.Spec.NumPods = none →
      buildCDAPDeploymentSpec pkg m labels =
        buildFromServiceGroupMap pkg m labels strategy0 ∧
      buildCDAPDeploymentSpec pkg (m.withNumPods (some 0)) labels =
        buildCDAPDeploymentSpec pkg m labels) ∧
    (∀ n, m.Spec.NumPods = some n → ¬ (n = 0 ∨ n = 1 ∨ n = 2 ∨ n = 3) →
      strategyHandler.getStrategy n = .error (.unsupportedNumPods n) ∧
      buildCDAPDeploymentSpec pkg m labels = .error (.unsupportedNumPods n)) ∧
    (∀ n err, m.Spec.NumPods = some n → strategyHandler.getStrategy n = .error err →
      buildCDAPDeploymentSpec pkg m labels = .error err) := by
  refine ⟨?_, ?_, ?_⟩
  · intro hnone
    have h₁ : buildCDAPDeploymentSpec pkg m labels =
        buildFromServiceGroupMap pkg m labels strategy0 := by
      rw [buildCDAPDeploymentSpec_eq pkg m labels himg₁ himg₂]
      have : numPodsOf m = 0 := by simp [numPodsOf, hnone]
      rw [this]
      rfl
    refine ⟨h₁, ?_⟩
    rw [h₁, buildCDAPDeploymentSpec_eq pkg (m.withNumPods (some 0)) labels himg₁ himg₂]
    have : numPodsOf (m.withNumPods (some 0)) = 0 := rfl
    rw [this]
    exact buildFromServiceGroupMap_withNumPods pkg m (some 0) labels strategy0
  · intro n hn hne
    have hget := getStrategy_unsupported n hne
    refine ⟨hget, ?_⟩
    rw [buildCDAPDeploymentSpec_eq pkg m labels himg₁ himg₂]
    have : numPodsOf m = n := by simp [numPodsOf, hn]
    rw [this, hget]
  · intro n err hn hget
    rw [buildCDAPDeploymentSpec_eq pkg m labels himg₁ himg₂]
    have : numPodsOf m = n := by simp [numPodsOf, hn]
    rw [this, hget]

/-- C12, at a configuration without `NumPods` and at one with `NumPods` 99. -/
theorem buildCDAPDeploymentSpec_numPods_witness :
    masterAgreeing.Spec.NumPods = none ∧
    buildCDAPDeploymentSpec examplePackage (masterAgreeing.withNumPods (some 0)) [] =
      buildCDAPDeploymentSpec examplePackage masterAgreeing [] ∧
    buildCDAPDeploymentSpec examplePackage (masterAgreeing.withNumPods (some 99)) [] =
      .error (.unsupportedNumPods 99) :=
  ⟨rfl,
    ((buildCDAPDeploymentSpec_numPods examplePackage masterAgreeing [] (by decide)
      (by decide)).1 rfl).2,
    ((buildCDAPDeploymentSpec_numPods examplePackage (masterAgreeing.withNumPods (some 99)) []
      (by decide) (by decide)).2.1 99 rfl (by decide)).2⟩

/-! ### Shape of the bundle -/

theorem GoMap.mem_of_get? {κ ν : Type} [DecidableEq κ] (m : GoMap κ ν) (k : κ) (v : ν)
    (h : m.get? k = some v) : (k, v) ∈ m := by
  induction m with
  | nil => cases h
  | cons p rest ih =>
    obtain ⟨a, b⟩ := p
    by_cases hak : a = k
    · subst hak
      simp only [GoMap.get?, if_true, Option.some.injEq] at h
      subst h
      exact List.mem_cons_self _ _
    · simp only [GoMap.get?, hak, if_false] at h
      exact List.mem_cons_of_mem _ (ih h)

theorem getStrategy_mem (numPods : Int) (sgm : ServiceGroupMap)
    (h : strategyHandler.getStrategy numPods = .ok sgm) :
    (numPods, sgm) ∈ strategyHandler.strategyMap := by
  unfold DeploymentStrategy.getStrategy at h
  cases hg : strategyHandler.strategyMap.get? numPods with
  | none => rw [hg] at h; cases h
  | some s =>
    rw [hg] at h
    cases h
    exact GoMap.mem_of_get? _ _ _ hg

theorem forall₂_filterMap_toOption {α β : Type} (f : α → Outcome β) :
    ∀ l : List α, (∀ a ∈ l, ∃ b, f a = .ok b) →
      List.Forall₂ (fun a b => f a = .ok b) l (l.filterMap (fun a => (f a).toOption)) := by
  intro l
  induction l with
  | nil => intro _; exact List.Forall₂.nil
  | cons a rest ih =>
    intro h
    obtain ⟨b, hb⟩ := h a (List.mem_cons_self _ _)
    have hcons : (a :: rest).filterMap (fun a => (f a).toOption) =
        b :: rest.filterMap (fun a => (f a).toOption) := by
      simp [List.filterMap_cons, hb, Outcome.toOption]
    rw [hcons]
    exact List.Forall₂.cons hb (ih (fun x hx => h x (List.mem_cons_of_mem _ hx)))

theorem buildStateful_base (pkg : Package) (m : CDAPMaster) (labels : GoMap String String)
    (g : ServiceGroupName × ServiceGroup) (s : StatefulSpec)
    (h : buildStateful pkg m labels g.1 g.2 = .ok s) :
    s.Base = workloadBaseOf pkg m labels g := by
  obtain ⟨sa, rt, pc, cls, total, hsa, hrt, hpc, -, hspec⟩ :=
    buildStateful_ok pkg m labels g.1 g.2 s h
  subst hspec
  simp only [workloadBaseOf]
  rw [← (extractFieldValueAndUpdate_ok m g.2 _ _ _ hsa).2,
    ← (extractFieldValueAndUpdate_ok m g.2 _ _ _ hrt).2,
    ← (extractFieldValueAndUpdate_ok m g.2 _ _ _ hpc).2]

theorem buildDeployment_base (pkg : Package) (m : CDAPMaster) (labels : GoMap String String)
    (g : ServiceGroupName × ServiceGroup) (d : DeploymentSpec)
    (h : buildDeployment pkg m labels g.1 g.2 = .ok d) :
    d.Base = workloadBaseOf pkg m labels g := by
  obtain ⟨sa, rt, pc, hsa, hrt, hpc, hspec⟩ := buildDeployment_ok pkg m labels g.1 g.2 d h
  subst hspec
  simp only [workloadBaseOf]
  rw [← (extractFieldValueAndUpdate_ok m g.2 _ _ _ hsa).2,
    ← (extractFieldValueAndUpdate_ok m g.2 _ _ _ hrt).2,
    ← (extractFieldValueAndUpdate_ok m g.2 _ _ _ hpc).2]

theorem statefulSpecsOf_bases (pkg : Package) (m : CDAPMaster) (labels : GoMap String String) :
    ∀ groups : GoMap ServiceGroupName ServiceGroup,
      (∀ g ∈ groups, ∃ s, buildStateful pkg m labels g.1 g.2 = .ok s) →
      (statefulSpecsOf pkg m labels groups).map (fun s => s.Base) =
        groups.map (workloadBaseOf pkg m labels) := by
  intro groups
  induction groups with
  | nil => intro _; rfl
  | cons g rest ih =>
    intro h
    obtain ⟨s, hs⟩ := h g (List.mem_cons_self _ _)
    have hcons : statefulSpecsOf pkg m labels (g :: rest) =
        s :: statefulSpecsOf pkg m labels rest := by
      simp [statefulSpecsOf, List.filterMap_cons, hs, Outcome.toOption]
    rw [hcons, List.map_cons, List.map_cons, buildStateful_base pkg m labels g s hs,
      ih (fun x hx => h x (List.mem_cons_of_mem _ hx))]

theorem deploymentSpecsOf_bases (pkg : Package) (m : CDAPMaster)
    (labels : GoMap String String) :
    ∀ groups : GoMap ServiceGroupName ServiceGroup,
      (∀ g ∈ groups, ∃ s, buildDeployment pkg m labels g.1 g.2 = .ok s) →
      (deploymentSpecsOf pkg m labels groups).map (fun s => s.Base) =
        groups.map (workloadBaseOf pkg m labels) := by
  intro groups
  induction groups with
  | nil => intro _; rfl
  | cons g rest ih =>
    intro h
    obtain ⟨s, hs⟩ := h g (List.mem_cons_self _ _)
    have hcons : deploymentSpecsOf pkg m labels (g :: rest) =
        s :: deploymentSpecsOf pkg m labels rest := by
      simp [deploymentSpecsOf, List.filterMap_cons, hs, Outcome.toOption]
    rw [hcons, List.map_cons, List.map_cons, buildDeployment_base pkg m labels g s hs,
      ih (fun x hx => h x (List.mem_cons_of_mem _ hx))]

theorem buildCDAPDeploymentSpec_inv (pkg : Package) (m : CDAPMaster)
    (labels : GoMap String String) (bundle : CDAPDeploymentSpec)
    (himg₁ : m.Status.ImageToUse ≠ "") (himg₂ : m.Status.UserInterfaceImageToUse ≠ "")
    (hbuild : buildCDAPDeploymentSpec pkg m labels = .ok bundle) :
    ∃ sgm, strategyHandler.getStrategy (numPodsOf m) = .ok sgm ∧
      buildFromServiceGroupMap pkg m labels sgm = .ok bundle := by
  rw [buildCDAPDeploymentSpec_eq pkg m labels himg₁ himg₂] at hbuild
  cases hg : strategyHandler.getStrategy (numPodsOf m) with
  | error err => rw [hg] at hbuild; cases hbuild
  | ok sgm =>
    rw [hg] at hbuild
    exact ⟨sgm, rfl, hbuild⟩

theorem resourcesAvailable_of_ok (pkg : Package) (m : CDAPMaster)
    (labels : GoMap String String) (sgm : ServiceGroupMap) (bundle : CDAPDeploymentSpec)
    (h : buildFromServiceGroupMap pkg m labels sgm = .ok bundle) :
    ∀ g ∈ sgm.stateful ++ sgm.deployment, ResourcesAvailable pkg m g.2 := by
  obtain ⟨hs, hd, -⟩ := buildFromServiceGroupMap_inv pkg m labels sgm bundle h
  intro g hg
  rcases List.mem_append.1 hg with hg | hg
  · obtain ⟨s, hok⟩ := hs g hg
    exact buildStateful_ok_available pkg m labels g.1 g.2 s hok
  · obtain ⟨d, hok⟩ := hd g hg
    exact buildDeployment_ok_available pkg m labels g.1 g.2 d hok

theorem workloadBases_eq (pkg : Package) (m : CDAPMaster) (labels : GoMap String String)
    (sgm : ServiceGroupMap) (bundle : CDAPDeploymentSpec)
    (h : buildFromServiceGroupMap pkg m labels sgm = .ok bundle) :
    workloadBases bundle =
      (sgm.stateful ++ sgm.deployment).map (workloadBaseOf pkg m labels) := by
  obtain ⟨hs, hd, hb⟩ := buildFromServiceGroupMap_inv pkg m labels sgm bundle h
  subst hb
  simp only [workloadBases, List.map_append]
  rw [statefulSpecsOf_bases pkg m labels sgm.stateful hs,
    deploymentSpecsOf_bases pkg m labels sgm.deployment hd]

/-- C18: a bundle that `buildCDAPDeploymentSpec` returns with resolved images
holds one stateful spec per stateful group of the selected strategy, one
deployment spec per deployment group and one network service spec per exposed
service, two of them; the workload specs hold eight containers in total; and
visiting the groups in another order gives the same specs in another order. -/
theorem bundle_shape (pkg : Package) (m : CDAPMaster) (labels : GoMap String String)
    (bundle : CDAPDeploymentSpec)
    (himg₁ : m.Status.ImageToUse ≠ "") (himg₂ : m.Status.UserInterfaceImageToUse ≠ "")
    (hbuild : buildCDAPDeploymentSpec pkg m labels = .ok bundle) :
    ∃ sgm, strategyHandler.getStrategy (numPodsOf m) = .ok sgm ∧
      List.Forall₂ (fun g s => buildStateful pkg m labels g.1 g.2 = .ok s)
        sgm.stateful bundle.Stateful ∧
      List.Forall₂ (fun g d => buildDeployment pkg m labels g.1 g.2 = .ok d)
        sgm.deployment bundle.Deployment ∧
      bundle.NetworkServices = networkSpecsOf pkg m labels sgm.networkService ∧
      bundle.Stateful.length = sgm.stateful.length ∧
      bundle.Deployment.length = sgm.deployment.length ∧
      bundle.NetworkServices.length = sgm.networkService.length ∧
      bundle.NetworkServices.length = 2 ∧
      ((workloadBases bundle).map (fun b => b.Containers.length)).sum = 8 ∧
      (∀ sgm' : ServiceGroupMap, sgm'.stateful.Perm sgm.stateful →
        sgm'.deployment.Perm sgm.deployment →
        sgm'.networkService.Perm sgm.networkService →
        ∃ bundle', buildFromServiceGroupMap pkg m labels sgm' = .ok bundle' ∧
          bundle'.Stateful.Perm bundle.Stateful ∧
          bundle'.Deployment.Perm bundle.Deployment ∧
          bundle'.NetworkServices.Perm bundle.NetworkServices) := by
  obtain ⟨sgm, hsgm, hfrom⟩ := buildCDAPDeploymentSpec_inv pkg m labels bundle himg₁ himg₂ hbuild
  have hbases := workloadBases_eq pkg m labels sgm bundle hfrom
  obtain ⟨hs, hd, hb⟩ := buildFromServiceGroupMap_inv pkg m labels sgm bundle hfrom
  have havail := resourcesAvailable_of_ok pkg m labels sgm bundle hfrom
  have hmem := getStrategy_mem _ _ hsgm
  have hfacts : ∀ p ∈ strategyHandler.strategyMap,
      p.2.networkService.length = 2 ∧
      ((p.2.stateful ++ p.2.deployment).map (fun g => g.2.length)).sum = 8 := by decide
  obtain ⟨hnet, hsum⟩ := hfacts _ hmem
  have hst := forall₂_filterMap_toOption (fun g : ServiceGroupName × ServiceGroup =>
    buildStateful pkg m labels g.1 g.2) sgm.stateful hs
  have hdp := forall₂_filterMap_toOption (fun g : ServiceGroupName × ServiceGroup =>
    buildDeployment pkg m labels g.1 g.2) sgm.deployment hd
  refine ⟨sgm, hsgm, ?_, ?_, ?_, ?_, ?_, ?_, ?_, ?_, ?_⟩
  · rw [hb]; exact hst
  · rw [hb]; exact hdp
  · rw [hb]
  · rw [hb]; exact hst.length_eq.symm
  · rw [hb]; exact hdp.length_eq.symm
  · rw [hb]; simp [networkSpecsOf]
  · rw [hb]; simp [networkSpecsOf, hnet]
  · rw [hbases, List.map_map]
    have hlen : (sgm.stateful ++ sgm.deployment).map
        ((fun b : BaseSpec => b.Containers.length) ∘ workloadBaseOf pkg m labels) =
        (sgm.stateful ++ sgm.deployment).map (fun g => g.2.length) := by
      apply List.map_congr_left
      intro g hg
      have hlen' := congrArg List.length
        (serviceContainers_names pkg m g.2 (havail g hg))
      simpa [workloadBaseOf, workloadBase] using hlen'
    rw [hlen]
    exact hsum
  · intro sgm' hps hpd hpn
    have hs' : ∀ g ∈ sgm'.stateful, ∃ s, buildStateful pkg m labels g.1 g.2 = .ok s :=
      fun g hg => hs g (hps.mem_iff.1 hg)
    have hd' : ∀ g ∈ sgm'.deployment, ∃ s, buildDeployment pkg m labels g.1 g.2 = .ok s :=
      fun g hg => hd g (hpd.mem_iff.1 hg)
    refine ⟨_, buildFromServiceGroupMap_ok pkg m labels sgm' hs' hd', ?_, ?_, ?_⟩
    · rw [hb]; exact hps.filterMap _
    · rw [hb]; exact hpd.filterMap _
    · rw [hb]; exact hpn.map _

/-- C18, at the configuration with Logs and Messaging agreeing on "sa1" and no
pod-count: four stateful specs, four deployment specs and two network service
specs. -/
theorem bundle_shape_witness :
    ∃ bundle, buildCDAPDeploymentSpec examplePackage masterAgreeing [] = .ok bundle ∧
      bundle.Stateful.length = 4 ∧ bundle.Deployment.length = 4 ∧
      bundle.NetworkServices.length = 2 ∧
      ((workloadBases bundle).map (fun b => b.Containers.length)).sum = 8 := by
  have hb : (buildCDAPDeploymentSpec examplePackage masterAgreeing []).toBool = true := by
    decide
  cases hb' : buildCDAPDeploymentSpec examplePackage masterAgreeing [] with
  | error err => rw [hb'] at hb; cases hb
  | panic => rw [hb'] at hb; cases hb
  | ok bundle =>
    obtain ⟨sgm, hsgm, -, -, -, hl₁, hl₂, -, hl₃, hl₄, -⟩ :=
      bundle_shape examplePackage masterAgreeing [] bundle (by decide) (by decide) hb'
    have h0 : strategyHandler.getStrategy (numPodsOf masterAgreeing) = .ok strategy0 := rfl
    rw [h0] at hsgm
    cases hsgm
    exact ⟨bundle, rfl, hl₁, hl₂, hl₃, hl₄⟩

/-! ### Selectors of the network services -/

theorem string_append_left_cancel (p s t : String) (h : p ++ s = p ++ t) : s = t := by
  have hd : (p ++ s).data = (p ++ t).data := by rw [h]
  rw [String.data_append, String.data_append] at hd
  exact String.ext (List.append_cancel_left hd)

theorem workloadBaseOf_label_iff (pkg : Package) (m : CDAPMaster)
    (labels : GoMap String String) (g : ServiceGroupName × ServiceGroup) (target : ServiceName)
    (hlabel : labels.get? (pkg.labelContainerKeyPrefix ++ target) = none) :
    (workloadBaseOf pkg m labels g).Labels.get? (pkg.labelContainerKeyPrefix ++ target) =
      some m.Name ↔ target ∈ g.2 := by
  have hmem : pkg.labelContainerKeyPrefix ++ target ∈
      g.2.map (fun s => pkg.labelContainerKeyPrefix ++ s) ↔ target ∈ g.2 := by
    constructor
    · intro h
      obtain ⟨s, hs, heq⟩ := List.mem_map.1 h
      rw [← string_append_left_cancel _ _ _ heq]
      exact hs
    · intro h
      exact List.mem_map.2 ⟨target, h, rfl⟩
  simp only [workloadBaseOf, workloadBase]
  rw [serviceLabels_get?]
  by_cases ht : target ∈ g.2
  · simp [hmem.2 ht, ht]
  · have hnot : ¬ pkg.labelContainerKeyPrefix ++ target ∈
        g.2.map (fun s => pkg.labelContainerKeyPrefix ++ s) := fun h => ht (hmem.1 h)
    rw [if_neg hnot, hlabel]
    simp [ht]

theorem forall₂_map_self {α β : Type} (R : α → β → Prop) (f : α → β) :
    ∀ l : List α, (∀ a ∈ l, R a (f a)) → List.Forall₂ R l (l.map f) := by
  intro l
  induction l with
  | nil => intro _; exact List.Forall₂.nil
  | cons a rest ih =>
    intro h
    exact List.Forall₂.cons (h a (List.mem_cons_self _ _))
      (ih (fun x hx => h x (List.mem_cons_of_mem _ hx)))

/-- C13: in a bundle that `buildCDAPDeploymentSpec` returns with resolved images,
for labels passed in that use no per-service label key, the network service spec
of every exposed-service entry has the one selector `labelContainerKeyPrefix` +
target service name with the application name as value, and exactly one workload
spec of the bundle, stateful or deployment, has that label with that value: the
spec built for the group that contains the target service. -/
theorem networkService_selects_one_workload (pkg : Package) (m : CDAPMaster)
    (labels : GoMap String String) (bundle : CDAPDeploymentSpec)
    (himg₁ : m.Status.ImageToUse ≠ "") (himg₂ : m.Status.UserInterfaceImageToUse ≠ "")
    (hbuild : buildCDAPDeploymentSpec pkg m labels = .ok bundle)
    (hlabels : ∀ s ∈ serviceCatalog, labels.get? (pkg.labelContainerKeyPrefix ++ s) = none) :
    ∃ sgm, strategyHandler.getStrategy (numPodsOf m) = .ok sgm ∧
      List.Forall₂
        (fun e ns =>
          ns.Selectors = [(pkg.labelContainerKeyPrefix ++ e.2, m.Name)] ∧
          ns.Selectors.get? (pkg.labelContainerKeyPrefix ++ e.2) = some m.Name ∧
          ((workloadBases bundle).filter (fun b =>
            decide (b.Labels.get? (pkg.labelContainerKeyPrefix ++ e.2) = some m.Name))).length
            = 1 ∧
          ∀ b ∈ workloadBases bundle,
            b.Labels.get? (pkg.labelContainerKeyPrefix ++ e.2) = some m.Name →
            ∃ g ∈ sgm.stateful ++ sgm.deployment, e.2 ∈ g.2 ∧
              b = workloadBaseOf pkg m labels g ∧ b.Name = getObjectName m.Name g.1 ∧
              e.2 ∈ b.Containers.map (fun c => c.Name))
        sgm.networkService bundle.NetworkServices := by
  obtain ⟨sgm, hsgm, hfrom⟩ := buildCDAPDeploymentSpec_inv pkg m labels bundle himg₁ himg₂ hbuild
  have hbases := workloadBases_eq pkg m labels sgm bundle hfrom
  obtain ⟨-, -, hb⟩ := buildFromServiceGroupMap_inv pkg m labels sgm bundle hfrom
  have havail := resourcesAvailable_of_ok pkg m labels sgm bundle hfrom
  have hnet : bundle.NetworkServices = networkSpecsOf pkg m labels sgm.networkService := by
    rw [hb]
  have hmem := getStrategy_mem _ _ hsgm
  have hfacts : ∀ p ∈ strategyHandler.strategyMap, ∀ e ∈ p.2.networkService,
      e.2 ∈ serviceCatalog ∧
      ((p.2.stateful ++ p.2.deployment).filter (fun g => decide (e.2 ∈ g.2))).length = 1 := by
    decide
  refine ⟨sgm, hsgm, ?_⟩
  rw [hnet]
  apply forall₂_map_self
  intro e he
  obtain ⟨hcat, hone⟩ := hfacts _ hmem e he
  have hlabel := hlabels e.2 hcat
  refine ⟨?_, ?_, ?_, ?_⟩
  · simp [buildNetworkService, newNetworkServiceSpec, NetworkServiceSpec.addSelector,
      GoMap.set]
  · simp [buildNetworkService, newNetworkServiceSpec, NetworkServiceSpec.addSelector,
      GoMap.set, GoMap.get?]
  · rw [hbases, List.filter_map, List.length_map]
    have hcongr : (sgm.stateful ++ sgm.deployment).filter
        ((fun b : BaseSpec =>
          decide (b.Labels.get? (pkg.labelContainerKeyPrefix ++ e.2) = some m.Name)) ∘
          workloadBaseOf pkg m labels) =
        (sgm.stateful ++ sgm.deployment).filter (fun g => decide (e.2 ∈ g.2)) := by
      apply List.filter_congr
      intro g _
      simp only [Function.comp]
      rw [decide_eq_decide]
      exact workloadBaseOf_label_iff pkg m labels g e.2 hlabel
    rw [hcongr]
    exact hone
  · intro b hbmem hbl
    rw [hbases] at hbmem
    obtain ⟨g, hg, hgb⟩ := List.mem_map.1 hbmem
    subst hgb
    have ht := (workloadBaseOf_label_iff pkg m labels g e.2 hlabel).1 hbl
    refine ⟨g, hg, ht, rfl, rfl, ?_⟩
    simp only [workloadBaseOf, workloadBase]
    rw [serviceContainers_names pkg m g.2 (havail g hg)]
    exact ht

/-- C13, at the configuration with Logs and Messaging agreeing on "sa1", no
pod-count and the label app = cdap: the two network service specs select
"cdap.container.Router" and "cdap.container.UserInterface", each carried by one
workload spec. -/
theorem networkService_selects_one_workload_witness :
    ∃ bundle, buildCDAPDeploymentSpec examplePackage masterAgreeing [("app", "cdap")] =
        .ok bundle ∧
      bundle.NetworkServices.map (fun ns => ns.Selectors) =
        [[("cdap.container.Router", "cdap")], [("cdap.container.UserInterface", "cdap")]] ∧
      ((workloadBases bundle).filter (fun b =>
        decide (b.Labels.get? "cdap.container.Router" = some "cdap"))).length = 1 := by
  have hb : (buildCDAPDeploymentSpec examplePackage masterAgreeing
      [("app", "cdap")]).toBool = true := by decide
  cases hb' : buildCDAPDeploymentSpec examplePackage masterAgreeing [("app", "cdap")] with
  | error err => rw [hb'] at hb; cases hb
  | panic => rw [hb'] at hb; cases hb
  | ok bundle =>
    obtain ⟨sgm, hsgm, hall⟩ :=
      networkService_selects_one_workload examplePackage masterAgreeing [("app", "cdap")]
        bundle (by decide) (by decide) hb' (by decide)
    have h0 : strategyHandler.getStrategy (numPodsOf masterAgreeing) = .ok strategy0 := rfl
    rw [h0] at hsgm
    cases hsgm
    have hnet : strategy0.networkService =
        [("router", serviceRouter), ("userinterface", serviceUserInterface)] := rfl
    rw [hnet] at hall
    generalize hN : bundle.NetworkServices = N at hall
    cases hall with
    | cons h₁ hrest =>
      cases hrest with
      | cons h₂ hnil =>
        cases hnil
        refine ⟨bundle, rfl, ?_, h₁.2.2.1⟩
        rw [hN]
        simp only [List.map_cons, List.map_nil, h₁.1, h₂.1]
        rfl

/-! ### float64 rounding -/

theorem bitLenAux_zero (fuel : Nat) : bitLenAux fuel 0 = 0 := by
  cases fuel <;> simp [bitLenAux]

theorem bitLenAux_lt : ∀ (fuel n : Nat), n ≤ fuel → n < 2 ^ bitLenAux fuel n := by
  intro fuel
  induction fuel with
  | zero =>
    intro n h
    have : n = 0 := by omega
    subst this
    simp [bitLenAux]
  | succ f ih =>
    intro n h
    by_cases hn : n = 0
    · subst hn; simp [bitLenAux]
    · have hhalf : n / 2 ≤ f := by omega
      have := ih (n / 2) hhalf
      simp only [bitLenAux, hn, if_false, pow_succ]
      omega

theorem bitLenAux_pos : ∀ (fuel n : Nat), n ≤ fuel → n ≠ 0 → 1 ≤ bitLenAux fuel n := by
  intro fuel n h hn
  cases fuel with
  | zero => omega
  | succ f => simp [bitLenAux, hn]

theorem bitLenAux_le : ∀ (fuel n : Nat), n ≤ fuel → n ≠ 0 →
    2 ^ (bitLenAux fuel n - 1) ≤ n := by
  intro fuel
  induction fuel with
  | zero => intro n h hn; omega
  | succ f ih =>
    intro n h hn
    simp only [bitLenAux, hn, if_false, Nat.add_sub_cancel]
    by_cases hhalf : n / 2 = 0
    · rw [hhalf, bitLenAux_zero]
      simp
      omega
    · have hle : n / 2 ≤ f := by omega
      have h₁ := ih (n / 2) hle hhalf
      have h₂ := bitLenAux_pos f (n / 2) hle hhalf
      have hpow : 2 ^ bitLenAux f (n / 2) = 2 * 2 ^ (bitLenAux f (n / 2) - 1) := by
        rw [← pow_succ']
        congr 1
        omega
      rw [hpow]
      omega

theorem lt_two_pow_bitLen (n : Nat) : n < 2 ^ bitLen n :=
  bitLenAux_lt n n (Nat.le_refl n)

theorem two_pow_bitLen_le (n : Nat) (hn : n ≠ 0) : 2 ^ (bitLen n - 1) ≤ n :=
  bitLenAux_le n n (Nat.le_refl n) hn

theorem bitLen_le_of_lt (n j : Nat) (h : n < 2 ^ j) : bitLen n ≤ j := by
  by_cases hn : n = 0
  · subst hn
    simp [bitLen, bitLenAux_zero]
  · have h₁ := two_pow_bitLen_le n hn
    have h₂ : 2 ^ (bitLen n - 1) < 2 ^ j := Nat.lt_of_le_of_lt h₁ h
    have h₃ := (Nat.pow_lt_pow_iff_right (by norm_num : 1 < 2)).1 h₂
    omega

theorem lt_bitLen_of_le (n j : Nat) (h : 2 ^ j ≤ n) : j < bitLen n := by
  have h₂ : 2 ^ j < 2 ^ bitLen n := Nat.lt_of_le_of_lt h (lt_two_pow_bitLen n)
  exact (Nat.pow_lt_pow_iff_right (by norm_num : 1 < 2)).1 h₂

theorem roundShift_zero (n : Nat) : roundShift n 0 = n := by
  simp [roundShift, Nat.mod_one]

theorem roundShift_le (n k : Nat) : 2 * (roundShift n k * 2 ^ k) ≤ 2 * n + 2 ^ k := by
  have hd : 0 < 2 ^ k := Nat.pow_pos (by norm_num)
  have hdiv := Nat.div_add_mod n (2 ^ k)
  have hmod := Nat.mod_lt n hd
  unfold roundShift
  split
  · rename_i hc
    rw [Nat.add_mul]
    have : 2 ^ k * (n / 2 ^ k) = n / 2 ^ k * 2 ^ k := Nat.mul_comm _ _
    rcases hc with hc | ⟨hc, -⟩ <;> omega
  · have : 2 ^ k * (n / 2 ^ k) = n / 2 ^ k * 2 ^ k := Nat.mul_comm _ _
    omega

theorem roundShift_ge (n k : Nat) : 2 * n ≤ 2 * (roundShift n k * 2 ^ k) + 2 ^ k := by
  have hd : 0 < 2 ^ k := Nat.pow_pos (by norm_num)
  have hdiv := Nat.div_add_mod n (2 ^ k)
  have hmod := Nat.mod_lt n hd
  have hcomm : 2 ^ k * (n / 2 ^ k) = n / 2 ^ k * 2 ^ k := Nat.mul_comm _ _
  unfold roundShift
  split
  · rw [Nat.add_mul]
    omega
  · rename_i hc
    push_neg at hc
    omega

theorem roundShift_le_pow (n k j : Nat) (h : n < 2 ^ (k + j)) : roundShift n k ≤ 2 ^ j := by
  have hd : 0 < 2 ^ k := Nat.pow_pos (by norm_num)
  have hq : n / 2 ^ k < 2 ^ j := by
    rw [Nat.div_lt_iff_lt_mul hd, ← pow_add, Nat.add_comm]
    exact h
  unfold roundShift
  split <;> omega

theorem roundShift_ge_pow (n k j : Nat) (h : 2 ^ (k + j) ≤ n) : 2 ^ j ≤ roundShift n k := by
  have hd : 0 < 2 ^ k := Nat.pow_pos (by norm_num)
  have hq : 2 ^ j ≤ n / 2 ^ k := by
    rw [Nat.le_div_iff_mul_le hd, ← pow_add, Nat.add_comm]
    exact h
  unfold roundShift
  split <;> omega

theorem roundToFloat64_eq (neg : Bool) (n : Nat) (e : Int) :
    roundToFloat64 neg n e =
      if 1024 < (bitLen (roundShift n (max ((bitLen n : Int) - 53) (-1074 - e)).toNat) : Int) +
          (e + ((max ((bitLen n : Int) - 53) (-1074 - e)).toNat : Int)) then .inf neg
      else .finite neg (roundShift n (max ((bitLen n : Int) - 53) (-1074 - e)).toNat)
        (e + ((max ((bitLen n : Int) - 53) (-1074 - e)).toNat : Int)) := by
  unfold roundToFloat64
  simp only
  by_cases hk : max ((bitLen n : Int) - 53) (-1074 - e) ≤ 0
  · have hK : (max ((bitLen n : Int) - 53) (-1074 - e)).toNat = 0 := by omega
    simp only [hk, if_true, hK, roundShift_zero]
    simp
  · have hK : ((max ((bitLen n : Int) - 53) (-1074 - e)).toNat : Int) =
        max ((bitLen n : Int) - 53) (-1074 - e) := by omega
    simp only [hk, if_false, hK]
    rfl

theorem roundShift_mul_lt (a mr s : Nat) (ha : 0 < a) (hmr : mr < 2 ^ s) (hmr' : mr < 2 ^ 53) :
    roundShift (a * mr) (bitLen (a * mr) - 53) * 2 ^ (bitLen (a * mr) - 53) < a * 2 ^ s := by
  by_cases hK : bitLen (a * mr) - 53 = 0
  · rw [hK, roundShift_zero, pow_zero, Nat.mul_one]
    exact Nat.mul_lt_mul_of_pos_left hmr ha
  · obtain ⟨j, hj⟩ : ∃ j, bitLen (a * mr) - 53 = j + 1 := ⟨bitLen (a * mr) - 53 - 1, by omega⟩
    have hN0 : a * mr ≠ 0 := by
      intro h0
      rw [h0] at hK
      simp [bitLen, bitLenAux_zero] at hK
    have hlow := two_pow_bitLen_le (a * mr) hN0
    have hexp : bitLen (a * mr) - 1 = j + 53 := by omega
    rw [hexp, pow_add] at hlow
    have hup : a * mr < a * 2 ^ 53 := Nat.mul_lt_mul_of_pos_left hmr' ha
    have hja : 2 ^ j < a := by
      have : 2 ^ j * 2 ^ 53 < a * 2 ^ 53 := Nat.lt_of_le_of_lt hlow hup
      exact Nat.lt_of_mul_lt_mul_right this
    have hround := roundShift_le (a * mr) (j + 1)
    rw [hj]
    have hpow : 2 ^ (j + 1) = 2 * 2 ^ j := by rw [pow_succ']
    have hB : a * mr + a ≤ a * 2 ^ s := by
      have : mr + 1 ≤ 2 ^ s := hmr
      calc a * mr + a = a * (mr + 1) := by ring
        _ ≤ a * 2 ^ s := Nat.mul_le_mul_left a this
    rw [hpow] at hround ⊢
    generalize roundShift (a * mr) (j + 1) * (2 * 2 ^ j) = QP at hround ⊢
    generalize a * mr = A at hround hB
    generalize a * 2 ^ s = B at hB ⊢
    generalize 2 ^ j = X at hja hround
    omega

theorem share_lt_rounded (a k s K Q t : Nat)
    (hS : Q * 2 ^ K < a * 2 ^ s)
    (ht : t = if s ≤ k + K then Q * 2 ^ (k + K - s) else Q / 2 ^ (s - (k + K))) :
    t < a * 2 ^ k := by
  have hs : 0 < 2 ^ s := Nat.pow_pos (by norm_num)
  have hbig : Q * 2 ^ (k + K) < a * 2 ^ k * 2 ^ s := by
    have h₁ : Q * 2 ^ (k + K) = Q * 2 ^ K * 2 ^ k := by rw [pow_add]; ring
    have h₂ : a * 2 ^ k * 2 ^ s = a * 2 ^ s * 2 ^ k := by ring
    rw [h₁, h₂]
    exact Nat.mul_lt_mul_of_pos_right hS (Nat.pow_pos (by norm_num))
  by_cases hc : s ≤ k + K
  · rw [if_pos hc] at ht
    have h₁ : t * 2 ^ s = Q * 2 ^ (k + K) := by
      rw [ht, Nat.mul_assoc, ← pow_add, Nat.sub_add_cancel hc]
    have h₂ : t * 2 ^ s < a * 2 ^ k * 2 ^ s := by rw [h₁]; exact hbig
    exact Nat.lt_of_mul_lt_mul_right h₂
  · rw [if_neg hc] at ht
    rw [ht, Nat.div_lt_iff_lt_mul (Nat.pow_pos (by norm_num))]
    have hsplit : 2 ^ s = 2 ^ (s - (k + K)) * 2 ^ (k + K) := by
      rw [← pow_add]
      congr 1
      omega
    rw [hsplit, ← Nat.mul_assoc] at hbig
    exact Nat.lt_of_mul_lt_mul_right hbig

theorem share_le_pred (a k s K Q t : Nat) (hk : 1 ≤ k) (ha : 2 ^ 52 + 1 ≤ a)
    (hS : Q * 2 ^ K < a * 2 ^ s) (hQ : Q ≤ 2 ^ 53)
    (ht : t = if s ≤ k + K then Q * 2 ^ (k + K - s) else Q / 2 ^ (s - (k + K))) :
    t ≤ (a - 1) * 2 ^ k := by
  have hb : 2 ^ 52 ≤ a - 1 := by omega
  have hk2 : 2 ≤ 2 ^ k := by
    calc 2 = 2 ^ 1 := by norm_num
      _ ≤ 2 ^ k := Nat.pow_le_pow_right (by norm_num) hk
  have hbase : 2 ^ 53 ≤ (a - 1) * 2 ^ k := by
    calc 2 ^ 53 = 2 ^ 52 * 2 := by norm_num
      _ ≤ (a - 1) * 2 ^ k := Nat.mul_le_mul hb hk2
  by_cases hc : s ≤ k + K
  · rw [if_pos hc] at ht
    by_cases hKs : s ≤ K
    · have hexp : k + K - s = (K - s) + k := by omega
      have hZ : Q * 2 ^ (K - s) < a := by
        have : Q * 2 ^ (K - s) * 2 ^ s < a * 2 ^ s := by
          rw [Nat.mul_assoc, ← pow_add, Nat.sub_add_cancel hKs]
          exact hS
        exact Nat.lt_of_mul_lt_mul_right this
      rw [ht, hexp, pow_add, ← Nat.mul_assoc]
      exact Nat.mul_le_mul_right _ (by omega)
    · have hexp : k + K - s ≤ k - 1 := by omega
      have hpow : 2 ^ (k + K - s) ≤ 2 ^ (k - 1) := Nat.pow_le_pow_right (by norm_num) hexp
      have hk' : 2 ^ k = 2 * 2 ^ (k - 1) := by
        rw [← pow_succ']
        congr 1
        omega
      calc t = Q * 2 ^ (k + K - s) := ht
        _ ≤ 2 ^ 53 * 2 ^ (k - 1) := Nat.mul_le_mul hQ hpow
        _ = 2 ^ 52 * (2 * 2 ^ (k - 1)) := by ring
        _ = 2 ^ 52 * 2 ^ k := by rw [hk']
        _ ≤ (a - 1) * 2 ^ k := Nat.mul_le_mul_right _ hb
  · rw [if_neg hc] at ht
    calc t = Q / 2 ^ (s - (k + K)) := ht
      _ ≤ Q := Nat.div_le_self _ _
      _ ≤ 2 ^ 53 := hQ
      _ ≤ (a - 1) * 2 ^ k := hbase

theorem share_core (n a k s K Q t : Nat)
    (hS : Q * 2 ^ K < a * 2 ^ s) (hQ : Q ≤ 2 ^ 53)
    (hle : 2 * (a * 2 ^ k) ≤ 2 * n + 2 ^ k)
    (hk0 : k = 0 → a = n)
    (hk1 : 1 ≤ k → 2 ^ (k + 52) ≤ n ∧ 2 ^ 52 ≤ a)
    (ht : t = if s ≤ k + K then Q * 2 ^ (k + K - s) else Q / 2 ^ (s - (k + K))) :
    t < n := by
  have hT := share_lt_rounded a k s K Q t hS ht
  by_cases hM : a * 2 ^ k ≤ n
  · exact Nat.lt_of_lt_of_le hT hM
  · have hk : 1 ≤ k := by
      by_contra hk
      have hk' : k = 0 := by omega
      have := hk0 hk'
      subst hk'
      rw [pow_zero, Nat.mul_one] at hM
      omega
    obtain ⟨hn, ha⟩ := hk1 hk
    have ha' : 2 ^ 52 + 1 ≤ a := by
      by_contra hne
      have heq : a = 2 ^ 52 := by omega
      apply hM
      rw [heq, ← pow_add, Nat.add_comm]
      exact hn
    have hpred := share_le_pred a k s K Q t hk ha' hS hQ ht
    have hP : 0 < 2 ^ k := Nat.pow_pos (by norm_num)
    have hsplit : a * 2 ^ k = (a - 1) * 2 ^ k + 2 ^ k := by
      have : a = (a - 1) + 1 := by omega
      conv_lhs => rw [this]
      rw [Nat.add_mul, Nat.one_mul]
    generalize (a - 1) * 2 ^ k = B at hpred hsplit
    generalize a * 2 ^ k = M at hsplit hle hM hT
    generalize 2 ^ k = P at hsplit hle hP
    omega

theorem ofInt64_spec (m : Int) (h0 : 0 < m) (h63 : m < 2 ^ 63) :
    Float64.ofInt64 m =
      .finite false (roundShift m.toNat (bitLen m.toNat - 53)) ((bitLen m.toNat - 53 : Nat) : Int) ∧
    bitLen m.toNat - 53 ≤ 10 ∧
    m.toNat < 2 ^ (bitLen m.toNat - 53 + 53) ∧
    (1 ≤ bitLen m.toNat - 53 → 2 ^ (bitLen m.toNat - 53 + 52) ≤ m.toNat) := by
  have hnat : m.natAbs = m.toNat := by omega
  have hn63 : m.toNat < 2 ^ 63 := by
    have : (m.toNat : Int) < 2 ^ 63 := by omega
    exact_mod_cast this
  have hn0 : m.toNat ≠ 0 := by omega
  have hL : bitLen m.toNat ≤ 63 := bitLen_le_of_lt _ _ hn63
  have hlt : m.toNat < 2 ^ (bitLen m.toNat - 53 + 53) := by
    have h₁ := lt_two_pow_bitLen m.toNat
    have h₂ : 2 ^ bitLen m.toNat ≤ 2 ^ (bitLen m.toNat - 53 + 53) :=
      Nat.pow_le_pow_right (by norm_num) (by omega)
    omega
  have hge : 1 ≤ bitLen m.toNat - 53 → 2 ^ (bitLen m.toNat - 53 + 52) ≤ m.toNat := by
    intro hk
    have h₁ := two_pow_bitLen_le m.toNat hn0
    have h₂ : bitLen m.toNat - 53 + 52 = bitLen m.toNat - 1 := by omega
    rw [h₂]
    exact h₁
  refine ⟨?_, by omega, hlt, hge⟩
  have hQ := roundShift_le_pow m.toNat (bitLen m.toNat - 53) 53 hlt
  have hbl : bitLen (roundShift m.toNat (bitLen m.toNat - 53)) ≤ 54 :=
    bitLen_le_of_lt _ _ (by
      have : (2 : Nat) ^ 53 < 2 ^ 54 := by norm_num
      omega)
  have hK : (max ((bitLen m.toNat : Int) - 53) (-1074 - 0)).toNat = bitLen m.toNat - 53 := by
    omega
  unfold Float64.ofInt64
  rw [hnat, roundToFloat64_eq, hK]
  have hneg : decide (m < 0) = false := by
    rw [decide_eq_false_iff_not]
    omega
  rw [hneg, if_neg (by omega)]
  simp

theorem mul_spec (a k mr : Nat) (er : Int) (ha : a ≤ 2 ^ 53) (hk : k ≤ 10)
    (hmr : mr < 2 ^ 53) (her : -1074 ≤ er) (her' : er < 0) :
    Float64.mul (.finite false a (k : Int)) (.finite false mr er) =
      .finite false (roundShift (a * mr) (bitLen (a * mr) - 53))
        ((k : Int) + er + ((bitLen (a * mr) - 53 : Nat) : Int)) ∧
    roundShift (a * mr) (bitLen (a * mr) - 53) ≤ 2 ^ 53 := by
  have hN : a * mr < 2 ^ 106 := by
    calc a * mr ≤ 2 ^ 53 * mr := Nat.mul_le_mul_right _ ha
      _ < 2 ^ 53 * 2 ^ 53 := Nat.mul_lt_mul_of_pos_left hmr (by norm_num)
      _ = 2 ^ 106 := by norm_num
  have hL : bitLen (a * mr) ≤ 106 := bitLen_le_of_lt _ _ hN
  have hlt : a * mr < 2 ^ (bitLen (a * mr) - 53 + 53) := by
    have h₁ := lt_two_pow_bitLen (a * mr)
    have h₂ : 2 ^ bitLen (a * mr) ≤ 2 ^ (bitLen (a * mr) - 53 + 53) :=
      Nat.pow_le_pow_right (by norm_num) (by omega)
    omega
  have hQ := roundShift_le_pow (a * mr) (bitLen (a * mr) - 53) 53 hlt
  have hbl : bitLen (roundShift (a * mr) (bitLen (a * mr) - 53)) ≤ 54 :=
    bitLen_le_of_lt _ _ (by
      have : (2 : Nat) ^ 53 < 2 ^ 54 := by norm_num
      omega)
  have hK : (max ((bitLen (a * mr) : Int) - 53) (-1074 - ((k : Int) + er))).toNat =
      bitLen (a * mr) - 53 := by omega
  refine ⟨?_, hQ⟩
  show roundToFloat64 (xor false false) (a * mr) ((k : Int) + er) = _
  rw [roundToFloat64_eq, hK, if_neg (by omega)]
  simp

theorem toInt64_finite (Q : Nat) (X : Int) (s kK t : Nat) (hX : X = (kK : Int) - (s : Int))
    (ht : t = if s ≤ kK then Q * 2 ^ (kK - s) else Q / 2 ^ (s - kK)) (hlt : t < 2 ^ 63) :
    Float64.toInt64 (.finite false Q X) = (t : Int) := by
  have hlt' : (t : Int) < 2 ^ 63 := by
    have : ((2 ^ 63 : Nat) : Int) = 2 ^ 63 := by norm_num
    rw [← this]
    exact Int.ofNat_lt.2 hlt
  have hge : -2 ^ 63 ≤ (t : Int) := by
    have h₁ : (0 : Int) ≤ (t : Int) := Int.natCast_nonneg t
    have h₂ : (-2 ^ 63 : Int) ≤ 0 := by norm_num
    exact le_trans h₂ h₁
  unfold Float64.toInt64
  by_cases hc : s ≤ kK
  · have h₁ : 0 ≤ X := by omega
    have h₂ : X.toNat = kK - s := by omega
    rw [if_pos hc] at ht
    simp only [h₁, if_true, h₂, Bool.false_eq_true, if_false, ← ht]
    rw [if_pos ⟨hge, hlt'⟩]
  · have h₁ : ¬ 0 ≤ X := by omega
    have h₂ : (-X).toNat = s - kK := by omega
    rw [if_neg hc] at ht
    simp only [h₁, if_false, h₂, Bool.false_eq_true, ← ht]
    rw [if_pos ⟨hge, hlt'⟩]
theorem heapRatioShare_bounds (pkg : Package) (memory : Int) (h0 : 0 < memory)
    (h63 : memory < 2 ^ 63) (hratio : pkg.javaMinHeapRatio.IsProperRatio) :
    0 ≤ heapRatioShare pkg memory ∧ heapRatioShare pkg memory < memory := by
  cases hr : pkg.javaMinHeapRatio with
  | inf neg => rw [hr] at hratio; exact absurd hratio (by simp [Float64.IsProperRatio])
  | nan => rw [hr] at hratio; exact absurd hratio (by simp [Float64.IsProperRatio])
  | finite neg mr er =>
    rw [hr] at hratio
    obtain ⟨hneg, hmr0, hmr53, her, her', hmrs⟩ := hratio
    subst hneg
    obtain ⟨hof, hk10, hnlt, hnge⟩ := ofInt64_spec memory h0 h63
    generalize hn : memory.toNat = n at hof hk10 hnlt hnge
    generalize hk : bitLen n - 53 = k at hof hk10 hnlt hnge
    have ha53 : roundShift n k ≤ 2 ^ 53 := roundShift_le_pow n k 53 hnlt
    obtain ⟨hmul, hQ⟩ := mul_spec (roundShift n k) k mr er ha53 hk10 hmr53 her her'
    have hn0 : 0 < n := by omega
    have hapos : 0 < roundShift n k := by
      by_cases hk0 : k = 0
      · subst hk0; rw [roundShift_zero]; exact hn0
      · have := roundShift_ge_pow n k 52 (hnge (by omega))
        have : 0 < (2 : Nat) ^ 52 := by norm_num
        omega
    have hS := roundShift_mul_lt (roundShift n k) mr (-er).toNat hapos hmrs hmr53
    generalize hK : bitLen (roundShift n k * mr) - 53 = K at hmul hQ hS
    generalize hQdef : roundShift (roundShift n k * mr) K = Q at hmul hQ hS
    have hcore := share_core n (roundShift n k) k (-er).toNat K Q
      (if (-er).toNat ≤ k + K then Q * 2 ^ (k + K - (-er).toNat)
        else Q / 2 ^ ((-er).toNat - (k + K)))
      hS hQ (roundShift_le n k)
      (by intro hk0; subst hk0; exact roundShift_zero n)
      (by intro hk1; exact ⟨hnge hk1, roundShift_ge_pow n k 52 (hnge hk1)⟩)
      rfl
    have hn63 : n < 2 ^ 63 := by
      have : (n : Int) < 2 ^ 63 := by omega
      exact_mod_cast this
    have hto := toInt64_finite Q ((k : Int) + er + (K : Int)) (-er).toNat (k + K) _
      (by push_cast; omega) rfl (Nat.lt_trans hcore hn63)
    generalize (if (-er).toNat ≤ k + K then Q * 2 ^ (k + K - (-er).toNat)
        else Q / 2 ^ ((-er).toNat - (k + K))) = t at hcore hto
    unfold heapRatioShare
    rw [hr, hof, hmul, hto]
    have hmem : memory = (n : Int) := by omega
    constructor
    · exact Int.natCast_nonneg _
    · rw [hmem]
      exact Int.ofNat_lt.2 hcore

theorem addJavaMaxHeapEnvIfNotPresent_value (pkg : Package) (env : List EnvVar)
    (resources : ResourceRequirements)
    (hno : ∀ e ∈ env, e.Name ≠ pkg.javaMaxHeapSizeEnvVarName)
    (hmem : 0 < max resources.requestsMemory resources.limitsMemory) :
    addJavaMaxHeapEnvIfNotPresent pkg env (some resources) =
      some (env ++ [EnvVar.mk pkg.javaMaxHeapSizeEnvVarName
        ("-Xmx" ++ toString
          (max (wrapInt64 (max resources.requestsMemory resources.limitsMemory -
              pkg.javaReservedNonHeap))
            (heapRatioShare pkg (max resources.requestsMemory resources.limitsMemory))))]) := by
  have hloop : hasMaxHeapLoop pkg env false = false := (hasMaxHeapLoop_false_iff pkg env).2 hno
  simp only [addJavaMaxHeapEnvIfNotPresent, hloop, Max_eq_max, heapRatioShare]
  simp [hmem]

/-- C20: when `addJavaMaxHeapEnvIfNotPresent` adds a heap-size entry, for `int64`
memory values, a positive `int64` constant `javaReservedNonHeap` and a `float64`
constant `javaMinHeapRatio` strictly between 0 and 1, the value `h` written after
"-Xmx" is the larger of `memory - javaReservedNonHeap` and the ratio share
`int64(float64(memory) * javaMinHeapRatio)`; it satisfies `0 <= h < memory`, and
`h = memory - javaReservedNonHeap` exactly when that difference is at least the
ratio share. -/
theorem heap_value_bounds (pkg : Package) (env : List EnvVar)
    (resources : ResourceRequirements)
    (hno : ∀ e ∈ env, e.Name ≠ pkg.javaMaxHeapSizeEnvVarName)
    (hmem : 0 < max resources.requestsMemory resources.limitsMemory)
    (hreq : resources.requestsMemory < 2 ^ 63) (hlim : resources.limitsMemory < 2 ^ 63)
    (hres : 0 < pkg.javaReservedNonHeap) (hres' : pkg.javaReservedNonHeap < 2 ^ 63)
    (hratio : pkg.javaMinHeapRatio.IsProperRatio) :
    ∃ h : Int,
      addJavaMaxHeapEnvIfNotPresent pkg env (some resources) =
        some (env ++ [EnvVar.mk pkg.javaMaxHeapSizeEnvVarName ("-Xmx" ++ toString h)]) ∧
      h = max (max resources.requestsMemory resources.limitsMemory - pkg.javaReservedNonHeap)
        (heapRatioShare pkg (max resources.requestsMemory resources.limitsMemory)) ∧
      0 ≤ h ∧ h < max resources.requestsMemory resources.limitsMemory ∧
      (h = max resources.requestsMemory resources.limitsMemory - pkg.javaReservedNonHeap ↔
        heapRatioShare pkg (max resources.requestsMemory resources.limitsMemory) ≤
          max resources.requestsMemory resources.limitsMemory - pkg.javaReservedNonHeap) := by
  have hval := addJavaMaxHeapEnvIfNotPresent_value pkg env resources hno hmem
  have hm63 : max resources.requestsMemory resources.limitsMemory < 2 ^ 63 := max_lt hreq hlim
  generalize max resources.requestsMemory resources.limitsMemory = memory at hval hmem hm63 ⊢
  have hwrap : wrapInt64 (memory - pkg.javaReservedNonHeap) =
      memory - pkg.javaReservedNonHeap := wrapInt64_eq _ (by omega) (by omega)
  rw [hwrap] at hval
  obtain ⟨hs0, hslt⟩ := heapRatioShare_bounds pkg memory hmem hm63 hratio
  generalize heapRatioShare pkg memory = share at hval hs0 hslt ⊢
  generalize pkg.javaReservedNonHeap = reserved at hval hres ⊢
  refine ⟨max (memory - reserved) share, hval, rfl, ?_, ?_, ?_⟩
  · exact le_trans hs0 (le_max_right _ _)
  · exact max_lt (by omega) hslt
  · constructor
    · intro h
      rw [← h]
      exact le_max_right _ _
    · intro h
      exact max_eq_left h

/-- C20, with request = limit = 2_000_000_000, reserved 500_000_000 and ratio
0.6: the value is 1_500_000_000, the difference, which is at least the ratio
share 1_200_000_000. -/
theorem heap_value_bounds_witness :
    examplePackage.javaMinHeapRatio.IsProperRatio ∧
    heapRatioShare examplePackage 2000000000 = 1200000000 ∧
    ∃ h : Int,
      addJavaMaxHeapEnvIfNotPresent examplePackage [EnvVar.mk "A" "1"]
        (some { requestsMemory := 2000000000, limitsMemory := 2000000000 }) =
        some [EnvVar.mk "A" "1", EnvVar.mk "JAVA_HEAPMAX" ("-Xmx" ++ toString h)] ∧
      0 ≤ h ∧ h < 2000000000 := by
  have hratio : examplePackage.javaMinHeapRatio.IsProperRatio := by decide
  have hshare : heapRatioShare examplePackage 2000000000 = 1200000000 := by
    set_option maxRecDepth 100000 in decide
  obtain ⟨h, hval, -, h0, hlt, -⟩ := heap_value_bounds examplePackage [EnvVar.mk "A" "1"]
    { requestsMemory := 2000000000, limitsMemory := 2000000000 }
    (by decide) (by decide) (by decide) (by decide) (by decide) (by decide) hratio
  exact ⟨hratio, hshare, h, hval, h0, hlt⟩

end CDAP
